import Mathlib

/-!
# hprose-golang: wire writers, the decoder of big numbers and the UUID writer

A shallow embedding of `io/encoding/encode.go`, `io/encoding/slice_encoder.go`,
`encoding/big_decoder.go` and `encoding/uuid_encoder.go`.
Bytes are natural numbers below 256, Go `string` and `[]byte` values are lists of bytes,
signed machine integers are `Int`, unsigned ones are `Nat`, and every function that
writes to a sink takes the sink state and returns the new state with the Go `error`.
A decoding function takes the decoder state and returns its result with the new state;
a call that can fault returns an `Outcome`.

The file has three parts: the definitions translated from the source, the reference
definitions the claims are stated with (decimal text, UTF-8 decoding, unit shapes), and
the lemmas and theorems.
-/

namespace Hprose

/-- Bytes of an ASCII string constant. -/
def stringBytes (s : String) : List Nat := s.toList.map Char.toNat

/-! ## The byte sink -/

/-- A Go `error` value reported by the sink. -/
structure GoError where
  code : Nat
deriving DecidableEq

/-- Modelled from the spec: the `io.BytesWriter` sink (`Write`, `WriteByte`) is declared
outside the files at hand. The sink keeps the bytes it has accepted and the number of
calls made to it; `script` fixes the fate of the coming calls: `none` lets the call
succeed, `some (k, e)` makes it accept only the first `k` bytes and return the error `e`,
and once the script is used up every call succeeds. -/
structure Writer where
  data : List Nat
  script : List (Option (Nat × GoError))
  calls : Nat
deriving DecidableEq

/-- The sink state after a call together with the error of that call (`none` is `nil`). -/
abbrev Result := Writer × Option GoError

/-- Modelled from the spec: `writer.Write(p)`, "write bytes"; a partial write is not
rolled back. -/
def Writer.Write (w : Writer) (p : List Nat) : Result :=
  match w.script with
  | [] => (⟨w.data ++ p, [], w.calls + 1⟩, none)
  | none :: rest => (⟨w.data ++ p, rest, w.calls + 1⟩, none)
  | some (k, e) :: rest => (⟨w.data ++ p.take k, rest, w.calls + 1⟩, some e)

/-- Modelled from the spec: `writer.WriteByte(c)`, "write one byte". -/
def Writer.WriteByte (w : Writer) (c : Nat) : Result :=
  w.Write [c]

/-- A sink that holds `data` and never fails. -/
def Writer.reliable (data : List Nat) : Writer := ⟨data, [], 0⟩

/-! ## Tags -/

/-- Modelled from the spec: tag byte `'i'` of package `io`. -/
def TagInteger : Nat := 105
/-- Modelled from the spec: tag byte `'l'` of package `io`. -/
def TagLong : Nat := 108
/-- Modelled from the spec: tag byte `'d'` of package `io`. -/
def TagDouble : Nat := 100
/-- Modelled from the spec: tag byte `'n'` of package `io`. -/
def TagNull : Nat := 110
/-- Modelled from the spec: tag byte `'e'` of package `io`. -/
def TagEmpty : Nat := 101
/-- Modelled from the spec: tag byte `'t'` of package `io`. -/
def TagTrue : Nat := 116
/-- Modelled from the spec: tag byte `'f'` of package `io`. -/
def TagFalse : Nat := 102
/-- Modelled from the spec: tag byte `'N'` of package `io`. -/
def TagNaN : Nat := 78
/-- Modelled from the spec: tag byte `'I'` of package `io`. -/
def TagInfinity : Nat := 73
/-- Modelled from the spec: tag byte `'+'` of package `io`. -/
def TagPos : Nat := 43
/-- Modelled from the spec: tag byte `'-'` of package `io`. -/
def TagNeg : Nat := 45
/-- Modelled from the spec: tag byte `'s'` of package `io`. -/
def TagString : Nat := 115
/-- Modelled from the spec: tag byte `'b'` of package `io`. -/
def TagBytes : Nat := 98
/-- Modelled from the spec: tag byte `'a'` of package `io`. -/
def TagList : Nat := 97
/-- Modelled from the spec: tag byte `'o'` of package `io`. -/
def TagObject : Nat := 111
/-- Modelled from the spec: tag byte `'{'` of package `io`. -/
def TagOpenbrace : Nat := 123
/-- Modelled from the spec: tag byte `'}'` of package `io`. -/
def TagClosebrace : Nat := 125
/-- Modelled from the spec: tag byte `';'` of package `io`. -/
def TagSemicolon : Nat := 59
/-- Modelled from the spec: tag byte `'"'` of package `io`. -/
def TagQuote : Nat := 34

/-! ## Go primitives used by the writers -/

/-- Go `math.MinInt64`. -/
def MinInt64 : Int := -9223372036854775808
/-- Go `math.MinInt32`. -/
def MinInt32 : Int := -2147483648
/-- Go `math.MaxInt32`. -/
def MaxInt32 : Int := 2147483647
/-- Go `math.MaxInt64`. -/
def MaxInt64 : Int := 9223372036854775807
/-- Go `math.MaxUint64`. -/
def MaxUint64 : Nat := 18446744073709551615

/-- The conversion `uint64(i)` of a signed integer: reduction modulo `2^64`. -/
def uint64 (i : Int) : Nat := (i % 18446744073709551616).toNat

/-- The `int64` negation `-i`, wrapping around at `2^63`. -/
def negInt64 (i : Int) : Int :=
  (-i + 9223372036854775808) % 18446744073709551616 - 9223372036854775808

/-- Indexing `s[i]` into a string or slice; the source indexes in bounds only. -/
def byteAt (s : List Nat) (i : Nat) : Nat := s.getD i 0

/-- The slice expression `s[lo:hi]`; the source slices in bounds only. -/
def slice (s : List Nat) (lo hi : Nat) : List Nat := (s.drop lo).take (hi - lo)

/-- The assignment of `src`, element by element, to `buf[off]`, `buf[off+1]`, ... -/
def copyAt (buf : List Nat) (off : Nat) : List Nat → List Nat
  | [] => buf
  | b :: bs => copyAt (buf.set off b) (off + 1) bs

/-- Go `copy(buf[lo:hi], src)`: copies `min (hi - lo) (len src)` elements. -/
def copy (buf : List Nat) (lo hi : Int) (src : List Nat) : List Nat :=
  copyAt buf lo.toNat (src.take (hi - lo).toNat)

/-! ## Decimal conversion tables -/

/-- The constant `digits`. -/
def digits : List Nat := stringBytes "0123456789"

/-- The constant `digit2`, the two-digit numerals `00` to `99`. -/
def digit2 : List Nat :=
  stringBytes ("" ++
    "0001020304050607080910111213141516171819" ++
    "2021222324252627282930313233343536373839" ++
    "4041424344454647484950515253545556575859" ++
    "6061626364656667686970717273747576777879" ++
    "8081828384858687888990919293949596979899")

/-- The constant `digit3`, the three-digit numerals `000` to `999`. -/
def digit3 : List Nat :=
  stringBytes ("" ++
    "000001002003004005006007008009010011012013014015016017018019" ++
    "020021022023024025026027028029030031032033034035036037038039" ++
    "040041042043044045046047048049050051052053054055056057058059" ++
    "060061062063064065066067068069070071072073074075076077078079" ++
    "080081082083084085086087088089090091092093094095096097098099" ++
    "100101102103104105106107108109110111112113114115116117118119" ++
    "120121122123124125126127128129130131132133134135136137138139" ++
    "140141142143144145146147148149150151152153154155156157158159" ++
    "160161162163164165166167168169170171172173174175176177178179" ++
    "180181182183184185186187188189190191192193194195196197198199" ++
    "200201202203204205206207208209210211212213214215216217218219" ++
    "220221222223224225226227228229230231232233234235236237238239" ++
    "240241242243244245246247248249250251252253254255256257258259" ++
    "260261262263264265266267268269270271272273274275276277278279" ++
    "280281282283284285286287288289290291292293294295296297298299" ++
    "300301302303304305306307308309310311312313314315316317318319" ++
    "320321322323324325326327328329330331332333334335336337338339" ++
    "340341342343344345346347348349350351352353354355356357358359" ++
    "360361362363364365366367368369370371372373374375376377378379" ++
    "380381382383384385386387388389390391392393394395396397398399" ++
    "400401402403404405406407408409410411412413414415416417418419" ++
    "420421422423424425426427428429430431432433434435436437438439" ++
    "440441442443444445446447448449450451452453454455456457458459" ++
    "460461462463464465466467468469470471472473474475476477478479" ++
    "480481482483484485486487488489490491492493494495496497498499" ++
    "500501502503504505506507508509510511512513514515516517518519" ++
    "520521522523524525526527528529530531532533534535536537538539" ++
    "540541542543544545546547548549550551552553554555556557558559" ++
    "560561562563564565566567568569570571572573574575576577578579" ++
    "580581582583584585586587588589590591592593594595596597598599" ++
    "600601602603604605606607608609610611612613614615616617618619" ++
    "620621622623624625626627628629630631632633634635636637638639" ++
    "640641642643644645646647648649650651652653654655656657658659" ++
    "660661662663664665666667668669670671672673674675676677678679" ++
    "680681682683684685686687688689690691692693694695696697698699" ++
    "700701702703704705706707708709710711712713714715716717718719" ++
    "720721722723724725726727728729730731732733734735736737738739" ++
    "740741742743744745746747748749750751752753754755756757758759" ++
    "760761762763764765766767768769770771772773774775776777778779" ++
    "780781782783784785786787788789790791792793794795796797798799" ++
    "800801802803804805806807808809810811812813814815816817818819" ++
    "820821822823824825826827828829830831832833834835836837838839" ++
    "840841842843844845846847848849850851852853854855856857858859" ++
    "860861862863864865866867868869870871872873874875876877878879" ++
    "880881882883884885886887888889890891892893894895896897898899" ++
    "900901902903904905906907908909910911912913914915916917918919" ++
    "920921922923924925926927928929930931932933934935936937938939" ++
    "940941942943944945946947948949950951952953954955956957958959" ++
    "960961962963964965966967968969970971972973974975976977978979" ++
    "980981982983984985986987988989990991992993994995996997998999")

/-- The variable `minInt64Buf`. -/
def minInt64Buf : List Nat := stringBytes "-9223372036854775808"

/-! ## Integer to decimal -/

/-- The `for i >= 100` loop of `toBytes`; `fuel` bounds the number of iterations. -/
def toBytesLoop : Nat → Nat → Int → List Nat → Nat × Int × List Nat
  | 0, i, off, buf => (i, off, buf)
  | fuel + 1, i, off, buf =>
    if i ≥ 100 then
      let q := i / 1000
      let p := (i - (q * 1000)) * 3
      let off := off - 3
      toBytesLoop fuel q off (copy buf off (off + 3) (slice digit3 p (p + 3)))
    else
      (i, off, buf)

/-- The function `toBytes(i, buf)`: returns `off` and the buffer it has filled from
the end. The loop runs on fuel `i`, which it cannot use up since `i` decreases. -/
def toBytes (i : Nat) (buf : List Nat) : Int × List Nat :=
  let off : Int := buf.length
  match toBytesLoop i i off buf with
  | (i, off, buf) =>
    let r : Nat × Int × List Nat :=
      if i ≥ 10 then
        let q := i / 100
        let p := (i - (q * 100)) * 2
        let off := off - 2
        (q, off, copy buf off (off + 2) (slice digit2 p (p + 2)))
      else
        (i, off, buf)
    match r with
    | (i, off, buf) =>
      if i > 0 then
        let off := off - 1
        (off, buf.set off.toNat (byteAt digits i))
      else
        (off, buf)

/-- The function `writeUint64(writer, i)`. -/
def writeUint64 (writer : Writer) (i : Nat) : Result :=
  if i ≥ 0 ∧ i ≤ 9 then
    writer.WriteByte (byteAt digits i)
  else
    let buf := List.replicate 20 0
    match toBytes i buf with
    | (off, buf) => writer.Write (buf.drop off.toNat)

/-- The function `writeInt64(writer, i)`; 45 is the byte `'-'`. -/
def writeInt64 (writer : Writer) (i : Int) : Result :=
  if i ≥ 0 then
    writeUint64 writer (uint64 i)
  else if i = MinInt64 then
    writer.Write minInt64Buf
  else
    let u := uint64 (negInt64 i)
    let buf := List.replicate 20 0
    match toBytes u buf with
    | (off, buf) =>
      let off := off - 1
      let buf := buf.set off.toNat 45
      writer.Write (buf.drop off.toNat)

/-- The function `WriteInt64(writer, i)`. -/
def WriteInt64 (writer : Writer) (i : Int) : Result :=
  if i ≥ 0 ∧ i ≤ 9 then
    writer.WriteByte (byteAt digits i.toNat)
  else
    let tag := if i < MinInt32 ∨ i > MaxInt32 then TagLong else TagInteger
    match writer.WriteByte tag with
    | (writer, none) =>
      match writeInt64 writer i with
      | (writer, none) => writer.WriteByte TagSemicolon
      | r => r
    | r => r

/-- The function `WriteUint64(writer, i)`. -/
def WriteUint64 (writer : Writer) (i : Nat) : Result :=
  if i ≥ 0 ∧ i ≤ 9 then
    writer.WriteByte (byteAt digits i)
  else
    let tag := if (i : Int) > MaxInt32 then TagLong else TagInteger
    match writer.WriteByte tag with
    | (writer, none) =>
      match writeUint64 writer i with
      | (writer, none) => writer.WriteByte TagSemicolon
      | r => r
    | r => r

/-- The function `WriteInt32(writer, i)`. -/
def WriteInt32 (writer : Writer) (i : Int) : Result :=
  if i ≥ 0 ∧ i ≤ 9 then
    writer.WriteByte (byteAt digits i.toNat)
  else
    match writer.WriteByte TagInteger with
    | (writer, none) =>
      match writeInt64 writer i with
      | (writer, none) => writer.WriteByte TagSemicolon
      | r => r
    | r => r

/-- The function `WriteUint32(writer, i)`. -/
def WriteUint32 (writer : Writer) (i : Nat) : Result :=
  WriteUint64 writer i

/-- The function `WriteInt16(writer, i)`. -/
def WriteInt16 (writer : Writer) (i : Int) : Result :=
  WriteInt32 writer i

/-- The function `WriteUint16(writer, i)`. -/
def WriteUint16 (writer : Writer) (i : Nat) : Result :=
  if i ≥ 0 ∧ i ≤ 9 then
    writer.WriteByte (byteAt digits i)
  else
    match writer.WriteByte TagInteger with
    | (writer, none) =>
      match writeUint64 writer i with
      | (writer, none) => writer.WriteByte TagSemicolon
      | r => r
    | r => r

/-- The function `WriteInt8(writer, i)`. -/
def WriteInt8 (writer : Writer) (i : Int) : Result :=
  WriteInt32 writer i

/-- The function `WriteUint8(writer, i)`. -/
def WriteUint8 (writer : Writer) (i : Nat) : Result :=
  WriteUint16 writer i

/-- The function `WriteInt(writer, i)`. -/
def WriteInt (writer : Writer) (i : Int) : Result :=
  WriteInt64 writer i

/-- The function `WriteUint(writer, i)`. -/
def WriteUint (writer : Writer) (i : Nat) : Result :=
  WriteUint64 writer i

/-- The function `WriteNil(writer)`. -/
def WriteNil (writer : Writer) : Result :=
  writer.WriteByte TagNull

/-- The function `WriteBool(writer, b)`. -/
def WriteBool (writer : Writer) (b : Bool) : Result :=
  if b then
    writer.WriteByte TagTrue
  else
    writer.WriteByte TagFalse

/-! ## Floating point values -/

/-- A Go `float64`, given by its IEEE-754 bit pattern (sign, 11 exponent bits, 52 fraction
bits). A `float32` argument is held as the `float64` it converts to without loss. -/
structure Float64 where
  bits : Nat
deriving DecidableEq

/-- The biased exponent field. -/
def Float64.exponent (f : Float64) : Nat := f.bits / 4503599627370496 % 2048
/-- The fraction field. -/
def Float64.fraction (f : Float64) : Nat := f.bits % 4503599627370496
/-- The sign bit. -/
def Float64.sign (f : Float64) : Nat := f.bits / 9223372036854775808 % 2

/-- The comparison `f != f`, true of the NaNs only. -/
def Float64.isNaN (f : Float64) : Bool := f.exponent = 2047 ∧ f.fraction ≠ 0
/-- The comparison `f > math.MaxFloat64`, true of positive infinity only. -/
def Float64.gtMaxFloat64 (f : Float64) : Bool :=
  f.sign = 0 ∧ f.exponent = 2047 ∧ f.fraction = 0
/-- The comparison `f < -math.MaxFloat64`, true of negative infinity only. -/
def Float64.ltNegMaxFloat64 (f : Float64) : Bool :=
  f.sign = 1 ∧ f.exponent = 2047 ∧ f.fraction = 0
/-- The comparison `f == 0`, true of the two zeros. -/
def Float64.isZero (f : Float64) : Bool := f.exponent = 0 ∧ f.fraction = 0

/-! ## The encoder and the code it calls outside these files -/

/-- Modelled from the spec: the `Encoder` type is declared outside the files at hand. It
holds the output sink and the number of reference slots consumed so far. -/
structure Encoder where
  Writer : Hprose.Writer
  refCount : Nat
deriving DecidableEq

/-- The encoder state after a call together with the error of that call. -/
abbrev EncResult := Encoder × Option GoError

/-- Modelled from the spec: `enc.AddReferenceCount(n)` consumes `n` reference slots. -/
def Encoder.AddReferenceCount (enc : Encoder) (n : Nat) : Encoder :=
  ⟨enc.Writer, enc.refCount + n⟩

/-- A call that writes to `enc.Writer`: the sink of the encoder is updated in place. -/
def Encoder.onWriter (enc : Encoder) (r : Result) : EncResult :=
  (⟨r.1, enc.refCount⟩, r.2)

/-- Functions the writers call whose code is not in the files at hand: the formatter
`strconv.AppendFloat(buf[:0], f, 'g', -1, bitSize)` of the Go library, and the encoders
`EncodeString(enc, s)` and `enc.Encode(v)` of this package; `α` is the type of the values
handed to `enc.Encode`, and `BoxByte` is the value a reflective index load yields for an
element of a byte slice. -/
structure Externals (α : Type) where
  AppendFloat : Float64 → Nat → List Nat
  EncodeString : Encoder → List Nat → EncResult
  Encode : Encoder → α → EncResult
  BoxByte : Nat → α

/-- The function `writeFloat(writer, f, bitSize)`. -/
def writeFloat {α : Type} (ext : Externals α) (writer : Writer) (f : Float64) (bitSize : Nat) :
    Result :=
  if f.isNaN then
    writer.WriteByte TagNaN
  else if f.gtMaxFloat64 then
    match writer.WriteByte TagInfinity with
    | (writer, none) => writer.WriteByte TagPos
    | r => r
  else if f.ltNegMaxFloat64 then
    match writer.WriteByte TagInfinity with
    | (writer, none) => writer.WriteByte TagNeg
    | r => r
  else
    match writer.WriteByte TagDouble with
    | (writer, none) =>
      match writer.Write (ext.AppendFloat f bitSize) with
      | (writer, none) => writer.WriteByte TagSemicolon
      | r => r
    | r => r

/-- The function `WriteFloat32(writer, f)`. -/
def WriteFloat32 {α : Type} (ext : Externals α) (writer : Writer) (f : Float64) : Result :=
  writeFloat ext writer f 32

/-- The function `WriteFloat64(writer, f)`. -/
def WriteFloat64 {α : Type} (ext : Externals α) (writer : Writer) (f : Float64) : Result :=
  writeFloat ext writer f 64

/-! ## Strings and bytes -/

/-- The loop of `utf16Length` from index `i` on: `rest` is `str[i:]`, and `n` and `c` are
the variables of the source. -/
def utf16LengthLoop : List Nat → Int → Int → Int
  | [], n, c => if c ≠ 0 then -1 else n
  | a :: rest, n, c =>
    if c = 0 then
      if a &&& 0xe0 = 0xc0 then
        utf16LengthLoop rest (n - 1) 1
      else if a &&& 0xf0 = 0xe0 then
        utf16LengthLoop rest (n - 2) 2
      else if a &&& 0xf8 = 0xf0 then
        utf16LengthLoop rest (n - 2) 3
      else if a &&& 0x80 = 0x80 then
        -1
      else
        utf16LengthLoop rest n c
    else
      if a &&& 0xc0 ≠ 0x80 then
        -1
      else
        utf16LengthLoop rest n (c - 1)

/-- The function `utf16Length(str)`. -/
def utf16Length (str : List Nat) : Int :=
  let length : Int := str.length
  utf16LengthLoop str length 0

/-- The function `writeBinary(writer, bytes, length)`. -/
def writeBinary (writer : Writer) (bytes : List Nat) (length : Int) : Result :=
  let r : Result := if length > 0 then writeUint64 writer (uint64 length) else (writer, none)
  match r with
  | (writer, none) =>
    match writer.WriteByte TagQuote with
    | (writer, none) =>
      match writer.Write bytes with
      | (writer, none) => writer.WriteByte TagQuote
      | r => r
    | r => r
  | r => r

/-- The function `writeBytes(writer, bytes)`. -/
def writeBytes (writer : Writer) (bytes : List Nat) : Result :=
  match writer.WriteByte TagBytes with
  | (writer, none) => writeBinary writer bytes bytes.length
  | r => r

/-- The function `writeString(writer, s, length)`; `reflect2.UnsafeCastString(s)` is the
byte sequence of `s`. -/
def writeString (writer : Writer) (s : List Nat) (length : Int) : Result :=
  if length < 0 then
    writeBytes writer s
  else
    match writer.WriteByte TagString with
    | (writer, none) => writeBinary writer s length
    | r => r

/-! ## Heads and feet of lists -/

/-- The function `WriteHead(writer, n, tag)`. -/
def WriteHead (writer : Writer) (n : Int) (tag : Nat) : Result :=
  match writer.WriteByte tag with
  | (writer, none) =>
    let r : Result := if n > 0 then writeUint64 writer (uint64 n) else (writer, none)
    match r with
    | (writer, none) => writer.WriteByte TagOpenbrace
    | r => r
  | r => r

/-- The function `WriteObjectHead(writer, r)`. -/
def WriteObjectHead (writer : Writer) (r : Int) : Result :=
  match writer.WriteByte TagObject with
  | (writer, none) =>
    match writeUint64 writer (uint64 r) with
    | (writer, none) => writer.WriteByte TagOpenbrace
    | r => r
  | r => r

/-- The function `WriteFoot(writer)`. -/
def WriteFoot (writer : Writer) : Result :=
  writer.WriteByte TagClosebrace

/-! ## Complex numbers -/

/-- The function `writeComplex(enc, r, i, bitSize)`. -/
def writeComplex {α : Type} (ext : Externals α) (enc : Encoder) (r i : Float64) (bitSize : Nat) :
    EncResult :=
  let writer := enc.Writer
  if i.isZero then
    enc.onWriter (writeFloat ext writer r bitSize)
  else
    let enc := enc.AddReferenceCount 1
    enc.onWriter
      (match WriteHead writer 2 TagList with
      | (writer, none) =>
        match writeFloat ext writer r bitSize with
        | (writer, none) =>
          match writeFloat ext writer i bitSize with
          | (writer, none) => WriteFoot writer
          | r => r
        | r => r
      | r => r)

/-- The function `WriteComplex64(enc, c)`, `c` given by its real and imaginary parts. -/
def WriteComplex64 {α : Type} (ext : Externals α) (enc : Encoder) (c : Float64 × Float64) :
    EncResult :=
  writeComplex ext enc c.1 c.2 32

/-- The function `WriteComplex128(enc, c)`, `c` given by its real and imaginary parts. -/
def WriteComplex128 {α : Type} (ext : Externals α) (enc : Encoder) (c : Float64 × Float64) :
    EncResult :=
  writeComplex ext enc c.1 c.2 64

/-! ## Slices -/

/-- The value `v interface{}` handed to `writeSlice`, by the dynamic type the type switch
of `writeSliceBody` tells apart; `[]uint8` is `[]byte`. -/
inductive SliceValue (α : Type) where
  | bytes (v : List Nat)
  | uint16s (v : List Nat)
  | uint32s (v : List Nat)
  | uint64s (v : List Nat)
  | uints (v : List Nat)
  | int8s (v : List Int)
  | int16s (v : List Int)
  | int32s (v : List Int)
  | int64s (v : List Int)
  | ints (v : List Int)
  | bools (v : List Bool)
  | float32s (v : List Float64)
  | float64s (v : List Float64)
  | complex64s (v : List (Float64 × Float64))
  | complex128s (v : List (Float64 × Float64))
  | strings (v : List (List Nat))
  | interfaces (v : List α)
  | others (v : List α)

/-- The length field `Len` of the slice header. -/
def SliceValue.len {α : Type} : SliceValue α → Nat
  | .bytes v => v.length
  | .uint16s v => v.length
  | .uint32s v => v.length
  | .uint64s v => v.length
  | .uints v => v.length
  | .int8s v => v.length
  | .int16s v => v.length
  | .int32s v => v.length
  | .int64s v => v.length
  | .ints v => v.length
  | .bools v => v.length
  | .float32s v => v.length
  | .float64s v => v.length
  | .complex64s v => v.length
  | .complex128s v => v.length
  | .strings v => v.length
  | .interfaces v => v.length
  | .others v => v.length

/-- The loop `for i := range slice { if err == nil { err = f(w, slice[i]) } }` shared by
the slice body writers: once `err` is set no further element is written. -/
def forRange {σ β : Type} (f : σ → β → σ × Option GoError) (w : σ) (slice : List β) :
    σ × Option GoError :=
  slice.foldl (fun st x => match st with
    | (w, none) => f w x
    | r => r) (w, none)

/-- The function `writeInt8SliceBody(writer, slice)`. -/
def writeInt8SliceBody (writer : Writer) (slice : List Int) : Result :=
  forRange WriteInt8 writer slice

/-- The function `writeInt16SliceBody(writer, slice)`. -/
def writeInt16SliceBody (writer : Writer) (slice : List Int) : Result :=
  forRange WriteInt16 writer slice

/-- The function `writeInt32SliceBody(writer, slice)`. -/
def writeInt32SliceBody (writer : Writer) (slice : List Int) : Result :=
  forRange WriteInt32 writer slice

/-- The function `writeInt64SliceBody(writer, slice)`. -/
def writeInt64SliceBody (writer : Writer) (slice : List Int) : Result :=
  forRange WriteInt64 writer slice

/-- The function `writeIntSliceBody(writer, slice)`. -/
def writeIntSliceBody (writer : Writer) (slice : List Int) : Result :=
  forRange WriteInt writer slice

/-- The function `writeUint16SliceBody(writer, slice)`. -/
def writeUint16SliceBody (writer : Writer) (slice : List Nat) : Result :=
  forRange WriteUint16 writer slice

/-- The function `writeUint32SliceBody(writer, slice)`. -/
def writeUint32SliceBody (writer : Writer) (slice : List Nat) : Result :=
  forRange WriteUint32 writer slice

/-- The function `writeUint64SliceBody(writer, slice)`. -/
def writeUint64SliceBody (writer : Writer) (slice : List Nat) : Result :=
  forRange WriteUint64 writer slice

/-- The function `writeUintSliceBody(writer, slice)`. -/
def writeUintSliceBody (writer : Writer) (slice : List Nat) : Result :=
  forRange WriteUint writer slice

/-- The function `writeBoolSliceBody(writer, slice)`. -/
def writeBoolSliceBody (writer : Writer) (slice : List Bool) : Result :=
  forRange WriteBool writer slice

/-- The function `writeFloat32SliceBody(writer, slice)`. -/
def writeFloat32SliceBody {α : Type} (ext : Externals α) (writer : Writer)
    (slice : List Float64) : Result :=
  forRange (WriteFloat32 ext) writer slice

/-- The function `writeFloat64SliceBody(writer, slice)`. -/
def writeFloat64SliceBody {α : Type} (ext : Externals α) (writer : Writer)
    (slice : List Float64) : Result :=
  forRange (WriteFloat64 ext) writer slice

/-- The function `writeComplex64SliceBody(enc, slice)`. -/
def writeComplex64SliceBody {α : Type} (ext : Externals α) (enc : Encoder)
    (slice : List (Float64 × Float64)) : EncResult :=
  forRange (WriteComplex64 ext) enc slice

/-- The function `writeComplex128SliceBody(enc, slice)`. -/
def writeComplex128SliceBody {α : Type} (ext : Externals α) (enc : Encoder)
    (slice : List (Float64 × Float64)) : EncResult :=
  forRange (WriteComplex128 ext) enc slice

/-- The function `writeStringSliceBody(enc, slice)`. -/
def writeStringSliceBody {α : Type} (ext : Externals α) (enc : Encoder)
    (slice : List (List Nat)) : EncResult :=
  forRange ext.EncodeString enc slice

/-- The function `writeInterfaceSliceBody(enc, slice)`. -/
def writeInterfaceSliceBody {α : Type} (ext : Externals α) (enc : Encoder) (slice : List α) :
    EncResult :=
  forRange ext.Encode enc slice

/-- The function `writeOtherSliceBody(enc, slice)`: the loop over the indices stops at the
first error. -/
def writeOtherSliceBody {α : Type} (ext : Externals α) (enc : Encoder) (slice : List α) :
    EncResult :=
  forRange ext.Encode enc slice

/-- The function `writeSliceBody(enc, v)`. -/
def writeSliceBody {α : Type} (ext : Externals α) (enc : Encoder) (v : SliceValue α) :
    EncResult :=
  match v with
  | .uint16s v => enc.onWriter (writeUint16SliceBody enc.Writer v)
  | .uint32s v => enc.onWriter (writeUint32SliceBody enc.Writer v)
  | .uint64s v => enc.onWriter (writeUint64SliceBody enc.Writer v)
  | .uints v => enc.onWriter (writeUintSliceBody enc.Writer v)
  | .int8s v => enc.onWriter (writeInt8SliceBody enc.Writer v)
  | .int16s v => enc.onWriter (writeInt16SliceBody enc.Writer v)
  | .int32s v => enc.onWriter (writeInt32SliceBody enc.Writer v)
  | .int64s v => enc.onWriter (writeInt64SliceBody enc.Writer v)
  | .ints v => enc.onWriter (writeIntSliceBody enc.Writer v)
  | .bools v => enc.onWriter (writeBoolSliceBody enc.Writer v)
  | .float32s v => enc.onWriter (writeFloat32SliceBody ext enc.Writer v)
  | .float64s v => enc.onWriter (writeFloat64SliceBody ext enc.Writer v)
  | .complex64s v => writeComplex64SliceBody ext enc v
  | .complex128s v => writeComplex128SliceBody ext enc v
  | .strings v => writeStringSliceBody ext enc v
  | .interfaces v => writeInterfaceSliceBody ext enc v
  | .bytes v => writeOtherSliceBody ext enc (v.map ext.BoxByte)
  | .others v => writeOtherSliceBody ext enc v

/-- The variable `emptySlice`. -/
def emptySlice : List Nat := [TagList, TagOpenbrace, TagClosebrace]

/-- The function `writeSlice(enc, v)`. -/
def writeSlice {α : Type} (ext : Externals α) (enc : Encoder) (v : SliceValue α) : EncResult :=
  let writer := enc.Writer
  match v with
  | .bytes bytes => enc.onWriter (writeBytes writer bytes)
  | v =>
    let count := v.len
    if count = 0 then
      enc.onWriter (writer.Write emptySlice)
    else
      match WriteHead writer count TagList with
      | (writer, none) =>
        match writeSliceBody ext ⟨writer, enc.refCount⟩ v with
        | (enc, none) => enc.onWriter (WriteFoot enc.Writer)
        | r => r
      | (writer, some e) => (⟨writer, enc.refCount⟩, some e)

/-- The function `WriteSlice(enc, v)`. -/
def WriteSlice {α : Type} (ext : Externals α) (enc : Encoder) (v : SliceValue α) : EncResult :=
  let enc := enc.AddReferenceCount 1
  writeSlice ext enc v

/-! ## Reference definitions the claims are stated with -/

/-! ### Decimal text -/

/-- The decimal digits of `n`, most significant first, as ASCII bytes; empty for zero. -/
def digitBytes (n : Nat) : List Nat := ((Nat.digits 10 n).reverse).map (fun d => 48 + d)

/-- The canonical ASCII decimal text of a natural number. -/
def decimal (n : Nat) : List Nat := if n = 0 then [48] else digitBytes n

/-- The text of a signed integer: a minus sign before the digits of a negative one. -/
def signedDecimal (i : Int) : List Nat :=
  if i < 0 then 45 :: decimal i.natAbs else decimal i.toNat

/-- The number a string of ASCII digits denotes. -/
def readDecimal (bs : List Nat) : Nat := bs.foldl (fun acc b => acc * 10 + (b - 48)) 0

/-! ### UTF-8 -/

/-- A continuation byte, `80..BF`. -/
def isCont (b : Nat) : Prop := 0x80 ≤ b ∧ b ≤ 0xBF

instance (b : Nat) : Decidable (isCont b) := by unfold isCont; infer_instance

/-- The code points of a well-formed UTF-8 byte sequence, after table 3-7 of the Unicode
standard (no overlong forms, no surrogates, nothing above U+10FFFF); `none` for an
ill-formed sequence. -/
def decodeUtf8 : List Nat → Option (List Nat)
  | [] => some []
  | a :: rest =>
    if a ≤ 0x7F then
      (decodeUtf8 rest).map (fun cps => a :: cps)
    else if 0xC2 ≤ a ∧ a ≤ 0xDF then
      match rest with
      | b :: rest =>
        if isCont b then
          (decodeUtf8 rest).map (fun cps => ((a - 0xC0) * 64 + (b - 0x80)) :: cps)
        else none
      | _ => none
    else if 0xE0 ≤ a ∧ a ≤ 0xEF then
      match rest with
      | b :: c :: rest =>
        if isCont b ∧ isCont c ∧ (a = 0xE0 → 0xA0 ≤ b) ∧ (a = 0xED → b ≤ 0x9F) then
          (decodeUtf8 rest).map
            (fun cps => ((a - 0xE0) * 4096 + (b - 0x80) * 64 + (c - 0x80)) :: cps)
        else none
      | _ => none
    else if 0xF0 ≤ a ∧ a ≤ 0xF4 then
      match rest with
      | b :: c :: d :: rest =>
        if isCont b ∧ isCont c ∧ isCont d ∧ (a = 0xF0 → 0x90 ≤ b) ∧ (a = 0xF4 → b ≤ 0x8F) then
          (decodeUtf8 rest).map
            (fun cps =>
              ((a - 0xF0) * 262144 + (b - 0x80) * 4096 + (c - 0x80) * 64 + (d - 0x80)) :: cps)
        else none
      | _ => none
    else none

/-- A Unicode scalar value: a code point up to U+10FFFF that is not a surrogate. -/
def isScalar (cp : Nat) : Prop := cp < 0xD800 ∨ (0xE000 ≤ cp ∧ cp < 0x110000)

instance (cp : Nat) : Decidable (isScalar cp) := by unfold isScalar; infer_instance

/-- The UTF-8 encoding of a scalar value. -/
def utf8Encode (cp : Nat) : List Nat :=
  if cp < 0x80 then [cp]
  else if cp < 0x800 then [0xC0 + cp / 64, 0x80 + cp % 64]
  else if cp < 0x10000 then [0xE0 + cp / 4096, 0x80 + cp / 64 % 64, 0x80 + cp % 64]
  else [0xF0 + cp / 262144, 0x80 + cp / 4096 % 64, 0x80 + cp / 64 % 64, 0x80 + cp % 64]

/-- The number of UTF-16 code units of a code point. -/
def utf16Units (cp : Nat) : Nat := if cp < 0x10000 then 1 else 2

/-- The shapes `[00..7F]`, `[C0..DF, cont]`, `[E0..EF, cont, cont]` and
`[F0..F7, cont, cont, cont]` the loop of `utf16Length` steps over. -/
def isUnit (u : List Nat) : Prop :=
  match u with
  | [a] => a ≤ 0x7F
  | [a, b] => 0xC0 ≤ a ∧ a ≤ 0xDF ∧ isCont b
  | [a, b, c] => 0xE0 ≤ a ∧ a ≤ 0xEF ∧ isCont b ∧ isCont c
  | [a, b, c, d] => 0xF0 ≤ a ∧ a ≤ 0xF7 ∧ isCont b ∧ isCont c ∧ isCont d
  | _ => False

instance (u : List Nat) : Decidable (isUnit u) := by
  unfold isUnit; split <;> infer_instance

/-- Scans a byte sequence unit by unit: the number of units plus the number of 4-byte
units when the sequence is a concatenation of units, `none` otherwise. -/
def unitScan : List Nat → Option Nat
  | [] => some 0
  | a :: rest =>
    if a ≤ 0x7F then
      (unitScan rest).map (fun k => k + 1)
    else if 0xC0 ≤ a ∧ a ≤ 0xDF then
      match rest with
      | b :: rest => if isCont b then (unitScan rest).map (fun k => k + 1) else none
      | _ => none
    else if 0xE0 ≤ a ∧ a ≤ 0xEF then
      match rest with
      | b :: c :: rest =>
        if isCont b ∧ isCont c then (unitScan rest).map (fun k => k + 1) else none
      | _ => none
    else if 0xF0 ≤ a ∧ a ≤ 0xF7 then
      match rest with
      | b :: c :: d :: rest =>
        if isCont b ∧ isCont c ∧ isCont d then (unitScan rest).map (fun k => k + 2) else none
      | _ => none
    else none

/-- The value `utf16Length` returns for a scan result when `n` started at `len`. -/
def scanValue (n : Int) (len : Nat) : Option Nat → Int
  | some u => n - len + u
  | none => -1

/-- The UTF-16 length of a list of code points. -/
def utf16Count (cps : List Nat) : Nat := (cps.map utf16Units).sum

/-! ### Output on a sink that never fails -/

/-- The bytes a writer call puts into an empty sink that never fails. -/
def emitted (f : Writer → Result) : List Nat := (f (Writer.reliable [])).1.data

/-- On a sink that never fails the call appends its bytes and reports no error. -/
def Framed (f : Writer → Result) : Prop :=
  ∃ k : Nat, ∀ (d : List Nat) (c : Nat), f ⟨d, [], c⟩ = (⟨d ++ emitted f, [], c + k⟩, none)

/-- The list form of a non-empty slice: tag, count, open brace, body, close brace. -/
def listForm (count : Nat) (body : List Nat) : List Nat :=
  ['a'.toNat] ++ decimal count ++ [TagOpenbrace] ++ body ++ [TagClosebrace]

/-- What `writeSlice` does with a non-empty slice written element by element by `f`. -/
def WritesList {α β : Type} (ext : Externals α) (enc : Encoder) (v : SliceValue α)
    (f : Writer → β → Result) (xs : List β) : Prop :=
  (writeSlice ext enc v).2 = none ∧
  (writeSlice ext enc v).1.refCount = enc.refCount ∧
  (writeSlice ext enc v).1.Writer.data = enc.Writer.data ++ ['a'.toNat] ++ decimal xs.length
    ++ [TagOpenbrace] ++ xs.flatMap (fun x => emitted (fun w => f w x)) ++ [TagClosebrace]

/-! ## Big numbers on the writer side -/

/-- Go library `(*big.Int).String`: the decimal text of the integer, with a minus sign
before the digits of a negative one, and `<nil>` for a nil pointer. A `*big.Int` is an
`Option Int`, `none` being nil. -/
def BigIntString (i : Option Int) : List Nat :=
  match i with
  | some x => signedDecimal x
  | none => stringBytes "<nil>"

/-- Go library `(*big.Rat).String`: the text `a/b` of a rational in lowest terms, also
when `b` is 1. A non-nil `*big.Rat` is a `Rat`, which is kept in lowest terms. -/
def BigRatString (r : Rat) : List Nat :=
  BigIntString (some r.num) ++ [47] ++ BigIntString (some (r.den : Int))

/-- Go library `(*big.Rat).IsInt`: whether the denominator is 1. -/
def BigRatIsInt (r : Rat) : Bool := r.den = 1

/-- The function `WriteBigInt(writer, i)`; `reflect2.UnsafeCastString` yields the bytes of
the string. -/
def WriteBigInt (writer : Writer) (i : Option Int) : Result :=
  match writer.WriteByte TagLong with
  | (writer, none) =>
    match writer.Write (BigIntString i) with
    | (writer, none) => writer.WriteByte TagSemicolon
    | r => r
  | r => r

/-- The function `WriteBigRat(enc, r)`. -/
def WriteBigRat (enc : Encoder) (r : Rat) : EncResult :=
  if BigRatIsInt r then
    enc.onWriter (WriteBigInt enc.Writer (some r.num))
  else
    let enc := enc.AddReferenceCount 1
    let s := BigRatString r
    enc.onWriter (writeString enc.Writer s s.length)

/-! ## The decoder of big numbers (`encoding/big_decoder.go`) -/

/-- Modelled from the spec: tag byte `'u'`, a single UTF-8 character. -/
def TagUTF8Char : Nat := 117

/-- A Go `reflect.Type` as far as these functions use it: `none` is the nil type and
`some name` is a type whose `String()` is `name`. -/
abbrev ReflectType := Option String

/-- Modelled from the spec: the decode errors are declared outside the files at hand. A
tag that cannot satisfy the destination type gives an error that carries the destination
type and the tag byte; a string that is no numeric literal gives one that carries the
string and the name of the destination type. -/
inductive DecodeError where
  | tag (t : ReflectType) (tag : Nat)
  | string (s : List Nat) (typeName : String)
deriving DecidableEq

/-- Modelled from the spec: the `Decoder` type is declared outside the files at hand. It
holds the unread bytes of the input source, the decode error raised so far (`none` is
nil) and the simple-mode flag; its reference and class lists are touched only by the
readers that are taken as parameters below. -/
structure Decoder where
  input : List Nat
  Error : Option DecodeError
  simple : Bool
deriving DecidableEq

/-- Modelled from the spec: `dec.decodeStringError(s, typeName)` raises the decode error
of a bad numeric literal; the first error raised is the one kept. -/
def Decoder.decodeStringError (dec : Decoder) (s : List Nat) (typeName : String) : Decoder :=
  match dec.Error with
  | none => ⟨dec.input, some (DecodeError.string s typeName), dec.simple⟩
  | some _ => dec

/-- Modelled from the spec: `dec.UnsafeUntil(tag)`, "read until tag": the bytes before the
first `tag`, which are consumed together with that `tag`; all the input when there is
none. -/
def Decoder.UnsafeUntil (dec : Decoder) (tag : Nat) : List Nat × Decoder :=
  (dec.input.takeWhile (fun b => b ≠ tag),
    ⟨(dec.input.dropWhile (fun b => b ≠ tag)).drop 1, dec.Error, dec.simple⟩)

/-- Modelled from the spec: `dec.IsSimple()`. -/
def Decoder.IsSimple (dec : Decoder) : Bool := dec.simple

/-- Modelled from the spec: the table `intDigits` and the constant `invalidDigit` are
declared outside the files at hand: a digit tag `'0' + d` maps to `d` and every other
byte to `invalidDigit`, for which `none` stands. -/
def intDigits (tag : Nat) : Option Nat :=
  if 48 ≤ tag ∧ tag ≤ 57 then some (tag - 48) else none

/-- A `big.Float` value by the number it holds: a rational or an infinity (precision,
rounding mode and the sign of zero are left out). -/
inductive BigFloat where
  | finite (q : Rat)
  | inf (neg : Bool)
deriving DecidableEq

/-- The outcome of a call that can fault: it returns a value, or it panics; either way
with the state the decoder is left in. -/
inductive Outcome (α : Type) where
  | returns (value : α) (dec : Decoder)
  | panics (dec : Decoder)
deriving DecidableEq

/-- Functions the decoder calls whose code is not in the files at hand: the readers
`ReadInt64`, `ReadFloat64`, `readUnsafeString`, `ReadUnsafeString`, `ReadString` and
`NextByte` of this package, the parsers `(*big.Float).SetString` and
`(*big.Rat).SetString` of the Go library, and the method `dec.decodeError(t, tag)` of
this package, which is given the destination type and the tag and returns the decoder
in the state it leaves it in: what it reads and which error it records is not fixed
here. -/
structure DecoderExternals where
  ReadInt64 : Decoder → Int × Decoder
  ReadFloat64 : Decoder → Float64 × Decoder
  readUnsafeString : Decoder → Int → List Nat × Decoder
  ReadUnsafeString : Decoder → List Nat × Decoder
  ReadString : Decoder → List Nat × Decoder
  NextByte : Decoder → Nat × Decoder
  BigFloatSetString : List Nat → Option BigFloat
  BigRatSetString : List Nat → Option Rat
  decodeError : Decoder → ReflectType → Nat → Decoder

/-- The digits of a decimal numeral: at least one, and nothing but digits. -/
def parseDecimal (ds : List Nat) : Option Nat :=
  if ds ≠ [] ∧ ∀ d ∈ ds, 48 ≤ d ∧ d ≤ 57 then
    some (readDecimal ds)
  else
    none

/-- Go library `new(big.Int).SetString(s, 10)`: an optional sign `+` or `-` and a decimal
numeral that takes up the whole string; `none` when `ok` is false. -/
def BigIntSetString (s : List Nat) : Option Int :=
  if s.head? = some 45 then
    (parseDecimal s.tail).map (fun n => -(n : Int))
  else if s.head? = some 43 then
    (parseDecimal s.tail).map (fun n => (n : Int))
  else
    (parseDecimal s).map (fun n => (n : Int))

/-- The number a finite `float64` holds. -/
def Float64.toRat (f : Float64) : Rat :=
  let m : Int := if f.exponent = 0 then f.fraction else 4503599627370496 + f.fraction
  let e : Int := (if f.exponent = 0 then 1 else (f.exponent : Int)) - 1075
  let v : Rat := if e ≥ 0 then ((m * 2 ^ e.toNat : Int) : Rat) else mkRat m (2 ^ (-e).toNat)
  if f.sign = 1 then -v else v

/-- The conversion `float64(i)` of an `int64`: the nearest `float64`, ties to even. -/
def float64OfInt (i : Int) : Float64 :=
  let a := i.natAbs
  if a = 0 then
    ⟨0⟩
  else
    let s := if i < 0 then 1 else 0
    let e := Nat.log2 a
    let m :=
      if e ≤ 52 then
        a * 2 ^ (52 - e)
      else
        let q := a / 2 ^ (e - 52)
        let r := a % 2 ^ (e - 52)
        if 2 * r > 2 ^ (e - 52) ∨ (2 * r = 2 ^ (e - 52) ∧ q % 2 = 1) then q + 1 else q
    ⟨s * 9223372036854775808 + (e + 1023) * 4503599627370496 + (m - 4503599627370496)⟩

/-- Go `math.Inf(sign)`: positive infinity for `sign >= 0`, negative infinity otherwise. -/
def mathInf (sign : Int) : Float64 :=
  if sign ≥ 0 then ⟨9218868437227405312⟩ else ⟨18442240474082181120⟩

/-- Go library `big.NewFloat(x)`: the `big.Float` that holds `x`; the source never calls
it with a NaN. -/
def NewFloat (x : Float64) : BigFloat :=
  if x.exponent = 2047 then BigFloat.inf (x.sign = 1) else BigFloat.finite x.toRat

/-- Go library `bf.Int(nil)`: `bf` truncated towards zero, and nil for an infinity. -/
def BigFloat.Int (bf : BigFloat) : Option Int :=
  match bf with
  | BigFloat.finite q => some (Int.tdiv q.num q.den)
  | BigFloat.inf _ => none

/-- Go library `new(big.Rat).SetInt(x)`: the rational `x/1`; it reads through the pointer
`x`, so a nil `x` faults. -/
def BigRatSetInt (x : Option Int) (dec : Decoder) : Outcome (Option Rat) :=
  match x with
  | some n => Outcome.returns (some (n : Rat)) dec
  | none => Outcome.panics dec

/-- Go library `new(big.Rat).SetFloat64(f)`: exactly `f`, and nil when `f` is not finite. -/
def BigRatSetFloat64 (f : Float64) : Option Rat :=
  if f.exponent = 2047 then none else some f.toRat

/-- The variable `bigIntZero`. -/
def bigIntZero : Option Int := some 0
/-- The variable `bigIntOne`. -/
def bigIntOne : Option Int := some 1
/-- The variable `bigFloatZero`. -/
def bigFloatZero : Option BigFloat := some (NewFloat (float64OfInt 0))
/-- The variable `bigFloatOne`. -/
def bigFloatOne : Option BigFloat := some (NewFloat (float64OfInt 1))
/-- The variable `bigRatZero`. -/
def bigRatZero : Option Rat := some 0
/-- The variable `bigRatOne`. -/
def bigRatOne : Option Rat := some 1

/-- The method `strToBigInt(s, t)`. -/
def strToBigInt (dec : Decoder) (s : List Nat) (t : ReflectType) : Option Int × Decoder :=
  match BigIntSetString s with
  | some bi => (some bi, dec)
  | none =>
    let typeName := match t with
      | some name => name
      | none => "*big.Int"
    (none, dec.decodeStringError s typeName)

/-- The method `strToBigFloat(s, t)`. -/
def strToBigFloat (ext : DecoderExternals) (dec : Decoder) (s : List Nat) (t : ReflectType) :
    Option BigFloat × Decoder :=
  match ext.BigFloatSetString s with
  | some bf => (some bf, dec)
  | none =>
    let typeName := match t with
      | some name => name
      | none => "*big.Float"
    (none, dec.decodeStringError s typeName)

/-- The method `strToBigRat(s, t)`; `t.String()` faults on a nil `t`. -/
def strToBigRat (ext : DecoderExternals) (dec : Decoder) (s : List Nat) (t : ReflectType) :
    Outcome (Option Rat) :=
  match ext.BigRatSetString s with
  | some bf => Outcome.returns (some bf) dec
  | none =>
    match t with
    | some name => Outcome.returns none (dec.decodeStringError s name)
    | none => Outcome.panics dec

/-- The method `readBigInt(t)`. -/
def readBigInt (dec : Decoder) (t : ReflectType) : Option Int × Decoder :=
  match dec.UnsafeUntil TagSemicolon with
  | (s, dec) => strToBigInt dec s t

/-- The method `readBigFloat(t)`. -/
def readBigFloat (ext : DecoderExternals) (dec : Decoder) (t : ReflectType) :
    Option BigFloat × Decoder :=
  match dec.UnsafeUntil TagSemicolon with
  | (s, dec) => strToBigFloat ext dec s t

/-- The method `ReadBigInt()`. -/
def ReadBigInt (dec : Decoder) : Option Int × Decoder :=
  readBigInt dec none

/-- The method `ReadBigFloat()`. -/
def ReadBigFloat (ext : DecoderExternals) (dec : Decoder) : Option BigFloat × Decoder :=
  readBigFloat ext dec none

/-- The method `decodeBigInt(t, tag)`. -/
def decodeBigInt (ext : DecoderExternals) (dec : Decoder) (t : ReflectType) (tag : Nat) :
    Option Int × Decoder :=
  match intDigits tag with
  | some i => (some (i : Int), dec)
  | none =>
    if tag = TagNull then
      (none, dec)
    else if tag = TagEmpty ∨ tag = TagFalse then
      (bigIntZero, dec)
    else if tag = TagTrue then
      (bigIntOne, dec)
    else if tag = TagInteger then
      match ext.ReadInt64 dec with
      | (x, dec) => (some x, dec)
    else if tag = TagLong then
      readBigInt dec t
    else if tag = TagDouble then
      match readBigFloat ext dec t with
      | (some bf, dec) => (bf.Int, dec)
      | (none, dec) => (none, dec)
    else if tag = TagUTF8Char then
      match ext.readUnsafeString dec 1 with
      | (s, dec) => strToBigInt dec s t
    else if tag = TagString then
      if dec.IsSimple then
        match ext.ReadUnsafeString dec with
        | (s, dec) => strToBigInt dec s t
      else
        match ext.ReadString dec with
        | (s, dec) => strToBigInt dec s t
    else
      (none, ext.decodeError dec t tag)

/-- The method `decodeBigIntValue(t, tag)`. -/
def decodeBigIntValue (ext : DecoderExternals) (dec : Decoder) (t : ReflectType) (tag : Nat) :
    Int × Decoder :=
  match decodeBigInt ext dec t tag with
  | (some i, dec) => (i, dec)
  | (none, dec) => (0, dec)

/-- The method `decodeBigFloat(t, tag)`. -/
def decodeBigFloat (ext : DecoderExternals) (dec : Decoder) (t : ReflectType) (tag : Nat) :
    Option BigFloat × Decoder :=
  match intDigits tag with
  | some i => (some (NewFloat (float64OfInt i)), dec)
  | none =>
    if tag = TagNull then
      (none, dec)
    else if tag = TagEmpty ∨ tag = TagFalse then
      (bigFloatZero, dec)
    else if tag = TagTrue then
      (bigFloatOne, dec)
    else if tag = TagInteger then
      match ext.ReadInt64 dec with
      | (x, dec) => (some (NewFloat (float64OfInt x)), dec)
    else if tag = TagLong ∨ tag = TagDouble then
      readBigFloat ext dec t
    else if tag = TagInfinity then
      match ext.NextByte dec with
      | (b, dec) =>
        if b = TagNeg then
          (some (NewFloat (mathInf (-1))), dec)
        else
          (some (NewFloat (mathInf 1)), dec)
    else if tag = TagUTF8Char then
      match ext.readUnsafeString dec 1 with
      | (s, dec) => strToBigFloat ext dec s t
    else if tag = TagString then
      if dec.IsSimple then
        match ext.ReadUnsafeString dec with
        | (s, dec) => strToBigFloat ext dec s t
      else
        match ext.ReadString dec with
        | (s, dec) => strToBigFloat ext dec s t
    else
      (none, ext.decodeError dec t tag)

/-- The method `decodeBigFloatValue(t, tag)`. -/
def decodeBigFloatValue (ext : DecoderExternals) (dec : Decoder) (t : ReflectType)
    (tag : Nat) : BigFloat × Decoder :=
  match decodeBigFloat ext dec t tag with
  | (some f, dec) => (f, dec)
  | (none, dec) => (NewFloat (float64OfInt 0), dec)

/-- The method `decodeBigRat(t, tag)`. -/
def decodeBigRat (ext : DecoderExternals) (dec : Decoder) (t : ReflectType) (tag : Nat) :
    Outcome (Option Rat) :=
  match intDigits tag with
  | some i => Outcome.returns (some ((i : Int) : Rat)) dec
  | none =>
    if tag = TagNull then
      Outcome.returns none dec
    else if tag = TagEmpty ∨ tag = TagFalse then
      Outcome.returns bigRatZero dec
    else if tag = TagTrue then
      Outcome.returns bigRatOne dec
    else if tag = TagInteger then
      match ext.ReadInt64 dec with
      | (x, dec) => Outcome.returns (some (x : Rat)) dec
    else if tag = TagLong then
      match readBigInt dec t with
      | (x, dec) => BigRatSetInt x dec
    else if tag = TagDouble then
      match ext.ReadFloat64 dec with
      | (f, dec) => Outcome.returns (BigRatSetFloat64 f) dec
    else if tag = TagUTF8Char then
      match ext.readUnsafeString dec 1 with
      | (s, dec) => strToBigRat ext dec s t
    else if tag = TagString then
      if dec.IsSimple then
        match ext.ReadUnsafeString dec with
        | (s, dec) => strToBigRat ext dec s t
      else
        match ext.ReadString dec with
        | (s, dec) => strToBigRat ext dec s t
    else
      Outcome.returns none (ext.decodeError dec t tag)

/-- The method `decodeBigRatValue(t, tag)`. -/
def decodeBigRatValue (ext : DecoderExternals) (dec : Decoder) (t : ReflectType) (tag : Nat) :
    Outcome Rat :=
  match decodeBigRat ext dec t tag with
  | Outcome.returns (some r) dec => Outcome.returns r dec
  | Outcome.returns none dec => Outcome.returns 0 dec
  | Outcome.panics dec => Outcome.panics dec

/-! ## UUIDs (`encoding/uuid_encoder.go`) -/

/-- Modelled from the spec: tag byte `'g'` of package `io`. -/
def TagGUID : Nat := 103

/-- Go library `encoding/hex`: the constant `hextable`. -/
def hextable : List Nat := stringBytes "0123456789abcdef"

/-- The loop of the Go library function `hex.Encode`: for each byte `v` of `src` it sets
`dst[j] = hextable[v>>4]` and `dst[j+1] = hextable[v&0x0f]` and adds 2 to `j`. -/
def hexEncodeLoop (dst : List Nat) (j : Nat) : List Nat → List Nat
  | [] => dst
  | v :: src =>
    let dst := dst.set j (byteAt hextable (v >>> 4))
    let dst := dst.set (j + 1) (byteAt hextable (v &&& 0x0f))
    hexEncodeLoop dst (j + 2) src

/-- Go library `hex.Encode(dst[lo:], src)`: the destination is the part of the buffer
`dst` that starts at `lo`, so the loop starts at index `lo` of the buffer. -/
def hexEncode (dst : List Nat) (lo : Nat) (src : List Nat) : List Nat :=
  hexEncodeLoop dst lo src

/-- The function `encodeHex(dst, uuid)`, which returns the buffer it has filled; 45 is
the byte `'-'`. -/
def encodeHex (dst : List Nat) (uuid : List Nat) : List Nat :=
  let dst := hexEncode dst 0 (slice uuid 0 4)
  let dst := dst.set 8 45
  let dst := hexEncode dst 9 (slice uuid 4 6)
  let dst := dst.set 13 45
  let dst := hexEncode dst 14 (slice uuid 6 8)
  let dst := dst.set 18 45
  let dst := hexEncode dst 19 (slice uuid 8 10)
  let dst := dst.set 23 45
  hexEncode dst 24 (slice uuid 10 16)

/-- The function `writeUUID(writer, id)`; `id` is the list of the 16 bytes. -/
def writeUUID (writer : Writer) (id : List Nat) : Result :=
  let buf := encodeHex (List.replicate 36 0) id
  match writer.WriteByte TagGUID with
  | (writer, none) =>
    match writer.WriteByte TagOpenbrace with
    | (writer, none) =>
      match writer.Write buf with
      | (writer, none) => writer.WriteByte TagClosebrace
      | r => r
    | r => r
  | r => r
/-! ### Floats and readers -/

/-- A `float64` that is neither a NaN nor an infinity. -/
def Float64.isFinite (f : Float64) : Bool := f.exponent ≠ 2047

/-- Readers that read nothing, parsers that accept nothing and a `decodeError` that
leaves the decoder as it is, to stand for the code outside these files where a theorem
is applied to a concrete decoder. -/
def idleReaders : DecoderExternals :=
  ⟨fun dec => (0, dec), fun dec => (⟨0⟩, dec), fun dec _ => ([], dec), fun dec => ([], dec),
    fun dec => ([], dec), fun dec => (0, dec), fun _ => none, fun _ => none,
    fun dec _ _ => dec⟩

/-- A formatter that always yields the text `3.14`, and string and value encoders that
write nothing, to stand for the code outside these files where a theorem is applied to a
concrete encoder. -/
def idleEncoders : Externals Nat :=
  ⟨fun _ _ => stringBytes "3.14", fun enc _ => (enc, none), fun enc _ => (enc, none),
    fun b => b⟩

/-! ### Sink failures -/

/-- The calls `Write(p)` for the chunks `p` of a list, one after the other, up to the first
one that returns an error. -/
def writeChunks (w : Writer) : List (List Nat) → Result
  | [] => (w, none)
  | p :: ps =>
    match w.Write p with
    | (w, none) => writeChunks w ps
    | r => r

/-- A writer call that, whatever the sink does, makes the calls `Write(p)` for the
chunks of `cs` in order and stops at the first error. -/
def Chunked (f : Writer → Result) (cs : List (List Nat)) : Prop :=
  ∀ w : Writer, f w = writeChunks w cs

/-! ### Hexadecimal text -/

/-- The lowercase hexadecimal digit of a number below 16. -/
def hexDigit (n : Nat) : Nat := if n < 10 then 48 + n else 87 + n

/-- The two lowercase hexadecimal digits of a byte, high digit first. -/
def hexPair (b : Nat) : List Nat := [hexDigit (b / 16), hexDigit (b % 16)]

/-- The lowercase hexadecimal text of a byte sequence. -/
def hexText (bs : List Nat) : List Nat := bs.flatMap hexPair

/-- The 8-4-4-4-12 text of a 16-byte id: the hexadecimal text of `id[0..4]`, `id[4..6]`,
`id[6..8]`, `id[8..10]` and `id[10..16]`, joined by `-`. -/
def uuidText (id : List Nat) : List Nat :=
  hexText (slice id 0 4) ++ [45] ++ hexText (slice id 4 6) ++ [45] ++ hexText (slice id 6 8)
    ++ [45] ++ hexText (slice id 8 10) ++ [45] ++ hexText (slice id 10 16)

/-- A lowercase hexadecimal digit, `0..9` or `a..f`. -/
def isLowerHex (c : Nat) : Prop := (48 ≤ c ∧ c ≤ 57) ∨ (97 ≤ c ∧ c ≤ 102)

instance (c : Nat) : Decidable (isLowerHex c) := by unfold isLowerHex; infer_instance

/-- The number a lowercase hexadecimal digit denotes. -/
def hexValue (c : Nat) : Nat := if c ≤ 57 then c - 48 else c - 87

/-- The bytes a hexadecimal text denotes, two digits for a byte. -/
def readHex : List Nat → List Nat
  | a :: b :: rest => (hexValue a * 16 + hexValue b) :: readHex rest
  | _ => []

/-- The id an 8-4-4-4-12 text denotes: the hyphens are dropped and the digits read. -/
def readUUID (text : List Nat) : List Nat := readHex (text.filter (fun c => c ≠ 45))

/-! ### Integers on the wire -/

/-- The wire form of an `int64`: the bytes `WriteInt64` puts into an empty sink. -/
def int64Wire (i : Int) : List Nat := emitted (fun w => WriteInt64 w i)

/-- The number of elements of a complex slice with a non-zero imaginary part. -/
def nonRealCount (xs : List (Float64 × Float64)) : Nat :=
  (xs.filter (fun c => !c.2.isZero)).length
/-! ## Decimal conversion: the table routine writes the digits of its argument -/

/-- The table `digit3` holds, for `r` from 0 to 999 in turn, the three decimal digits of
`r`. -/
theorem digit3_eq : digit3 =
    (List.range 1000).flatMap (fun r => [48 + r / 100, 48 + r / 10 % 10, 48 + r % 10]) := by
  decide!

/-- The table `digit2` holds, for `r` from 0 to 99 in turn, the two decimal digits of `r`. -/
theorem digit2_eq : digit2 = (List.range 100).flatMap (fun r => [48 + r / 10, 48 + r % 10]) := by
  decide!

theorem slice_flatMap (k : Nat) (f : Nat → List Nat) (hf : ∀ x, (f x).length = k) :
    ∀ (l : List Nat) (r : Nat) (h : r < l.length),
      slice (l.flatMap f) (r * k) (r * k + k) = f (l.get ⟨r, h⟩) := by
  intro l
  induction l with
  | nil => intro r h; simp at h
  | cons a t ih =>
    intro r h
    cases r with
    | zero =>
      simp [slice, List.flatMap_cons, List.take_append_eq_append_take, hf]
    | succ r =>
      have h2 : r < t.length := by simpa using h
      have := ih r h2
      simp only [slice] at this ⊢
      rw [List.flatMap_cons]
      have e : (r + 1) * k = (f a).length + r * k := by rw [hf]; ring
      rw [e, List.drop_append]
      simpa using this

theorem digit3_slice (r : Nat) (h : r < 1000) :
    slice digit3 (r * 3) (r * 3 + 3) = [48 + r / 100, 48 + r / 10 % 10, 48 + r % 10] := by
  rw [digit3_eq, slice_flatMap 3 (fun r => [48 + r / 100, 48 + r / 10 % 10, 48 + r % 10]) (fun _ => rfl) _ r (by simpa using h)]
  simp

theorem digit2_slice (r : Nat) (h : r < 100) :
    slice digit2 (r * 2) (r * 2 + 2) = [48 + r / 10, 48 + r % 10] := by
  rw [digit2_eq, slice_flatMap 2 (fun r => [48 + r / 10, 48 + r % 10]) (fun _ => rfl) _ r (by simpa using h)]
  simp

theorem digits_byteAt (i : Nat) (h : i ≤ 9) : byteAt digits i = 48 + i := by
  interval_cases i <;> rfl

theorem copyAt_length (src : List Nat) : ∀ (buf : List Nat) (off : Nat),
    (copyAt buf off src).length = buf.length := by
  induction src with
  | nil => intro buf off; rfl
  | cons b bs ih => intro buf off; simp [copyAt, ih]

theorem copyAt_eq (src : List Nat) : ∀ (buf : List Nat) (off : Nat),
    off + src.length ≤ buf.length →
    copyAt buf off src = buf.take off ++ src ++ buf.drop (off + src.length) := by
  induction src with
  | nil => intro buf off _; simp [copyAt]
  | cons b bs ih =>
    intro buf off h
    simp only [List.length_cons] at h
    rw [copyAt, ih _ _ (by simp; omega)]
    rw [List.set_eq_take_append_cons_drop, if_pos (by omega)]
    rw [List.take_append_eq_append_take, List.drop_append_eq_append_drop]
    simp [List.take_take, List.length_take]
    have h1 : min off buf.length = off := by omega
    simp [h1]
    have h2 : off + 1 - off = 1 := by omega
    have h3 : off + (bs.length + 1) = off + 1 + bs.length := by omega
    simp [h2, h3, List.drop_drop]
    have h4 : off + 1 + bs.length - off = bs.length + 1 := by omega
    rw [h4, List.drop_succ_cons, List.drop_drop, List.drop_eq_nil_of_le (by simp; omega)]
    simp only [List.nil_append]


theorem digits_length_le (k : Nat) : ∀ n, n < 10 ^ k → (Nat.digits 10 n).length ≤ k := by
  induction k with
  | zero => intro n h; simp at h; simp [h]
  | succ k ih =>
    intro n h
    rcases Nat.eq_zero_or_pos n with h0 | h0
    · simp [h0]
    · rw [Nat.digits_def' (by norm_num) h0]
      simp only [List.length_cons, Nat.add_le_add_iff_right]
      apply ih
      rw [pow_succ] at h
      omega

theorem digits_three (i : Nat) (h : 100 ≤ i) :
    Nat.digits 10 i = i % 10 :: i / 10 % 10 :: i / 100 % 10 :: Nat.digits 10 (i / 1000) := by
  rw [Nat.digits_def' (by norm_num) (by omega), Nat.digits_def' (by norm_num) (by omega),
    Nat.digits_def' (by norm_num) (by omega)]
  have e1 : i / 10 / 10 = i / 100 := by omega
  have e2 : i / 10 / 10 / 10 = i / 1000 := by omega
  rw [e2, e1]

theorem digitBytes_three (i : Nat) (h : 100 ≤ i) :
    digitBytes i = digitBytes (i / 1000) ++ [48 + i / 100 % 10, 48 + i / 10 % 10, 48 + i % 10] := by
  simp [digitBytes, digits_three i h]

theorem digitBytes_two (i : Nat) (h : 10 ≤ i) :
    digitBytes i = digitBytes (i / 100) ++ [48 + i / 10 % 10, 48 + i % 10] := by
  unfold digitBytes
  rw [Nat.digits_def' (by norm_num) (by omega), Nat.digits_def' (by norm_num) (by omega)]
  have e1 : i / 10 / 10 = i / 100 := by omega
  simp [e1]

theorem digitBytes_one (i : Nat) (h : 0 < i) (h2 : i < 10) : digitBytes i = [48 + i] := by
  unfold digitBytes
  rw [Nat.digits_def' (by norm_num) h]
  have e1 : i / 10 = 0 := by omega
  have e2 : i % 10 = i := by omega
  simp [e1, e2]

/-- Writing `src` into `buf[off - k : off]` prepends it to the filled tail of the buffer. -/
theorem copy_drop (buf src : List Nat) (off k : Nat) (hk : src.length = k) (h1 : k ≤ off)
    (h2 : off ≤ buf.length) :
    (copy buf ((off : Int) - k) ((off : Int) - k + k) src).drop (off - k) = src ++ buf.drop off := by
  have e1 : ((off : Int) - k).toNat = off - k := by omega
  have e2 : ((off : Int) - k + k - ((off : Int) - k)).toNat = k := by omega
  unfold copy
  rw [e1, e2, List.take_of_length_le (by omega), copyAt_eq _ _ _ (by omega)]
  rw [List.append_assoc, List.drop_append_eq_append_drop]
  simp
  have e3 : off - k + src.length = off := by omega
  have e4 : off - k - min (off - k) buf.length = 0 := by omega
  rw [e3, List.drop_eq_nil_of_le (by simp), e4]
  simp


theorem copy_length (buf src : List Nat) (lo hi : Int) : (copy buf lo hi src).length = buf.length := by
  simp [copy, copyAt_length]

theorem toBytesLoop_spec : ∀ (fuel i off : Nat) (buf : List Nat), i ≤ fuel →
    (Nat.digits 10 i).length ≤ off → off ≤ buf.length →
    ∃ (j off2 : Nat) (buf2 : List Nat),
      toBytesLoop fuel i (off : Int) buf = (j, (off2 : Int), buf2) ∧ j < 100 ∧
      buf2.length = buf.length ∧ (Nat.digits 10 j).length ≤ off2 ∧ off2 ≤ buf.length ∧
      digitBytes j ++ buf2.drop off2 = digitBytes i ++ buf.drop off := by
  intro fuel
  induction fuel with
  | zero =>
    intro i off buf hi hd ho
    have : i = 0 := by omega
    subst this
    exact ⟨0, off, buf, rfl, by norm_num, rfl, hd, ho, rfl⟩
  | succ fuel ih =>
    intro i off buf hi hd ho
    by_cases h : i ≥ 100
    · have hd3 := digits_three i h
      rw [hd3] at hd
      simp only [List.length_cons] at hd
      have e : ((off : Int) - 3) = ((off - 3 : Nat) : Int) := by omega
      have hp : (i - i / 1000 * 1000) * 3 = (i % 1000) * 3 := by omega
      have hc := copy_drop buf (slice digit3 (i % 1000 * 3) (i % 1000 * 3 + 3)) off 3
        (by rw [digit3_slice _ (by omega)]; rfl) (by omega) ho
      obtain ⟨j, off2, buf2, h1, h2, h3, h4, h5, h6⟩ :=
        ih (i / 1000) (off - 3)
          (copy buf ((off : Int) - 3) ((off : Int) - 3 + 3)
            (slice digit3 (i % 1000 * 3) (i % 1000 * 3 + 3)))
          (by omega) (by omega) (by rw [copy_length]; omega)
      refine ⟨j, off2, buf2, ?_, h2, ?_, h4, ?_, ?_⟩
      · rw [toBytesLoop, if_pos h]
        simp only [hp, e] at h1 ⊢
        exact h1
      · rw [h3, copy_length]
      · rw [copy_length] at h5; exact h5
      · rw [h6]
        simp only [Nat.cast_ofNat] at hc
        rw [hc, digit3_slice _ (by omega), digitBytes_three i h]
        have a1 : i % 1000 / 100 = i / 100 % 10 := by omega
        have a2 : i % 1000 / 10 % 10 = i / 10 % 10 := by omega
        have a3 : i % 1000 % 10 = i % 10 := by omega
        simp [a1, a2, a3]
    · refine ⟨i, off, buf, ?_, by omega, rfl, hd, ho, rfl⟩
      rw [toBytesLoop, if_neg h]


theorem set_drop (buf : List Nat) (b off : Nat) (h1 : 1 ≤ off) (h2 : off ≤ buf.length) :
    (buf.set (off - 1) b).drop (off - 1) = b :: buf.drop off := by
  have h := copyAt_eq [b] buf (off - 1) (by simp; omega)
  simp only [copyAt, List.length_singleton] at h
  rw [h, List.append_assoc, List.drop_append_eq_append_drop]
  have e3 : off - 1 + 1 = off := by omega
  rw [e3, List.drop_eq_nil_of_le (by simp)]
  have e4 : off - 1 - (List.take (off - 1) buf).length = 0 := by
    rw [List.length_take]; omega
  rw [e4]
  rfl

theorem toBytes_spec (i : Nat) (buf : List Nat) (hd : (Nat.digits 10 i).length ≤ buf.length) :
    ∃ (off : Nat) (buf2 : List Nat), toBytes i buf = ((off : Int), buf2) ∧
      off + (Nat.digits 10 i).length = buf.length ∧ buf2.length = buf.length ∧
      buf2.drop off = digitBytes i := by
  obtain ⟨j, off2, buf2, h1, h2, h3, h4, h5, h6⟩ :=
    toBytesLoop_spec i i buf.length buf (le_refl _) hd (le_refl _)
  simp only [List.drop_length, List.append_nil] at h6
  have hlen : ∀ (n off : Nat) (b : List Nat), off ≤ buf.length → b.length = buf.length →
      b.drop off = digitBytes n → off + (Nat.digits 10 n).length = buf.length := by
    intro n off b ho hb he
    have := congrArg List.length he
    simp [digitBytes] at this
    omega
  unfold toBytes
  simp only [h1]
  by_cases hj : j ≥ 10
  · have e : ((off2 : Int) - 2) = ((off2 - 2 : Nat) : Int) := by
      have := digitBytes_two j hj
      rw [Nat.digits_def' (by norm_num) (by omega), Nat.digits_def' (by norm_num) (by omega)] at h4
      simp only [List.length_cons] at h4
      omega
    have hq : j / 100 = 0 := by omega
    have hp : (j - j / 100 * 100) * 2 = j * 2 := by omega
    have hoff : 2 ≤ off2 := by omega
    have hc := copy_drop buf2 (slice digit2 (j * 2) (j * 2 + 2)) off2 2
      (by rw [digit2_slice _ (by omega)]; rfl) hoff (by omega)
    simp only [Nat.cast_ofNat] at hc
    refine ⟨off2 - 2, copy buf2 ((off2 : Int) - 2) ((off2 : Int) - 2 + 2)
      (slice digit2 (j * 2) (j * 2 + 2)), ?_, ?_, ?_, ?_⟩
    · simp [hj, hq, hp, e]
    · apply hlen i (off2 - 2) (copy buf2 ((off2 : Int) - 2) ((off2 : Int) - 2 + 2)
        (slice digit2 (j * 2) (j * 2 + 2))) (by omega) (by rw [copy_length, h3])
      rw [hc, digit2_slice _ (by omega), ← h6, digitBytes_two j hj, hq]
      have a1 : j / 10 % 10 = j / 10 := by omega
      simp [digitBytes, a1]
    · rw [copy_length, h3]
    · rw [hc, digit2_slice _ (by omega), ← h6, digitBytes_two j hj, hq]
      have a1 : j / 10 % 10 = j / 10 := by omega
      simp [digitBytes, a1]
  · by_cases h0 : j > 0
    · have hone := digitBytes_one j h0 (by omega)
      have hoff : 1 ≤ off2 := by
        rw [Nat.digits_def' (by norm_num) h0] at h4
        simp only [List.length_cons] at h4
        omega
      have e : ((off2 : Int) - 1) = ((off2 - 1 : Nat) : Int) := by omega
      have hs := set_drop buf2 (byteAt digits j) off2 hoff (by omega)
      rw [digits_byteAt j (by omega)] at hs
      refine ⟨off2 - 1, buf2.set (off2 - 1) (byteAt digits j), ?_, ?_, ?_, ?_⟩
      · simp [hj, h0, e]
      · apply hlen i (off2 - 1) (buf2.set (off2 - 1) (byteAt digits j)) (by omega) (by simp [h3])
        rw [digits_byteAt j (by omega), hs, ← h6, hone]; rfl
      · simp [h3]
      · rw [digits_byteAt j (by omega), hs, ← h6, hone]; rfl
    · have hz : j = 0 := by omega
      subst hz
      refine ⟨off2, buf2, ?_, ?_, h3, ?_⟩
      · simp
      · apply hlen i off2 buf2 h5 h3
        rw [← h6]; simp [digitBytes]
      · rw [← h6]; simp [digitBytes]


@[simp] theorem Write_mk (d : List Nat) (c : Nat) (p : List Nat) :
    (Writer.mk d [] c).Write p = (⟨d ++ p, [], c + 1⟩, none) := rfl

@[simp] theorem WriteByte_mk (d : List Nat) (c b : Nat) :
    (Writer.mk d [] c).WriteByte b = (⟨d ++ [b], [], c + 1⟩, none) := rfl

theorem decimal_small (i : Nat) (h : i ≤ 9) : decimal i = [48 + i] := by
  unfold decimal
  split
  · next h0 => simp [h0]
  · next h0 => exact digitBytes_one i (by omega) (by omega)

theorem writeUint64_mk (d : List Nat) (c i : Nat) (hi : i ≤ MaxUint64) :
    writeUint64 ⟨d, [], c⟩ i = (⟨d ++ decimal i, [], c + 1⟩, none) := by
  unfold writeUint64
  by_cases h9 : i ≤ 9
  · simp [h9, digits_byteAt, decimal_small]
  · have hl : (Nat.digits 10 i).length ≤ (List.replicate 20 0).length := by
      rw [List.length_replicate]
      apply digits_length_le
      unfold MaxUint64 at hi
      omega
    obtain ⟨off, buf2, e1, _, _, e4⟩ := toBytes_spec i (List.replicate 20 0) hl
    have h0 : i ≠ 0 := by omega
    rw [if_neg (by omega)]
    simp only [e1, Int.toNat_ofNat, e4, Write_mk, decimal, if_neg h0]


theorem minInt64Buf_eq : minInt64Buf = 45 :: decimal 9223372036854775808 := by
  have h1 : writeUint64 ⟨[], [], 0⟩ 9223372036854775808 =
      (⟨[] ++ decimal 9223372036854775808, [], 0 + 1⟩, none) :=
    writeUint64_mk [] 0 9223372036854775808 (by decide)
  have h2 : writeUint64 ⟨[], [], 0⟩ 9223372036854775808 =
      (⟨[] ++ minInt64Buf.drop 1, [], 0 + 1⟩, none) := by decide!
  have h3 := List.append_cancel_left (Writer.mk.inj (Prod.mk.inj (h2.symm.trans h1)).1).1
  have h4 : minInt64Buf = 45 :: minInt64Buf.drop 1 := by decide
  rw [h4, h3]

theorem writeInt64_mk (d : List Nat) (c : Nat) (i : Int) (h1 : MinInt64 ≤ i) (h2 : i ≤ MaxInt64) :
    writeInt64 ⟨d, [], c⟩ i = (⟨d ++ signedDecimal i, [], c + 1⟩, none) := by
  unfold MinInt64 at h1
  unfold MaxInt64 at h2
  unfold writeInt64
  by_cases h0 : i ≥ 0
  · have e : uint64 i = i.toNat := by unfold uint64; omega
    rw [if_pos h0, e, writeUint64_mk _ _ _ (by unfold MaxUint64; omega), signedDecimal,
      if_neg (by omega)]
  · rw [if_neg h0]
    by_cases hm : i = MinInt64
    · rw [if_pos hm]
      subst hm
      have e6 : (MinInt64).natAbs = 9223372036854775808 := by decide
      rw [Write_mk, minInt64Buf_eq, signedDecimal, if_pos (by decide), e6]
    · rw [if_neg hm]
      unfold MinInt64 at hm
      have e : uint64 (negInt64 i) = i.natAbs := by unfold uint64 negInt64; omega
      have hl : (Nat.digits 10 i.natAbs).length ≤ 19 := by
        apply digits_length_le
        omega
      obtain ⟨off, buf2, e1, e2, e3, e4⟩ := toBytes_spec i.natAbs (List.replicate 20 0)
        (by rw [List.length_replicate]; omega)
      rw [List.length_replicate] at e2 e3
      have hoff : 1 ≤ off := by omega
      have e5 : ((off : Int) - 1).toNat = off - 1 := by omega
      have hs := set_drop buf2 45 off hoff (by omega)
      have hn : i.natAbs ≠ 0 := by omega
      simp only [e, e1, e5, hs, e4, Write_mk, signedDecimal, decimal, if_neg hn,
        if_pos (show i < 0 by omega)]

theorem WriteInt64_mk (d : List Nat) (c : Nat) (v : Int) (h1 : MinInt64 ≤ v) (h2 : v ≤ MaxInt64)
    (h3 : ¬ (0 ≤ v ∧ v ≤ 9)) :
    WriteInt64 ⟨d, [], c⟩ v =
      (⟨d ++ [if MinInt32 ≤ v ∧ v ≤ MaxInt32 then TagInteger else TagLong] ++ signedDecimal v
          ++ [TagSemicolon], [], c + 3⟩, none) := by
  unfold WriteInt64
  rw [if_neg (by omega)]
  simp only [WriteByte_mk, writeInt64_mk _ _ v h1 h2]
  by_cases h : v < MinInt32 ∨ v > MaxInt32
  · rw [if_pos h, if_neg (by omega)]
  · rw [if_neg h, if_pos (by omega)]

theorem WriteUint64_mk (d : List Nat) (c : Nat) (v : Nat) (h1 : v ≤ MaxUint64) (h3 : 9 < v) :
    WriteUint64 ⟨d, [], c⟩ v =
      (⟨d ++ [if v ≤ 2147483647 then TagInteger else TagLong] ++ decimal v
          ++ [TagSemicolon], [], c + 3⟩, none) := by
  unfold WriteUint64
  rw [if_neg (by omega)]
  simp only [WriteByte_mk, writeUint64_mk _ _ v h1]
  by_cases h : (v : Int) > MaxInt32
  · rw [if_pos h, if_neg (by unfold MaxInt32 at h; omega)]
  · rw [if_neg h, if_pos (by unfold MaxInt32 at h; omega)]

theorem WriteInt32_mk (d : List Nat) (c : Nat) (v : Int) (h1 : MinInt64 ≤ v) (h2 : v ≤ MaxInt64)
    (h3 : ¬ (0 ≤ v ∧ v ≤ 9)) :
    WriteInt32 ⟨d, [], c⟩ v =
      (⟨d ++ [TagInteger] ++ signedDecimal v ++ [TagSemicolon], [], c + 3⟩, none) := by
  unfold WriteInt32
  rw [if_neg (by omega)]
  simp only [WriteByte_mk, writeInt64_mk _ _ v h1 h2]

theorem WriteUint16_mk (d : List Nat) (c : Nat) (v : Nat) (h1 : v ≤ MaxUint64) (h3 : 9 < v) :
    WriteUint16 ⟨d, [], c⟩ v =
      (⟨d ++ [TagInteger] ++ decimal v ++ [TagSemicolon], [], c + 3⟩, none) := by
  unfold WriteUint16
  rw [if_neg (by omega)]
  simp only [WriteByte_mk, writeUint64_mk _ _ v h1]

theorem readDecimal_digitBytes (n : Nat) : readDecimal (digitBytes n) = n := by
  have key : ∀ l : List Nat, readDecimal ((l.reverse).map (fun d => 48 + d)) = Nat.ofDigits 10 l := by
    intro l
    induction l with
    | nil => rfl
    | cons d t ih =>
      unfold readDecimal at ih ⊢
      rw [List.reverse_cons, List.map_append, List.foldl_append, ih, Nat.ofDigits_cons]
      simp only [List.map_cons, List.map_nil, List.foldl_cons, List.foldl_nil]
      omega
  unfold digitBytes
  rw [key, Nat.ofDigits_digits]

theorem decimal_props (n : Nat) :
    (∀ b ∈ decimal n, 48 ≤ b ∧ b ≤ 57) ∧ (n = 0 → decimal n = [48]) ∧
    (n ≠ 0 → (decimal n).head? ≠ some 48) ∧ decimal n ≠ [] ∧ readDecimal (decimal n) = n := by
  unfold decimal
  by_cases h : n = 0
  · subst h
    simp [readDecimal]
  · simp only [if_neg h]
    refine ⟨?_, fun h0 => absurd h0 h, fun _ => ?_, ?_, readDecimal_digitBytes n⟩
    · intro b hb
      unfold digitBytes at hb
      obtain ⟨d, hd, rfl⟩ := List.mem_map.mp hb
      have := Nat.digits_lt_base (by norm_num : 1 < 10) (List.mem_reverse.mp hd)
      omega
    · have hne : Nat.digits 10 n ≠ [] := Nat.digits_ne_nil_iff_ne_zero.mpr h
      have hl := Nat.getLast_digit_ne_zero 10 h
      unfold digitBytes
      rw [List.head?_map, List.head?_reverse, List.getLast?_eq_getLast _ hne]
      simp only [Option.map_some', ne_eq, Option.some.injEq]
      omega
    · unfold digitBytes
      simp [Nat.digits_ne_nil_iff_ne_zero.mpr h]

theorem decimal_length (n : Nat) (h : n ≤ MaxUint64) : (decimal n).length ≤ 20 := by
  unfold decimal
  split
  · simp
  · unfold digitBytes
    simp only [List.length_map, List.length_reverse]
    apply digits_length_le
    unfold MaxUint64 at h
    omega

theorem digit_mk (d : List Nat) (c v : Nat) (h : v ≤ 9) :
    (Writer.mk d [] c).WriteByte (byteAt digits v) = (⟨d ++ [48 + v], [], c + 1⟩, none) := by
  rw [WriteByte_mk, digits_byteAt v h]

/-! ## UTF-16 length: the loop against a unit-by-unit scan -/

theorem byte_lead2 : ∀ a < 256, (a &&& 0xe0 = 0xc0) ↔ (0xC0 ≤ a ∧ a ≤ 0xDF) := by decide!

theorem byte_lead3 : ∀ a < 256, (a &&& 0xf0 = 0xe0) ↔ (0xE0 ≤ a ∧ a ≤ 0xEF) := by decide!

theorem byte_lead4 : ∀ a < 256, (a &&& 0xf8 = 0xf0) ↔ (0xF0 ≤ a ∧ a ≤ 0xF7) := by decide!

theorem byte_high : ∀ a < 256, (a &&& 0x80 = 0x80) ↔ (0x80 ≤ a) := by decide!

theorem byte_cont : ∀ a < 256, (a &&& 0xc0 = 0x80) ↔ isCont a := by decide!


theorem loop_nil (n c : Int) (hc : c ≠ 0) : utf16LengthLoop [] n c = -1 := by
  simp [utf16LengthLoop, hc]

theorem loop_cont (b : Nat) (r : List Nat) (n c : Int) (hb : b < 256) (hc : c ≠ 0) :
    utf16LengthLoop (b :: r) n c = if isCont b then utf16LengthLoop r n (c - 1) else -1 := by
  rw [utf16LengthLoop, if_neg hc]
  have := byte_cont b hb
  by_cases h : isCont b
  · rw [if_pos h, if_neg (by rw [not_not]; exact this.2 h)]
  · rw [if_neg h, if_pos (by intro h2; exact h (this.1 h2))]

theorem loop_lead (a : Nat) (r : List Nat) (n : Int) (ha : a < 256) :
    utf16LengthLoop (a :: r) n 0 =
      if a ≤ 0x7F then utf16LengthLoop r n 0
      else if 0xC0 ≤ a ∧ a ≤ 0xDF then utf16LengthLoop r (n - 1) 1
      else if 0xE0 ≤ a ∧ a ≤ 0xEF then utf16LengthLoop r (n - 2) 2
      else if 0xF0 ≤ a ∧ a ≤ 0xF7 then utf16LengthLoop r (n - 2) 3
      else -1 := by
  rw [utf16LengthLoop, if_pos rfl]
  have h2 := byte_lead2 a ha
  have h3 := byte_lead3 a ha
  have h4 := byte_lead4 a ha
  have h5 := byte_high a ha
  simp only [h2, h3, h4, h5]
  split_ifs <;> first | rfl | omega


theorem unitScan_nil : unitScan [] = some 0 := rfl

theorem unitScan_cons (a : Nat) (rest : List Nat) : unitScan (a :: rest) =
    if a ≤ 0x7F then
      (unitScan rest).map (fun k => k + 1)
    else if 0xC0 ≤ a ∧ a ≤ 0xDF then
      match rest with
      | b :: rest => if isCont b then (unitScan rest).map (fun k => k + 1) else none
      | _ => none
    else if 0xE0 ≤ a ∧ a ≤ 0xEF then
      match rest with
      | b :: c :: rest =>
        if isCont b ∧ isCont c then (unitScan rest).map (fun k => k + 1) else none
      | _ => none
    else if 0xF0 ≤ a ∧ a ≤ 0xF7 then
      match rest with
      | b :: c :: d :: rest =>
        if isCont b ∧ isCont c ∧ isCont d then (unitScan rest).map (fun k => k + 2) else none
      | _ => none
    else none := by
  cases rest with
  | nil => rfl
  | cons b r =>
    cases r with
    | nil => rfl
    | cons c r =>
      cases r with
      | nil => rfl
      | cons d r => rfl

theorem scanValue_map (n : Int) (len j : Nat) (o : Option Nat) (d : Nat) (hj : j ≤ d + 1) :
    scanValue (n - (d + 1 - j : Nat)) len o = scanValue n (len + (d + 1)) (o.map (fun k => k + j)) := by
  cases o with
  | none => rfl
  | some u =>
    show n - ((d + 1 - j : Nat) : Int) - (len : Nat) + (u : Nat) = n - ((len + (d + 1) : Nat) : Int) + ((u + j : Nat) : Int)
    omega

theorem utf16Loop_scan : ∀ (k : Nat) (s : List Nat), s.length ≤ k → (∀ b ∈ s, b < 256) →
    ∀ n : Int, utf16LengthLoop s n 0 = scanValue n s.length (unitScan s) := by
  intro k
  induction k with
  | zero =>
    intro s hs _ n
    have : s = [] := List.length_eq_zero.mp (by omega)
    subst this
    simp [utf16LengthLoop, unitScan_nil, scanValue]
  | succ k ih =>
    intro s hs hb n
    match s, hs, hb with
    | [], _, _ => simp [utf16LengthLoop, unitScan_nil, scanValue]
    | a :: rest, hs, hb =>
      have ha : a < 256 := hb a (by simp)
      rw [loop_lead a rest n ha, unitScan_cons]
      by_cases h1 : a ≤ 0x7F
      · rw [if_pos h1, if_pos h1, ih rest (by simpa using hs) (fun b hb2 => hb b (by simp [hb2]))]
        have := scanValue_map n rest.length 1 (unitScan rest) 0 (by omega)
        simpa using this
      · rw [if_neg h1, if_neg h1]
        by_cases h2 : 0xC0 ≤ a ∧ a ≤ 0xDF
        · rw [if_pos h2, if_pos h2]
          match rest, hs, hb with
          | [], _, _ => rw [loop_nil _ _ (by norm_num)]; rfl
          | b :: r2, hs, hb =>
            rw [loop_cont b r2 _ _ (hb b (by simp)) (by norm_num)]
            by_cases hc : isCont b
            · simp only [if_pos hc]
              rw [show (1 : Int) - 1 = 0 by norm_num,
                ih r2 (by simp at hs; omega) (fun x hx => hb x (by simp [hx]))]
              have := scanValue_map n r2.length 1 (unitScan r2) 1 (by omega)
              simpa using this
            · simp only [if_neg hc]; rfl
        · rw [if_neg h2, if_neg h2]
          by_cases h3 : 0xE0 ≤ a ∧ a ≤ 0xEF
          · rw [if_pos h3, if_pos h3]
            match rest, hs, hb with
            | [], _, _ => rw [loop_nil _ _ (by norm_num)]; rfl
            | [b], _, hb =>
              rw [loop_cont b [] _ _ (hb b (by simp)) (by norm_num), loop_nil _ _ (by norm_num)]
              simp [scanValue]
            | b :: c :: r2, hs, hb =>
              rw [loop_cont b _ _ _ (hb b (by simp)) (by norm_num)]
              by_cases hc : isCont b
              · rw [if_pos hc, loop_cont c _ _ _ (hb c (by simp)) (by norm_num)]
                by_cases hc2 : isCont c
                · simp only [if_pos hc2, if_pos (And.intro hc hc2)]
                  rw [show (2 : Int) - 1 - 1 = 0 by norm_num,
                    ih r2 (by simp at hs; omega) (fun x hx => hb x (by simp [hx]))]
                  have := scanValue_map n r2.length 1 (unitScan r2) 2 (by omega)
                  simpa using this
                · simp only [if_neg hc2, if_neg (fun h : isCont b ∧ isCont c => hc2 h.2)]; rfl
              · simp only [if_neg hc, if_neg (fun h : isCont b ∧ isCont c => hc h.1)]; rfl
          · rw [if_neg h3, if_neg h3]
            by_cases h4 : 0xF0 ≤ a ∧ a ≤ 0xF7
            · rw [if_pos h4, if_pos h4]
              match rest, hs, hb with
              | [], _, _ => rw [loop_nil _ _ (by norm_num)]; rfl
              | [b], _, hb =>
                rw [loop_cont b [] _ _ (hb b (by simp)) (by norm_num), loop_nil _ _ (by norm_num)]
                simp [scanValue]
              | [b, c], _, hb =>
                rw [loop_cont b _ _ _ (hb b (by simp)) (by norm_num),
                  loop_cont c [] _ _ (hb c (by simp)) (by norm_num), loop_nil _ _ (by norm_num)]
                simp [scanValue]
              | b :: c :: d :: r2, hs, hb =>
                rw [loop_cont b _ _ _ (hb b (by simp)) (by norm_num)]
                by_cases hc : isCont b
                · rw [if_pos hc, loop_cont c _ _ _ (hb c (by simp)) (by norm_num)]
                  by_cases hc2 : isCont c
                  · rw [if_pos hc2, loop_cont d _ _ _ (hb d (by simp)) (by norm_num)]
                    by_cases hc3 : isCont d
                    · simp only [if_pos hc3, if_pos (And.intro hc (And.intro hc2 hc3))]
                      rw [show (3 : Int) - 1 - 1 - 1 = 0 by norm_num,
                        ih r2 (by simp at hs; omega) (fun x hx => hb x (by simp [hx]))]
                      have := scanValue_map n r2.length 2 (unitScan r2) 3 (by omega)
                      simpa using this
                    · simp only [if_neg hc3,
                        if_neg (fun h : isCont b ∧ isCont c ∧ isCont d => hc3 h.2.2)]; rfl
                  · simp only [if_neg hc2,
                      if_neg (fun h : isCont b ∧ isCont c ∧ isCont d => hc2 h.2.1)]; rfl
                · simp only [if_neg hc,
                    if_neg (fun h : isCont b ∧ isCont c ∧ isCont d => hc h.1)]; rfl
            · rw [if_neg h4, if_neg h4]; rfl

theorem utf16Length_scan (s : List Nat) (hb : ∀ b ∈ s, b < 256) :
    utf16Length s = match unitScan s with
      | some u => (u : Int)
      | none => -1 := by
  unfold utf16Length
  rw [utf16Loop_scan s.length s (le_refl _) hb]
  cases unitScan s with
  | none => rfl
  | some u => simp [scanValue]

theorem decodeUtf8_cons (a : Nat) (rest : List Nat) : decodeUtf8 (a :: rest) =
    if a ≤ 0x7F then
      (decodeUtf8 rest).map (fun cps => a :: cps)
    else if 0xC2 ≤ a ∧ a ≤ 0xDF then
      match rest with
      | b :: rest =>
        if isCont b then
          (decodeUtf8 rest).map (fun cps => ((a - 0xC0) * 64 + (b - 0x80)) :: cps)
        else none
      | _ => none
    else if 0xE0 ≤ a ∧ a ≤ 0xEF then
      match rest with
      | b :: c :: rest =>
        if isCont b ∧ isCont c ∧ (a = 0xE0 → 0xA0 ≤ b) ∧ (a = 0xED → b ≤ 0x9F) then
          (decodeUtf8 rest).map
            (fun cps => ((a - 0xE0) * 4096 + (b - 0x80) * 64 + (c - 0x80)) :: cps)
        else none
      | _ => none
    else if 0xF0 ≤ a ∧ a ≤ 0xF4 then
      match rest with
      | b :: c :: d :: rest =>
        if isCont b ∧ isCont c ∧ isCont d ∧ (a = 0xF0 → 0x90 ≤ b) ∧ (a = 0xF4 → b ≤ 0x8F) then
          (decodeUtf8 rest).map
            (fun cps =>
              ((a - 0xF0) * 262144 + (b - 0x80) * 4096 + (c - 0x80) * 64 + (d - 0x80)) :: cps)
        else none
      | _ => none
    else none := by
  cases rest with
  | nil => rfl
  | cons b r =>
    cases r with
    | nil => rfl
    | cons c r =>
      cases r with
      | nil => rfl
      | cons d r => rfl

theorem decodeUtf8_nil : decodeUtf8 [] = some [] := rfl

theorem scan_step (r : List Nat) (cp j : Nat) (cps : List Nat)
    (h : (decodeUtf8 r).map (fun t => cp :: t) = some cps)
    (ih : ∀ t, decodeUtf8 r = some t → (∀ b ∈ r, b < 256) ∧ unitScan r = some (utf16Count t))
    (hj : utf16Units cp = j) :
    (∀ b ∈ r, b < 256) ∧ (unitScan r).map (fun k => k + j) = some (utf16Count cps) := by
  obtain ⟨t, ht, hc⟩ := Option.map_eq_some'.mp h
  obtain ⟨hb, hu⟩ := ih t ht
  refine ⟨hb, ?_⟩
  rw [hu, ← hc, ← hj]
  simp only [Option.map_some', utf16Count, List.map_cons, List.sum_cons]
  rw [Nat.add_comm]

theorem decodeUtf8_scan : ∀ (k : Nat) (s : List Nat), s.length ≤ k → ∀ cps : List Nat,
    decodeUtf8 s = some cps → (∀ b ∈ s, b < 256) ∧ unitScan s = some (utf16Count cps) := by
  intro k
  induction k with
  | zero =>
    intro s hs cps h
    have : s = [] := List.length_eq_zero.mp (by omega)
    subst this
    rw [decodeUtf8_nil, Option.some.injEq] at h
    subst h
    exact ⟨by simp, rfl⟩
  | succ k ih =>
    intro s hs cps h
    match s, hs, h with
    | [], _, h =>
      rw [decodeUtf8_nil, Option.some.injEq] at h
      subst h
      exact ⟨by simp, rfl⟩
    | a :: rest, hs, h =>
      rw [decodeUtf8_cons] at h
      rw [unitScan_cons]
      simp only [List.length_cons] at hs
      by_cases h1 : a ≤ 0x7F
      · rw [if_pos h1] at h
        rw [if_pos h1]
        obtain ⟨hb, hu⟩ := scan_step rest a 1 cps h (ih rest (by omega))
          (by unfold utf16Units; rw [if_pos (by omega)])
        refine ⟨?_, hu⟩
        intro b hb2
        rcases List.mem_cons.mp hb2 with rfl | hb3
        · omega
        · exact hb b hb3
      · rw [if_neg h1] at h
        rw [if_neg h1]
        by_cases h2 : 0xC2 ≤ a ∧ a ≤ 0xDF
        · rw [if_pos h2] at h
          rw [if_pos (by omega)]
          match rest, hs, h with
          | [], _, h => simp at h
          | b :: r2, hs, h =>
            simp only [List.length_cons] at hs
            by_cases hc : isCont b
            · simp only [if_pos hc] at h ⊢
              obtain ⟨hb, hu⟩ := scan_step r2 _ 1 cps h (ih r2 (by omega))
                (by unfold utf16Units; rw [if_pos (by unfold isCont at hc; omega)])
              refine ⟨?_, hu⟩
              intro x hx
              unfold isCont at hc
              rcases List.mem_cons.mp hx with rfl | hx
              · omega
              · rcases List.mem_cons.mp hx with rfl | hx
                · omega
                · exact hb x hx
            · simp only [if_neg hc] at h
              simp at h
        · rw [if_neg h2] at h
          by_cases h3 : 0xE0 ≤ a ∧ a ≤ 0xEF
          · rw [if_pos h3] at h
            rw [if_neg (by omega), if_pos h3]
            match rest, hs, h with
            | [], _, h => simp at h
            | [b], _, h => simp at h
            | b :: c :: r2, hs, h =>
              simp only [List.length_cons] at hs
              by_cases hc : isCont b ∧ isCont c ∧ (a = 0xE0 → 0xA0 ≤ b) ∧ (a = 0xED → b ≤ 0x9F)
              · simp only [if_pos hc, if_pos (And.intro hc.1 hc.2.1)] at h ⊢
                obtain ⟨hc1, hc2, _, _⟩ := hc
                unfold isCont at hc1 hc2
                obtain ⟨hb, hu⟩ := scan_step r2 _ 1 cps h (ih r2 (by omega))
                  (by unfold utf16Units; rw [if_pos (by omega)])
                refine ⟨?_, hu⟩
                intro x hx
                rcases List.mem_cons.mp hx with rfl | hx
                · omega
                · rcases List.mem_cons.mp hx with rfl | hx
                  · omega
                  · rcases List.mem_cons.mp hx with rfl | hx
                    · omega
                    · exact hb x hx
              · simp only [if_neg hc] at h
                simp at h
          · rw [if_neg h3] at h
            by_cases h4 : 0xF0 ≤ a ∧ a ≤ 0xF4
            · rw [if_pos h4] at h
              rw [if_neg (by omega), if_neg h3, if_pos (by omega)]
              match rest, hs, h with
              | [], _, h => simp at h
              | [b], _, h => simp at h
              | [b, c], _, h => simp at h
              | b :: c :: d :: r2, hs, h =>
                simp only [List.length_cons] at hs
                by_cases hc : isCont b ∧ isCont c ∧ isCont d ∧ (a = 0xF0 → 0x90 ≤ b) ∧
                    (a = 0xF4 → b ≤ 0x8F)
                · simp only [if_pos hc, if_pos (And.intro hc.1 (And.intro hc.2.1 hc.2.2.1))] at h ⊢
                  obtain ⟨hc1, hc2, hc3, hc4, _⟩ := hc
                  unfold isCont at hc1 hc2 hc3
                  obtain ⟨hb, hu⟩ := scan_step r2 _ 2 cps h (ih r2 (by omega))
                    (by unfold utf16Units; rw [if_neg (by omega)])
                  refine ⟨?_, hu⟩
                  intro x hx
                  rcases List.mem_cons.mp hx with rfl | hx
                  · omega
                  · rcases List.mem_cons.mp hx with rfl | hx
                    · omega
                    · rcases List.mem_cons.mp hx with rfl | hx
                      · omega
                      · rcases List.mem_cons.mp hx with rfl | hx
                        · omega
                        · exact hb x hx
                · simp only [if_neg hc] at h
                  simp at h
            · rw [if_neg h4] at h
              simp at h

theorem utf16Count_eq (cps : List Nat) :
    utf16Count cps = (cps.filter (fun cp => cp < 0x10000)).length
      + 2 * (cps.filter (fun cp => 0x10000 ≤ cp)).length := by
  induction cps with
  | nil => rfl
  | cons cp t ih =>
    unfold utf16Count at ih ⊢
    rw [List.map_cons, List.sum_cons, ih]
    by_cases h : cp < 0x10000
    · have h2 : ¬ (0x10000 ≤ cp) := by omega
      simp [utf16Units, h, h2]; omega
    · have h2 : 0x10000 ≤ cp := by omega
      simp [utf16Units, h, h2]; omega

theorem unitScan_units : ∀ (k : Nat) (s : List Nat), s.length ≤ k → unitScan s ≠ none →
    ∃ us : List (List Nat), (∀ u ∈ us, isUnit u) ∧ us.flatten = s := by
  intro k
  induction k with
  | zero =>
    intro s hs _
    have : s = [] := List.length_eq_zero.mp (by omega)
    subst this
    exact ⟨[], by simp, rfl⟩
  | succ k ih =>
    intro s hs h
    match s, hs, h with
    | [], _, _ => exact ⟨[], by simp, rfl⟩
    | a :: rest, hs, h =>
      rw [unitScan_cons] at h
      simp only [List.length_cons] at hs
      have key : ∀ (u r : List Nat), isUnit u → r.length ≤ k → unitScan r ≠ none →
          ∃ us : List (List Nat), (∀ v ∈ us, isUnit v) ∧ us.flatten = u ++ r := by
        intro u r hu hr hn
        obtain ⟨us, h1, h2⟩ := ih r hr hn
        refine ⟨u :: us, ?_, by simp [h2]⟩
        intro v hv
        rcases List.mem_cons.mp hv with rfl | hv
        · exact hu
        · exact h1 v hv
      have mapne : ∀ (o : Option Nat) (f : Nat → Nat), o.map f ≠ none → o ≠ none := by
        intro o f; cases o <;> simp
      by_cases h1 : a ≤ 0x7F
      · rw [if_pos h1] at h
        exact key [a] rest (by simpa [isUnit] using h1) (by omega) (mapne _ _ h)
      · rw [if_neg h1] at h
        by_cases h2 : 0xC0 ≤ a ∧ a ≤ 0xDF
        · rw [if_pos h2] at h
          match rest, hs, h with
          | [], _, h => simp at h
          | b :: r2, hs, h =>
            simp only [List.length_cons] at hs
            by_cases hc : isCont b
            · simp only [if_pos hc] at h
              exact key [a, b] r2 (by simp only [isUnit]; exact ⟨h2.1, h2.2, hc⟩) (by omega) (mapne _ _ h)
            · simp only [if_neg hc] at h; simp at h
        · rw [if_neg h2] at h
          by_cases h3 : 0xE0 ≤ a ∧ a ≤ 0xEF
          · rw [if_pos h3] at h
            match rest, hs, h with
            | [], _, h => simp at h
            | [b], _, h => simp at h
            | b :: c :: r2, hs, h =>
              simp only [List.length_cons] at hs
              by_cases hc : isCont b ∧ isCont c
              · simp only [if_pos hc] at h
                exact key [a, b, c] r2 (by simp only [isUnit]; exact ⟨h3.1, h3.2, hc.1, hc.2⟩)
                  (by omega) (mapne _ _ h)
              · simp only [if_neg hc] at h; simp at h
          · rw [if_neg h3] at h
            by_cases h4 : 0xF0 ≤ a ∧ a ≤ 0xF7
            · rw [if_pos h4] at h
              match rest, hs, h with
              | [], _, h => simp at h
              | [b], _, h => simp at h
              | [b, c], _, h => simp at h
              | b :: c :: d :: r2, hs, h =>
                simp only [List.length_cons] at hs
                by_cases hc : isCont b ∧ isCont c ∧ isCont d
                · simp only [if_pos hc] at h
                  exact key [a, b, c, d] r2
                    (by simp only [isUnit]; exact ⟨h4.1, h4.2, hc.1, hc.2.1, hc.2.2⟩)
                    (by omega) (mapne _ _ h)
                · simp only [if_neg hc] at h; simp at h
            · rw [if_neg h4] at h
              simp at h

theorem unitScan_append_unit (u rest : List Nat) (hu : isUnit u) :
    unitScan rest ≠ none → unitScan (u ++ rest) ≠ none := by
  intro hr
  have mapne : ∀ (o : Option Nat) (f : Nat → Nat), o ≠ none → o.map f ≠ none := by
    intro o f; cases o <;> simp
  match u, hu with
  | [a], hu =>
    simp only [isUnit] at hu
    rw [List.singleton_append, unitScan_cons, if_pos hu]
    exact mapne _ _ hr
  | [a, b], hu =>
    simp only [isUnit] at hu
    show unitScan (a :: b :: rest) ≠ none
    rw [unitScan_cons, if_neg (by omega), if_pos ⟨hu.1, hu.2.1⟩]
    simp only [if_pos hu.2.2]
    exact mapne _ _ hr
  | [a, b, c], hu =>
    simp only [isUnit] at hu
    show unitScan (a :: b :: c :: rest) ≠ none
    rw [unitScan_cons, if_neg (by omega), if_neg (by omega), if_pos ⟨hu.1, hu.2.1⟩]
    simp only [if_pos hu.2.2]
    exact mapne _ _ hr
  | [a, b, c, d], hu =>
    simp only [isUnit] at hu
    show unitScan (a :: b :: c :: d :: rest) ≠ none
    rw [unitScan_cons, if_neg (by omega), if_neg (by omega), if_neg (by omega),
      if_pos ⟨hu.1, hu.2.1⟩]
    simp only [if_pos hu.2.2]
    exact mapne _ _ hr

theorem units_unitScan (us : List (List Nat)) (h : ∀ u ∈ us, isUnit u) :
    unitScan us.flatten ≠ none := by
  induction us with
  | nil => simp [unitScan_nil]
  | cons u t ih =>
    rw [List.flatten_cons]
    exact unitScan_append_unit u _ (h u (by simp)) (ih (fun v hv => h v (by simp [hv])))

/-! ## Writers on a sink that never fails -/

theorem framed_of (f : Writer → Result) (X : List Nat) (k : Nat)
    (h : ∀ (d : List Nat) (c : Nat), f ⟨d, [], c⟩ = (⟨d ++ X, [], c + k⟩, none)) : Framed f := by
  refine ⟨k, fun d c => ?_⟩
  have e : emitted f = X := by
    unfold emitted Writer.reliable
    rw [h]
    simp
  rw [e, h]

theorem framed_writeUint64 (i : Nat) : Framed (fun w => writeUint64 w i) := by
  by_cases h : i ≥ 0 ∧ i ≤ 9
  · exact framed_of _ [byteAt digits i] 1 (fun d c => by simp [writeUint64, h])
  · exact framed_of _ ((toBytes i (List.replicate 20 0)).2.drop (toBytes i (List.replicate 20 0)).1.toNat) 1
      (fun d c => by simp only [writeUint64, if_neg h, Write_mk])

theorem framed_writeInt64 (i : Int) : Framed (fun w => writeInt64 w i) := by
  by_cases h : i ≥ 0
  · obtain ⟨k, hk⟩ := framed_writeUint64 (uint64 i)
    exact framed_of _ _ k (fun d c => by simp only [writeInt64, if_pos h]; exact hk d c)
  · by_cases h2 : i = MinInt64
    · exact framed_of _ minInt64Buf 1 (fun d c => by simp only [writeInt64, if_neg h, if_pos h2, Write_mk])
    · exact framed_of _ _ 1 (fun d c => by
        simp only [writeInt64, if_neg h, if_neg h2, Write_mk]; rfl)

/-- Sequencing of writer calls, the shape `if err = f(); err == nil { err = g() }`. -/
theorem framed_seq (f g : Writer → Result) (hf : Framed f) (hg : Framed g) :
    Framed (fun w => match f w with
      | (w, none) => g w
      | r => r) := by
  obtain ⟨k1, h1⟩ := hf
  obtain ⟨k2, h2⟩ := hg
  exact framed_of _ (emitted f ++ emitted g) (k1 + k2) (fun d c => by
    simp only [h1, h2, List.append_assoc, Nat.add_assoc])

theorem framed_WriteByte (b : Nat) : Framed (fun w => w.WriteByte b) :=
  framed_of _ [b] 1 (fun _ _ => rfl)

theorem framed_Write (p : List Nat) : Framed (fun w => w.Write p) :=
  framed_of _ p 1 (fun _ _ => rfl)

theorem framed_framing (tag : Nat) (g : Writer → Result) (hg : Framed g) :
    Framed (fun w => match w.WriteByte tag with
      | (w, none) =>
        match g w with
        | (w, none) => w.WriteByte TagSemicolon
        | r => r
      | r => r) :=
  framed_seq _ _ (framed_WriteByte tag) (framed_seq _ _ hg (framed_WriteByte TagSemicolon))

theorem framed_WriteInt64 (i : Int) : Framed (fun w => WriteInt64 w i) := by
  unfold WriteInt64
  by_cases h : i ≥ 0 ∧ i ≤ 9
  · simp only [if_pos h]; exact framed_WriteByte _
  · simp only [if_neg h]; exact framed_framing _ _ (framed_writeInt64 i)

theorem framed_WriteUint64 (i : Nat) : Framed (fun w => WriteUint64 w i) := by
  unfold WriteUint64
  by_cases h : i ≥ 0 ∧ i ≤ 9
  · simp only [if_pos h]; exact framed_WriteByte _
  · simp only [if_neg h]; exact framed_framing _ _ (framed_writeUint64 i)

theorem framed_WriteInt32 (i : Int) : Framed (fun w => WriteInt32 w i) := by
  unfold WriteInt32
  by_cases h : i ≥ 0 ∧ i ≤ 9
  · simp only [if_pos h]; exact framed_WriteByte _
  · simp only [if_neg h]; exact framed_framing _ _ (framed_writeInt64 i)

theorem framed_WriteUint16 (i : Nat) : Framed (fun w => WriteUint16 w i) := by
  unfold WriteUint16
  by_cases h : i ≥ 0 ∧ i ≤ 9
  · simp only [if_pos h]; exact framed_WriteByte _
  · simp only [if_neg h]; exact framed_framing _ _ (framed_writeUint64 i)

theorem framed_WriteBool (b : Bool) : Framed (fun w => WriteBool w b) := by
  unfold WriteBool
  cases b
  · exact framed_WriteByte _
  · exact framed_WriteByte _

theorem forRange_framed {β : Type} (f : Writer → β → Result) (hf : ∀ x, Framed (fun w => f w x))
    (xs : List β) :
    ∃ k : Nat, ∀ (d : List Nat) (c : Nat), forRange f ⟨d, [], c⟩ xs =
      (⟨d ++ xs.flatMap (fun x => emitted (fun w => f w x)), [], c + k⟩, none) := by
  induction xs with
  | nil => exact ⟨0, fun d c => by simp [forRange]⟩
  | cons x t ih =>
    obtain ⟨k1, h1⟩ := hf x
    obtain ⟨k2, h2⟩ := ih
    have h3 : ∀ (d : List Nat) (c : Nat), f ⟨d, [], c⟩ x =
        (⟨d ++ emitted (fun w => f w x), [], c + k1⟩, none) := h1
    refine ⟨k1 + k2, fun d c => ?_⟩
    unfold forRange at h2 ⊢
    rw [List.foldl_cons]
    simp only
    rw [h3, h2]
    simp [List.flatMap_cons, Nat.add_assoc]

theorem uint64_of_len (n : Int) (h0 : 0 ≤ n) (h : n ≤ MaxInt64) : uint64 n = n.toNat := by
  unfold uint64
  unfold MaxInt64 at h
  omega

theorem writeBinary_pos (d : List Nat) (c : Nat) (bytes : List Nat) (length : Int)
    (h0 : 0 < length) (h : length ≤ MaxInt64) :
    writeBinary ⟨d, [], c⟩ bytes length =
      (⟨d ++ decimal length.toNat ++ [TagQuote] ++ bytes ++ [TagQuote], [], c + 4⟩, none) := by
  unfold writeBinary
  simp only [if_pos h0, uint64_of_len length (by omega) h]
  rw [writeUint64_mk _ _ _ (by unfold MaxUint64; unfold MaxInt64 at h; omega)]
  simp only [WriteByte_mk, Write_mk]

theorem writeBinary_nonpos (d : List Nat) (c : Nat) (bytes : List Nat) (length : Int)
    (h0 : ¬ 0 < length) :
    writeBinary ⟨d, [], c⟩ bytes length =
      (⟨d ++ [TagQuote] ++ bytes ++ [TagQuote], [], c + 3⟩, none) := by
  unfold writeBinary
  simp only [if_neg h0, WriteByte_mk, Write_mk]

theorem writeBytes_mk (d : List Nat) (c : Nat) (bytes : List Nat)
    (h : (bytes.length : Int) ≤ MaxInt64) :
    writeBytes ⟨d, [], c⟩ bytes =
      (⟨d ++ [TagBytes] ++ (if bytes = [] then [] else decimal bytes.length) ++ [TagQuote]
        ++ bytes ++ [TagQuote], [], c + (if bytes = [] then 4 else 5)⟩, none) := by
  unfold writeBytes
  simp only [WriteByte_mk]
  by_cases hb : bytes = []
  · subst hb
    rw [writeBinary_nonpos _ _ _ _ (by simp)]
    simp
  · have hpos : 0 < (bytes.length : Int) := by
      have := List.length_pos.mpr hb
      omega
    rw [writeBinary_pos _ _ _ _ hpos h]
    simp [hb]

theorem WriteHead_pos (d : List Nat) (c : Nat) (n : Int) (tag : Nat) (h0 : 0 < n)
    (h : n ≤ MaxInt64) :
    WriteHead ⟨d, [], c⟩ n tag =
      (⟨d ++ [tag] ++ decimal n.toNat ++ [TagOpenbrace], [], c + 3⟩, none) := by
  unfold WriteHead
  simp only [WriteByte_mk, if_pos h0, uint64_of_len n (by omega) h]
  rw [writeUint64_mk _ _ _ (by unfold MaxUint64; unfold MaxInt64 at h; omega)]
  simp only [WriteByte_mk]

theorem writeSlice_nonbytes {α : Type} (ext : Externals α) (enc : Encoder) (v : SliceValue α)
    (hv : ∀ bs, v ≠ .bytes bs) :
    writeSlice ext enc v =
      if v.len = 0 then
        enc.onWriter (enc.Writer.Write emptySlice)
      else
        match WriteHead enc.Writer v.len TagList with
        | (writer, none) =>
          match writeSliceBody ext ⟨writer, enc.refCount⟩ v with
          | (enc, none) => enc.onWriter (WriteFoot enc.Writer)
          | r => r
        | (writer, some e) => (⟨writer, enc.refCount⟩, some e) := by
  cases v <;> first | exact absurd rfl (hv _) | rfl

theorem writeSlice_list {α : Type} (ext : Externals α) (d : List Nat) (c rc : Nat)
    (v : SliceValue α) (hv : ∀ bs, v ≠ .bytes bs) (h0 : v.len ≠ 0)
    (hl : (v.len : Int) ≤ MaxInt64) (body : List Nat)
    (hb : ∃ k : Nat, ∀ (d : List Nat) (c : Nat), writeSliceBody ext ⟨⟨d, [], c⟩, rc⟩ v =
      (⟨⟨d ++ body, [], c + k⟩, rc⟩, none)) :
    ∃ k : Nat, writeSlice ext ⟨⟨d, [], c⟩, rc⟩ v =
      (⟨⟨d ++ listForm v.len body, [], c + k⟩, rc⟩, none) := by
  obtain ⟨k, hk⟩ := hb
  refine ⟨3 + k + 1, ?_⟩
  rw [writeSlice_nonbytes ext _ v hv, if_neg h0]
  simp only
  rw [WriteHead_pos d c _ _ (by omega) hl]
  simp only [hk, Encoder.onWriter, WriteFoot, WriteByte_mk, Int.toNat_ofNat]
  simp only [listForm, List.append_assoc, Nat.add_assoc]
  rfl

theorem body_of_framed {α β : Type} (ext : Externals α) (rc : Nat) (v : SliceValue α)
    (f : Writer → β → Result) (xs : List β) (hf : ∀ x, Framed (fun w => f w x))
    (h : ∀ enc : Encoder, writeSliceBody ext enc v = enc.onWriter (forRange f enc.Writer xs)) :
    ∃ k : Nat, ∀ (d : List Nat) (c : Nat), writeSliceBody ext ⟨⟨d, [], c⟩, rc⟩ v =
      (⟨⟨d ++ xs.flatMap (fun x => emitted (fun w => f w x)), [], c + k⟩, rc⟩, none) := by
  obtain ⟨k, hk⟩ := forRange_framed f hf xs
  refine ⟨k, fun d c => ?_⟩
  rw [h]
  simp only [hk, Encoder.onWriter]

theorem writesList_of {α β : Type} (ext : Externals α) (d : List Nat) (c rc : Nat)
    (v : SliceValue α) (f : Writer → β → Result) (xs : List β)
    (hv : ∀ bs, v ≠ .bytes bs) (hlen : v.len = xs.length) (h0 : xs ≠ [])
    (hl : (xs.length : Int) ≤ MaxInt64) (hf : ∀ x, Framed (fun w => f w x))
    (h : ∀ enc : Encoder, writeSliceBody ext enc v = enc.onWriter (forRange f enc.Writer xs)) :
    WritesList ext ⟨⟨d, [], c⟩, rc⟩ v f xs := by
  obtain ⟨k, hk⟩ := writeSlice_list ext d c rc v hv
    (by rw [hlen]; exact fun h => h0 (List.length_eq_zero.mp h)) (by rw [hlen]; exact hl) _
    (body_of_framed ext rc v f xs hf h)
  unfold WritesList
  rw [hk, hlen]
  refine ⟨rfl, rfl, ?_⟩
  simp only [listForm, List.append_assoc]

/-! ## The reference decoder against the UTF-8 encoder -/

theorem decodeUtf8_encode_cons (cp : Nat) (rest : List Nat) (h : isScalar cp) :
    decodeUtf8 (utf8Encode cp ++ rest) = (decodeUtf8 rest).map (fun cps => cp :: cps) := by
  unfold isScalar at h
  unfold utf8Encode
  by_cases h1 : cp < 0x80
  · rw [if_pos h1, List.singleton_append, decodeUtf8_cons, if_pos (by omega)]
  · rw [if_neg h1]
    by_cases h2 : cp < 0x800
    · rw [if_pos h2]
      show decodeUtf8 ((0xC0 + cp / 64) :: (0x80 + cp % 64) :: rest) = _
      rw [decodeUtf8_cons, if_neg (by omega), if_pos (by omega)]
      simp only [isCont, if_pos (show 0x80 ≤ 0x80 + cp % 64 ∧ 0x80 + cp % 64 ≤ 0xBF by omega)]
      have e : (0xC0 + cp / 64 - 0xC0) * 64 + (0x80 + cp % 64 - 0x80) = cp := by omega
      rw [e]
    · rw [if_neg h2]
      by_cases h3 : cp < 0x10000
      · rw [if_pos h3]
        show decodeUtf8 ((0xE0 + cp / 4096) :: (0x80 + cp / 64 % 64) :: (0x80 + cp % 64) :: rest) = _
        rw [decodeUtf8_cons, if_neg (by omega), if_neg (by omega), if_pos (by omega)]
        simp only [isCont]
        rw [if_pos (by omega)]
        have e : (0xE0 + cp / 4096 - 0xE0) * 4096 + (0x80 + cp / 64 % 64 - 0x80) * 64
            + (0x80 + cp % 64 - 0x80) = cp := by omega
        rw [e]
      · rw [if_neg h3]
        show decodeUtf8 ((0xF0 + cp / 262144) :: (0x80 + cp / 4096 % 64)
          :: (0x80 + cp / 64 % 64) :: (0x80 + cp % 64) :: rest) = _
        rw [decodeUtf8_cons, if_neg (by omega), if_neg (by omega), if_neg (by omega),
          if_pos (by omega)]
        simp only [isCont]
        rw [if_pos (by omega)]
        have e : (0xF0 + cp / 262144 - 0xF0) * 262144 + (0x80 + cp / 4096 % 64 - 0x80) * 4096
            + (0x80 + cp / 64 % 64 - 0x80) * 64 + (0x80 + cp % 64 - 0x80) = cp := by omega
        rw [e]

theorem decodeUtf8_encode (cps : List Nat) (h : ∀ cp ∈ cps, isScalar cp) :
    decodeUtf8 (cps.flatMap utf8Encode) = some cps := by
  induction cps with
  | nil => rfl
  | cons cp t ih =>
    rw [List.flatMap_cons, decodeUtf8_encode_cons cp _ (h cp (by simp)),
      ih (fun q hq => h q (by simp [hq]))]
    rfl

theorem sound_step (u r : List Nat) (cp : Nat) (cps : List Nat)
    (h : (decodeUtf8 r).map (fun t => cp :: t) = some cps)
    (ih : ∀ t, decodeUtf8 r = some t → (∀ q ∈ t, isScalar q) ∧ t.flatMap utf8Encode = r)
    (hs : isScalar cp) (he : utf8Encode cp = u) :
    (∀ q ∈ cps, isScalar q) ∧ cps.flatMap utf8Encode = u ++ r := by
  obtain ⟨t, ht, hc⟩ := Option.map_eq_some'.mp h
  obtain ⟨h1, h2⟩ := ih t ht
  subst hc
  refine ⟨?_, by rw [List.flatMap_cons, he, h2]⟩
  intro q hq
  rcases List.mem_cons.mp hq with rfl | hq
  · exact hs
  · exact h1 q hq

theorem decodeUtf8_sound : ∀ (k : Nat) (s : List Nat), s.length ≤ k → ∀ cps : List Nat,
    decodeUtf8 s = some cps → (∀ q ∈ cps, isScalar q) ∧ cps.flatMap utf8Encode = s := by
  intro k
  induction k with
  | zero =>
    intro s hs cps h
    have : s = [] := List.length_eq_zero.mp (by omega)
    subst this
    rw [decodeUtf8_nil, Option.some.injEq] at h
    subst h
    exact ⟨by simp, rfl⟩
  | succ k ih =>
    intro s hs cps h
    match s, hs, h with
    | [], _, h =>
      rw [decodeUtf8_nil, Option.some.injEq] at h
      subst h
      exact ⟨by simp, rfl⟩
    | a :: rest, hs, h =>
      rw [decodeUtf8_cons] at h
      simp only [List.length_cons] at hs
      by_cases h1 : a ≤ 0x7F
      · rw [if_pos h1] at h
        exact sound_step [a] rest a cps h (ih rest (by omega)) (by unfold isScalar; omega)
          (by unfold utf8Encode; rw [if_pos (by omega)])
      · rw [if_neg h1] at h
        by_cases h2 : 0xC2 ≤ a ∧ a ≤ 0xDF
        · rw [if_pos h2] at h
          match rest, hs, h with
          | [], _, h => simp at h
          | b :: r2, hs, h =>
            simp only [List.length_cons] at hs
            by_cases hc : isCont b
            · simp only [if_pos hc] at h
              unfold isCont at hc
              exact sound_step [a, b] r2 _ cps h (ih r2 (by omega)) (by unfold isScalar; omega)
                (by
                  unfold utf8Encode
                  rw [if_neg (by omega), if_pos (by omega)]
                  have e1 : 0xC0 + ((a - 0xC0) * 64 + (b - 0x80)) / 64 = a := by omega
                  have e2 : 0x80 + ((a - 0xC0) * 64 + (b - 0x80)) % 64 = b := by omega
                  rw [e1, e2])
            · simp only [if_neg hc] at h
              simp at h
        · rw [if_neg h2] at h
          by_cases h3 : 0xE0 ≤ a ∧ a ≤ 0xEF
          · rw [if_pos h3] at h
            match rest, hs, h with
            | [], _, h => simp at h
            | [b], _, h => simp at h
            | b :: c :: r2, hs, h =>
              simp only [List.length_cons] at hs
              by_cases hc : isCont b ∧ isCont c ∧ (a = 0xE0 → 0xA0 ≤ b) ∧ (a = 0xED → b ≤ 0x9F)
              · simp only [if_pos hc] at h
                obtain ⟨hc1, hc2, hc3, hc4⟩ := hc
                unfold isCont at hc1 hc2
                exact sound_step [a, b, c] r2 _ cps h (ih r2 (by omega))
                  (by unfold isScalar; omega)
                  (by
                    unfold utf8Encode
                    rw [if_neg (by omega), if_neg (by omega), if_pos (by omega)]
                    have e1 : 0xE0 + ((a - 0xE0) * 4096 + (b - 0x80) * 64 + (c - 0x80)) / 4096
                        = a := by omega
                    have e2 : 0x80 + ((a - 0xE0) * 4096 + (b - 0x80) * 64 + (c - 0x80)) / 64 % 64
                        = b := by omega
                    have e3 : 0x80 + ((a - 0xE0) * 4096 + (b - 0x80) * 64 + (c - 0x80)) % 64
                        = c := by omega
                    rw [e1, e2, e3])
              · simp only [if_neg hc] at h
                simp at h
          · rw [if_neg h3] at h
            by_cases h4 : 0xF0 ≤ a ∧ a ≤ 0xF4
            · rw [if_pos h4] at h
              match rest, hs, h with
              | [], _, h => simp at h
              | [b], _, h => simp at h
              | [b, c], _, h => simp at h
              | b :: c :: d :: r2, hs, h =>
                simp only [List.length_cons] at hs
                by_cases hc : isCont b ∧ isCont c ∧ isCont d ∧ (a = 0xF0 → 0x90 ≤ b) ∧
                    (a = 0xF4 → b ≤ 0x8F)
                · simp only [if_pos hc] at h
                  obtain ⟨hc1, hc2, hc3, hc4, hc5⟩ := hc
                  unfold isCont at hc1 hc2 hc3
                  exact sound_step [a, b, c, d] r2 _ cps h (ih r2 (by omega))
                    (by unfold isScalar; omega)
                    (by
                      unfold utf8Encode
                      rw [if_neg (by omega), if_neg (by omega), if_neg (by omega)]
                      have e1 : 0xF0 + ((a - 0xF0) * 262144 + (b - 0x80) * 4096 + (c - 0x80) * 64
                          + (d - 0x80)) / 262144 = a := by omega
                      have e2 : 0x80 + ((a - 0xF0) * 262144 + (b - 0x80) * 4096 + (c - 0x80) * 64
                          + (d - 0x80)) / 4096 % 64 = b := by omega
                      have e3 : 0x80 + ((a - 0xF0) * 262144 + (b - 0x80) * 4096 + (c - 0x80) * 64
                          + (d - 0x80)) / 64 % 64 = c := by omega
                      have e4 : 0x80 + ((a - 0xF0) * 262144 + (b - 0x80) * 4096 + (c - 0x80) * 64
                          + (d - 0x80)) % 64 = d := by omega
                      rw [e1, e2, e3, e4])
                · simp only [if_neg hc] at h
                  simp at h
            · rw [if_neg h4] at h
              simp at h

/-- The reference decoder accepts exactly the UTF-8 encodings of sequences of scalar
values, and returns the sequence. -/
theorem decodeUtf8_iff (s cps : List Nat) :
    decodeUtf8 s = some cps ↔ (∀ q ∈ cps, isScalar q) ∧ cps.flatMap utf8Encode = s := by
  constructor
  · exact decodeUtf8_sound s.length s (le_refl _) cps
  · rintro ⟨h1, rfl⟩
    exact decodeUtf8_encode cps h1

theorem units_bytes_lt (us : List (List Nat)) (h : ∀ u ∈ us, isUnit u) :
    ∀ b ∈ us.flatten, b < 0xF8 := by
  intro b hb
  obtain ⟨u, hu, hbu⟩ := List.mem_flatten.mp hb
  have hunit := h u hu
  match u, hunit, hbu with
  | [a], hunit, hbu =>
    simp only [isUnit] at hunit
    simp only [List.mem_singleton] at hbu
    omega
  | [a, b2], hunit, hbu =>
    simp only [isUnit, isCont] at hunit
    simp only [List.mem_cons, List.mem_singleton, List.not_mem_nil, or_false] at hbu
    omega
  | [a, b2, c], hunit, hbu =>
    simp only [isUnit, isCont] at hunit
    simp only [List.mem_cons, List.mem_singleton, List.not_mem_nil, or_false] at hbu
    omega
  | [a, b2, c, d], hunit, hbu =>
    simp only [isUnit, isCont] at hunit
    simp only [List.mem_cons, List.mem_singleton, List.not_mem_nil, or_false] at hbu
    omega

/-! ## The claims -/

/-- Claim C1: on a sink that never fails, `WriteInt64` of an `int64` value `v` outside
0..9 writes exactly one tag byte, the decimal text of `v` and `;`, where the tag is `i`
when `-2147483648 <= v <= 2147483647` and `l` otherwise; `WriteUint64` of a `uint64`
value `u > 9` does the same with tag `i` when `u <= 2147483647` and `l` otherwise. So 10
gives `i10;`, -1 gives `i-1;`, 2147483648 gives `l2147483648;` and -2147483649 gives
`l-2147483649;`. -/
theorem WriteInt64_framing (w : Writer) (hw : w.script = []) (v : Int) (h1 : MinInt64 ≤ v)
    (h2 : v ≤ MaxInt64) (h3 : ¬ (0 ≤ v ∧ v ≤ 9)) (u : Nat) (hu1 : u ≤ MaxUint64)
    (hu2 : 9 < u) :
    WriteInt64 w v =
      (⟨w.data ++ [if -2147483648 ≤ v ∧ v ≤ 2147483647 then 'i'.toNat else 'l'.toNat]
          ++ signedDecimal v ++ [';'.toNat], [], w.calls + 3⟩, none) ∧
    WriteUint64 w u =
      (⟨w.data ++ [if u ≤ 2147483647 then 'i'.toNat else 'l'.toNat]
          ++ decimal u ++ [';'.toNat], [], w.calls + 3⟩, none) ∧
    (WriteInt64 w 10).1.data = w.data ++ stringBytes "i10;" ∧
    (WriteInt64 w (-1)).1.data = w.data ++ stringBytes "i-1;" ∧
    (WriteInt64 w 2147483648).1.data = w.data ++ stringBytes "l2147483648;" ∧
    (WriteInt64 w (-2147483649)).1.data = w.data ++ stringBytes "l-2147483649;" := by
  obtain ⟨d, s, c⟩ := w
  simp only at hw
  subst hw
  refine ⟨?_, ?_, ?_, ?_, ?_, ?_⟩
  · rw [WriteInt64_mk d c v h1 h2 h3]
    rfl
  · rw [WriteUint64_mk d c u hu1 hu2]
    rfl
  · rw [WriteInt64_mk d c 10 (by decide) (by decide) (by decide)]
    simp [signedDecimal, decimal, digitBytes, stringBytes, MinInt32, MaxInt32, TagInteger,
      TagSemicolon]
  · rw [WriteInt64_mk d c (-1) (by decide) (by decide) (by decide)]
    simp [signedDecimal, decimal, digitBytes, stringBytes, MinInt32, MaxInt32, TagInteger,
      TagSemicolon]
  · rw [WriteInt64_mk d c 2147483648 (by decide) (by decide) (by decide)]
    simp [signedDecimal, decimal, digitBytes, stringBytes, MinInt32, MaxInt32, TagLong,
      TagSemicolon]
  · rw [WriteInt64_mk d c (-2147483649) (by decide) (by decide) (by decide)]
    simp [signedDecimal, decimal, digitBytes, stringBytes, MinInt32, MaxInt32, TagLong,
      TagSemicolon]

/-- Witness of C1 at `v = -2147483649` and `u = 2147483648` on an empty sink. -/
theorem WriteInt64_framing_witness :
    (Writer.reliable []).script = [] ∧ MinInt64 ≤ (-2147483649 : Int) ∧
    (-2147483649 : Int) ≤ MaxInt64 ∧ ¬ ((0 : Int) ≤ -2147483649 ∧ (-2147483649 : Int) ≤ 9) ∧
    (2147483648 : Nat) ≤ MaxUint64 ∧ 9 < (2147483648 : Nat) ∧
    WriteInt64 (Writer.reliable []) (-2147483649) =
      (⟨(Writer.reliable []).data
          ++ [if -2147483648 ≤ (-2147483649 : Int) ∧ (-2147483649 : Int) ≤ 2147483647
              then 'i'.toNat else 'l'.toNat]
          ++ signedDecimal (-2147483649) ++ [';'.toNat], [],
        (Writer.reliable []).calls + 3⟩, none) ∧
    WriteUint64 (Writer.reliable []) 2147483648 =
      (⟨(Writer.reliable []).data
          ++ [if (2147483648 : Nat) ≤ 2147483647 then 'i'.toNat else 'l'.toNat]
          ++ decimal 2147483648 ++ [';'.toNat], [], (Writer.reliable []).calls + 3⟩, none) ∧
    (WriteInt64 (Writer.reliable []) 10).1.data
      = (Writer.reliable []).data ++ stringBytes "i10;" ∧
    (WriteInt64 (Writer.reliable []) (-1)).1.data
      = (Writer.reliable []).data ++ stringBytes "i-1;" ∧
    (WriteInt64 (Writer.reliable []) 2147483648).1.data
      = (Writer.reliable []).data ++ stringBytes "l2147483648;" ∧
    (WriteInt64 (Writer.reliable []) (-2147483649)).1.data
      = (Writer.reliable []).data ++ stringBytes "l-2147483649;" :=
  ⟨rfl, by decide, by decide, by decide, by decide, by decide,
    WriteInt64_framing (Writer.reliable []) rfl (-2147483649) (by decide) (by decide)
      (by decide) 2147483648 (by decide) (by decide)⟩

/-- Claim C2: for every value `v` in 0..9 each of the ten integer writers writes, on a
sink that never fails, exactly the single byte `'0' + v`, with no tag and no semicolon,
in a single call to the sink. -/
theorem single_digit (w : Writer) (hw : w.script = []) (v : Nat) (hv : v ≤ 9) :
    WriteInt8 w (v : Int) = (⟨w.data ++ ['0'.toNat + v], [], w.calls + 1⟩, none) ∧
    WriteInt16 w (v : Int) = (⟨w.data ++ ['0'.toNat + v], [], w.calls + 1⟩, none) ∧
    WriteInt32 w (v : Int) = (⟨w.data ++ ['0'.toNat + v], [], w.calls + 1⟩, none) ∧
    WriteInt64 w (v : Int) = (⟨w.data ++ ['0'.toNat + v], [], w.calls + 1⟩, none) ∧
    WriteInt w (v : Int) = (⟨w.data ++ ['0'.toNat + v], [], w.calls + 1⟩, none) ∧
    WriteUint8 w v = (⟨w.data ++ ['0'.toNat + v], [], w.calls + 1⟩, none) ∧
    WriteUint16 w v = (⟨w.data ++ ['0'.toNat + v], [], w.calls + 1⟩, none) ∧
    WriteUint32 w v = (⟨w.data ++ ['0'.toNat + v], [], w.calls + 1⟩, none) ∧
    WriteUint64 w v = (⟨w.data ++ ['0'.toNat + v], [], w.calls + 1⟩, none) ∧
    WriteUint w v = (⟨w.data ++ ['0'.toNat + v], [], w.calls + 1⟩, none) := by
  obtain ⟨d, s, c⟩ := w
  simp only at hw
  subst hw
  have hi : (v : Int) ≥ 0 ∧ (v : Int) ≤ 9 := by omega
  have hn : v ≥ 0 ∧ v ≤ 9 := by omega
  have e : '0'.toNat = 48 := rfl
  have a32 : WriteInt32 ⟨d, [], c⟩ (v : Int) = (⟨d ++ [48 + v], [], c + 1⟩, none) := by
    rw [WriteInt32, if_pos hi, Int.toNat_ofNat, digit_mk d c v hv]
  have a64 : WriteInt64 ⟨d, [], c⟩ (v : Int) = (⟨d ++ [48 + v], [], c + 1⟩, none) := by
    rw [WriteInt64, if_pos hi, Int.toNat_ofNat, digit_mk d c v hv]
  have u16 : WriteUint16 ⟨d, [], c⟩ v = (⟨d ++ [48 + v], [], c + 1⟩, none) := by
    rw [WriteUint16, if_pos hn, digit_mk d c v hv]
  have u64 : WriteUint64 ⟨d, [], c⟩ v = (⟨d ++ [48 + v], [], c + 1⟩, none) := by
    rw [WriteUint64, if_pos hn, digit_mk d c v hv]
  rw [e]
  exact ⟨a32, a32, a32, a64, a64, u16, u16, u64, u64, u64⟩

/-- Witness of C2 at `v = 7` on an empty sink. -/
theorem single_digit_witness :
    (Writer.reliable []).script = [] ∧ (7 : Nat) ≤ 9 ∧
    WriteInt8 (Writer.reliable []) ((7 : Nat) : Int)
      = (⟨(Writer.reliable []).data ++ ['0'.toNat + 7], [], (Writer.reliable []).calls + 1⟩,
        none) :=
  ⟨rfl, by decide, (single_digit (Writer.reliable []) rfl 7 (by decide)).1⟩

/-- Claim C3: for every `uint64` value `n`, `writeUint64` writes, on a sink that never
fails, exactly the canonical ASCII decimal text of `n`: digits only, no leading zero,
`0` for zero, at most 20 bytes, and read back as a decimal number it is `n`; above 9 the
text is the tail `buf[off:]` of the 20-byte buffer that `toBytes` fills, with `off` in
bounds. -/
theorem writeUint64_decimal (w : Writer) (hw : w.script = []) (n : Nat) (hn : n ≤ MaxUint64) :
    writeUint64 w n = (⟨w.data ++ decimal n, [], w.calls + 1⟩, none) ∧
    (∀ b ∈ decimal n, '0'.toNat ≤ b ∧ b ≤ '9'.toNat) ∧
    (n = 0 → decimal n = ['0'.toNat]) ∧
    (n ≠ 0 → (decimal n).head? ≠ some '0'.toNat) ∧
    decimal n ≠ [] ∧ (decimal n).length ≤ 20 ∧
    readDecimal (decimal n) = n ∧
    (9 < n → ∃ (off : Nat) (buf : List Nat),
      toBytes n (List.replicate 20 0) = ((off : Int), buf) ∧ buf.length = 20 ∧
      off + (decimal n).length = 20 ∧ buf.drop off = decimal n) := by
  obtain ⟨d, s, c⟩ := w
  simp only at hw
  subst hw
  obtain ⟨p1, p2, p3, p4, p5⟩ := decimal_props n
  refine ⟨writeUint64_mk d c n hn, p1, p2, p3, p4, decimal_length n hn, p5, ?_⟩
  intro h9
  have hl : (Nat.digits 10 n).length ≤ (List.replicate 20 0).length := by
    rw [List.length_replicate]
    apply digits_length_le
    unfold MaxUint64 at hn
    omega
  obtain ⟨off, buf2, e1, e2, e3, e4⟩ := toBytes_spec n (List.replicate 20 0) hl
  rw [List.length_replicate] at e2 e3
  refine ⟨off, buf2, e1, e3, ?_, ?_⟩
  · simp only [decimal, if_neg (show n ≠ 0 by omega), digitBytes, List.length_map,
      List.length_reverse]
    exact e2
  · rw [e4, decimal, if_neg (by omega)]

/-- Witness of C3 at the largest `uint64` on an empty sink. -/
theorem writeUint64_decimal_witness :
    (Writer.reliable []).script = [] ∧ (18446744073709551615 : Nat) ≤ MaxUint64 ∧
    writeUint64 (Writer.reliable []) 18446744073709551615
      = (⟨(Writer.reliable []).data ++ decimal 18446744073709551615, [],
          (Writer.reliable []).calls + 1⟩, none) ∧
    readDecimal (decimal 18446744073709551615) = 18446744073709551615 :=
  ⟨rfl, by decide,
    (writeUint64_decimal (Writer.reliable []) rfl 18446744073709551615 (by decide)).1,
    (writeUint64_decimal (Writer.reliable []) rfl 18446744073709551615
      (by decide)).2.2.2.2.2.2.1⟩

/-- Claim C4: for every `int64` value `i`, `writeInt64` writes, on a sink that never
fails, exactly the canonical signed decimal text of `i`: for `i < 0` a single `-` and the
digits of `|i|` with no leading zero, also for `i = -9223372036854775808`, which is
written from the literal `minInt64Buf` and that literal is the text the general rule
gives; for `i >= 0` the same bytes as `writeUint64`. -/
theorem writeInt64_signedDecimal (w : Writer) (hw : w.script = []) (i : Int)
    (h1 : MinInt64 ≤ i) (h2 : i ≤ MaxInt64) :
    writeInt64 w i = (⟨w.data ++ signedDecimal i, [], w.calls + 1⟩, none) ∧
    (i < 0 → signedDecimal i = '-'.toNat :: decimal i.natAbs ∧ i.natAbs ≠ 0 ∧
      (decimal i.natAbs).head? ≠ some '0'.toNat ∧
      ∀ b ∈ decimal i.natAbs, '0'.toNat ≤ b ∧ b ≤ '9'.toNat) ∧
    (i = MinInt64 → writeInt64 w i = w.Write minInt64Buf ∧ minInt64Buf = signedDecimal i) ∧
    (0 ≤ i → writeInt64 w i = writeUint64 w i.toNat ∧ signedDecimal i = decimal i.toNat) := by
  obtain ⟨d, s, c⟩ := w
  simp only at hw
  subst hw
  refine ⟨writeInt64_mk d c i h1 h2, ?_, ?_, ?_⟩
  · intro hneg
    have hn : i.natAbs ≠ 0 := by omega
    obtain ⟨p1, _, p3, _, _⟩ := decimal_props i.natAbs
    exact ⟨by rw [signedDecimal, if_pos hneg]; rfl, hn, p3 hn, p1⟩
  · intro hm
    subst hm
    refine ⟨by rw [writeInt64, if_neg (by decide), if_pos rfl], ?_⟩
    have e6 : (MinInt64).natAbs = 9223372036854775808 := by decide
    rw [minInt64Buf_eq, signedDecimal, if_pos (by decide), e6]
  · intro h0
    have e : uint64 i = i.toNat := by
      unfold uint64
      unfold MaxInt64 at h2
      omega
    exact ⟨by rw [writeInt64, if_pos h0, e], by rw [signedDecimal, if_neg (by omega)]⟩

/-- Witness of C4 at the smallest `int64` on an empty sink. -/
theorem writeInt64_signedDecimal_witness :
    (Writer.reliable []).script = [] ∧ MinInt64 ≤ MinInt64 ∧ MinInt64 ≤ MaxInt64 ∧
    writeInt64 (Writer.reliable []) MinInt64
      = (⟨(Writer.reliable []).data ++ signedDecimal MinInt64, [],
          (Writer.reliable []).calls + 1⟩, none) :=
  ⟨rfl, by decide, by decide,
    (writeInt64_signedDecimal (Writer.reliable []) rfl MinInt64 (by decide) (by decide)).1⟩

/-- Counterexample to C5: the `uint32` value 2147483648 is outside 0..9, yet
`WriteUint32` writes `l2147483648;`, tag `l` and not `i`. -/
theorem WriteUint32_long_tag :
    (2147483648 : Nat) ≤ 4294967295 ∧ 9 < (2147483648 : Nat) ∧
    (WriteUint32 (Writer.reliable []) 2147483648).1.data = stringBytes "l2147483648;" ∧
    (WriteUint32 (Writer.reliable []) 2147483648).1.data ≠
      ['i'.toNat] ++ decimal 2147483648 ++ [';'.toNat] := by
  have e : (WriteUint32 (Writer.reliable []) 2147483648).1.data = stringBytes "l2147483648;" := by
    decide!
  refine ⟨by decide, by decide, e, ?_⟩
  rw [e]
  decide

/-- Claim C5, amended: on a sink that never fails, for every value outside 0..9 the
writers `WriteInt8`, `WriteInt16`, `WriteInt32`, `WriteUint8` and `WriteUint16` emit the
tag `i`, the decimal text and `;`; `WriteUint32` emits the tag `i` when the value is at
most 2147483647 and the tag `l` otherwise, followed by the decimal text and `;`. -/
theorem narrow_writers_tag (w : Writer) (hw : w.script = []) (v : Int)
    (hv1 : -2147483648 ≤ v) (hv2 : v ≤ 2147483647) (hv3 : ¬ (0 ≤ v ∧ v ≤ 9))
    (u : Nat) (hu1 : u ≤ 65535) (hu2 : 9 < u) (t : Nat) (ht1 : t ≤ 4294967295) (ht2 : 9 < t) :
    WriteInt8 w v
      = (⟨w.data ++ ['i'.toNat] ++ signedDecimal v ++ [';'.toNat], [], w.calls + 3⟩, none) ∧
    WriteInt16 w v
      = (⟨w.data ++ ['i'.toNat] ++ signedDecimal v ++ [';'.toNat], [], w.calls + 3⟩, none) ∧
    WriteInt32 w v
      = (⟨w.data ++ ['i'.toNat] ++ signedDecimal v ++ [';'.toNat], [], w.calls + 3⟩, none) ∧
    WriteUint8 w u
      = (⟨w.data ++ ['i'.toNat] ++ decimal u ++ [';'.toNat], [], w.calls + 3⟩, none) ∧
    WriteUint16 w u
      = (⟨w.data ++ ['i'.toNat] ++ decimal u ++ [';'.toNat], [], w.calls + 3⟩, none) ∧
    WriteUint32 w t
      = (⟨w.data ++ [if t ≤ 2147483647 then 'i'.toNat else 'l'.toNat] ++ decimal t
          ++ [';'.toNat], [], w.calls + 3⟩, none) := by
  obtain ⟨d, s, c⟩ := w
  simp only at hw
  subst hw
  have a := WriteInt32_mk d c v (by unfold MinInt64; omega) (by unfold MaxInt64; omega) hv3
  have b := WriteUint16_mk d c u (by unfold MaxUint64; omega) hu2
  exact ⟨a, a, a, b, b, WriteUint64_mk d c t (by unfold MaxUint64; omega) ht2⟩

/-- Witness of the amended C5 at `v = -2147483648`, `u = 65535` and `t = 4294967295`. -/
theorem narrow_writers_tag_witness :
    (Writer.reliable []).script = [] ∧ (-2147483648 : Int) ≤ -2147483648 ∧
    (-2147483648 : Int) ≤ 2147483647 ∧ ¬ ((0 : Int) ≤ -2147483648 ∧ (-2147483648 : Int) ≤ 9) ∧
    (65535 : Nat) ≤ 65535 ∧ 9 < (65535 : Nat) ∧ (4294967295 : Nat) ≤ 4294967295 ∧
    9 < (4294967295 : Nat) ∧
    WriteInt32 (Writer.reliable []) (-2147483648)
      = (⟨(Writer.reliable []).data ++ ['i'.toNat] ++ signedDecimal (-2147483648)
          ++ [';'.toNat], [], (Writer.reliable []).calls + 3⟩, none) :=
  ⟨rfl, by decide, by decide, by decide, by decide, by decide, by decide, by decide,
    (narrow_writers_tag (Writer.reliable []) rfl (-2147483648) (by decide) (by decide)
      (by decide) 65535 (by decide) (by decide) 4294967295 (by decide) (by decide)).2.2.1⟩

/-- Claim C6: for every well-formed UTF-8 string `s`, with code points `cps`,
`utf16Length s` is the number of UTF-16 code units of `s`: the number of code points
below U+10000 plus twice the number of code points at or above U+10000, that is one for
each 1-, 2- or 3-byte sequence and two for each 4-byte sequence; it is not -1. The same
in terms of the encoder: for every sequence `qs` of scalar values the UTF-8 encoding of
`qs` has as `utf16Length` the number of UTF-16 code units of `qs`. -/
theorem utf16Length_wellFormed (s cps : List Nat) (h : decodeUtf8 s = some cps)
    (qs : List Nat) (hq : ∀ q ∈ qs, isScalar q) :
    utf16Length s = (((cps.filter (fun cp => cp < 0x10000)).length
      + 2 * (cps.filter (fun cp => 0x10000 ≤ cp)).length : Nat) : Int) ∧
    utf16Length s = ((cps.map utf16Units).sum : Nat) ∧
    utf16Length s ≠ -1 ∧
    utf16Length (qs.flatMap utf8Encode) = ((qs.map utf16Units).sum : Nat) ∧
    utf16Length (qs.flatMap utf8Encode) ≠ -1 := by
  have key : ∀ (t ps : List Nat), decodeUtf8 t = some ps →
      utf16Length t = (utf16Count ps : Int) := by
    intro t ps ht
    obtain ⟨hb, hu⟩ := decodeUtf8_scan t.length t (le_refl _) ps ht
    have := utf16Length_scan t hb
    rw [hu] at this
    exact this
  have nonneg : ∀ m : Nat, (m : Int) ≠ -1 := by
    intro m h2
    have h3 := Int.ofNat_nonneg m
    rw [h2] at h3
    exact absurd h3 (by decide)
  have k1 := key s cps h
  have k2 := key (qs.flatMap utf8Encode) qs (decodeUtf8_encode qs hq)
  refine ⟨by rw [k1, utf16Count_eq], by rw [k1]; rfl, by rw [k1]; exact nonneg _,
    by rw [k2]; rfl, by rw [k2]; exact nonneg _⟩

/-- Witness of C6 at the encoding of U+0061, U+00E9, U+20AC and U+1F600. -/
theorem utf16Length_wellFormed_witness :
    decodeUtf8 [0x61, 0xC3, 0xA9, 0xE2, 0x82, 0xAC, 0xF0, 0x9F, 0x98, 0x80]
      = some [0x61, 0xE9, 0x20AC, 0x1F600] ∧
    (∀ q ∈ [0x61, 0xE9, 0x20AC, 0x1F600], isScalar q) ∧
    utf16Length [0x61, 0xC3, 0xA9, 0xE2, 0x82, 0xAC, 0xF0, 0x9F, 0x98, 0x80]
      = ((([0x61, 0xE9, 0x20AC, 0x1F600].map utf16Units).sum : Nat) : Int) :=
  ⟨by decide, by decide,
    (utf16Length_wellFormed [0x61, 0xC3, 0xA9, 0xE2, 0x82, 0xAC, 0xF0, 0x9F, 0x98, 0x80]
      [0x61, 0xE9, 0x20AC, 0x1F600] (by decide) [0x61, 0xE9, 0x20AC, 0x1F600]
      (by decide)).2.1⟩

/-- Counterexample to C7: the overlong form `C0 80`, the encoded surrogate `ED A0 80` and
`F5 80 80 80`, above U+10FFFF, are not well-formed UTF-8, yet `utf16Length` returns 1, 1
and 2 for them and not -1. -/
theorem utf16Length_accepts_illFormed :
    (decodeUtf8 [0xC0, 0x80] = none ∧ utf16Length [0xC0, 0x80] = 1) ∧
    (decodeUtf8 [0xED, 0xA0, 0x80] = none ∧ utf16Length [0xED, 0xA0, 0x80] = 1) ∧
    (decodeUtf8 [0xF5, 0x80, 0x80, 0x80] = none ∧
      utf16Length [0xF5, 0x80, 0x80, 0x80] = 2) := by
  decide

/-- Claim C7, amended: for every byte string `s` that is not a concatenation of units of
the shapes `[00..7F]`, `[C0..DF, cont]`, `[E0..EF, cont, cont]`, `[F0..F7, cont, cont,
cont]` with `cont` in `80..BF`, `utf16Length s` returns -1; a string with a byte in
`F8..FF` is such a string. -/
theorem utf16Length_not_units (s : List Nat) (hb : ∀ b ∈ s, b < 256)
    (h : ¬ ∃ us : List (List Nat), (∀ u ∈ us, isUnit u) ∧ us.flatten = s) :
    utf16Length s = -1 ∧
    ∀ t : List Nat, (∀ b ∈ t, b < 256) → (∃ b ∈ t, 0xF8 ≤ b) → utf16Length t = -1 := by
  have key : ∀ t : List Nat, (∀ b ∈ t, b < 256) →
      (¬ ∃ us : List (List Nat), (∀ u ∈ us, isUnit u) ∧ us.flatten = t) →
      utf16Length t = -1 := by
    intro t ht hn
    rw [utf16Length_scan t ht]
    cases hu : unitScan t with
    | none => rfl
    | some u =>
      exfalso
      exact hn (unitScan_units t.length t (le_refl _) (by rw [hu]; simp))
  refine ⟨key s hb h, fun t ht hf => key t ht ?_⟩
  rintro ⟨us, h1, rfl⟩
  obtain ⟨b, hbm, hb8⟩ := hf
  have := units_bytes_lt us h1 b hbm
  omega

/-- Witness of the amended C7 at the truncated sequence `E2 82`. -/
theorem utf16Length_not_units_witness :
    (∀ b ∈ [0xE2, 0x82], b < 256) ∧
    (¬ ∃ us : List (List Nat), (∀ u ∈ us, isUnit u) ∧ us.flatten = [0xE2, 0x82]) ∧
    utf16Length [0xE2, 0x82] = -1 :=
  have hb : ∀ b ∈ [0xE2, 0x82], b < 256 := by decide
  have hn : ¬ ∃ us : List (List Nat), (∀ u ∈ us, isUnit u) ∧ us.flatten = [0xE2, 0x82] :=
    fun ⟨us, h1, h2⟩ => units_unitScan us h1 (by rw [h2]; decide)
  ⟨hb, hn, (utf16Length_not_units [0xE2, 0x82] hb hn).1⟩

/-- Claim C8: on a sink that never fails `writeString(w, s, n)` writes, when `n < 0`,
exactly what `writeBytes` writes for the octets of `s` (tag `b`, the octet count unless
`s` is empty, quote, octets, quote); when `n > 0`, exactly `s`, the decimal text of `n`,
quote, the bytes of `s`, quote; when `n = 0`, exactly `s`, quote, the bytes of `s`,
quote, with the length left out. So `hi` with 2 gives `s2"hi"` and the 4-byte U+1F600
with 2 gives `s2"<f0 9f 98 80>"`. -/
theorem writeString_framing (w : Writer) (hw : w.script = []) (s : List Nat) (n : Int)
    (hn : n ≤ MaxInt64) (hs : (s.length : Int) ≤ MaxInt64) :
    (n < 0 → writeString w s n = writeBytes w s ∧
      (writeString w s n).1.data = w.data ++ ['b'.toNat]
        ++ (if s = [] then [] else decimal s.length) ++ [TagQuote] ++ s ++ [TagQuote]) ∧
    (n > 0 → writeString w s n =
      (⟨w.data ++ ['s'.toNat] ++ decimal n.toNat ++ [TagQuote] ++ s ++ [TagQuote], [],
        w.calls + 5⟩, none)) ∧
    (n = 0 → writeString w s n =
      (⟨w.data ++ ['s'.toNat] ++ [TagQuote] ++ s ++ [TagQuote], [], w.calls + 4⟩, none)) ∧
    (writeString w (stringBytes "hi") 2).1.data
      = w.data ++ (stringBytes "s2" ++ [TagQuote] ++ stringBytes "hi" ++ [TagQuote]) ∧
    (writeString w [0xF0, 0x9F, 0x98, 0x80] 2).1.data
      = w.data ++ (stringBytes "s2" ++ [TagQuote] ++ [0xF0, 0x9F, 0x98, 0x80] ++ [TagQuote]) := by
  obtain ⟨d, sc, c⟩ := w
  simp only at hw
  subst hw
  have two : decimal 2 = [50] := by norm_num [decimal, digitBytes]
  refine ⟨?_, ?_, ?_, ?_, ?_⟩
  · intro h
    refine ⟨by rw [writeString, if_pos h], ?_⟩
    rw [writeString, if_pos h, writeBytes_mk d c s hs]
    rfl
  · intro h
    rw [writeString, if_neg (by omega)]
    simp only [WriteByte_mk]
    rw [writeBinary_pos _ _ _ _ h hn]
    rfl
  · intro h
    rw [writeString, if_neg (by omega)]
    simp only [WriteByte_mk]
    rw [writeBinary_nonpos _ _ _ _ (by omega)]
    rfl
  · rw [writeString, if_neg (by decide)]
    simp only [WriteByte_mk]
    rw [writeBinary_pos _ _ _ _ (by decide) (by decide)]
    simp only [show (2 : Int).toNat = 2 from rfl, two, List.append_assoc]
    rfl
  · rw [writeString, if_neg (by decide)]
    simp only [WriteByte_mk]
    rw [writeBinary_pos _ _ _ _ (by decide) (by decide)]
    simp only [show (2 : Int).toNat = 2 from rfl, two, List.append_assoc]
    rfl

/-- Witness of C8 at the string `hi` with length 2 on an empty sink. -/
theorem writeString_framing_witness :
    (Writer.reliable []).script = [] ∧ (2 : Int) ≤ MaxInt64 ∧
    (((stringBytes "hi").length : Nat) : Int) ≤ MaxInt64 ∧
    (writeString (Writer.reliable []) (stringBytes "hi") 2).1.data
      = (Writer.reliable []).data
        ++ (stringBytes "s2" ++ [TagQuote] ++ stringBytes "hi" ++ [TagQuote]) :=
  ⟨rfl, by decide, by decide,
    (writeString_framing (Writer.reliable []) rfl (stringBytes "hi") 2 (by decide)
      (by decide)).2.2.2.1⟩

/-- Claim C9: for every byte slice `bs`, `writeSlice` and `WriteSlice` write, on a sink
that never fails, no list form but exactly `b`, the decimal number of octets of `bs`,
quote, `bs`, quote, and for the empty byte slice exactly `b""` with the count left out,
which is not the empty-list form of `emptySlice`. -/
theorem writeSlice_bytes {α : Type} (ext : Externals α) (enc : Encoder)
    (hw : enc.Writer.script = []) (bs : List Nat) (hl : (bs.length : Int) ≤ MaxInt64) :
    (writeSlice ext enc (.bytes bs)).2 = none ∧
    (writeSlice ext enc (.bytes bs)).1.Writer.data = enc.Writer.data ++ ['b'.toNat]
        ++ (if bs = [] then [] else decimal bs.length) ++ [TagQuote] ++ bs ++ [TagQuote] ∧
    (WriteSlice ext enc (.bytes bs)).2 = none ∧
    (WriteSlice ext enc (.bytes bs)).1.Writer.data = enc.Writer.data ++ ['b'.toNat]
        ++ (if bs = [] then [] else decimal bs.length) ++ [TagQuote] ++ bs ++ [TagQuote] ∧
    (bs = [] → (writeSlice ext enc (.bytes bs)).1.Writer.data
        = enc.Writer.data ++ ['b'.toNat, TagQuote, TagQuote] ∧
      (writeSlice ext enc (.bytes bs)).1.Writer.data ≠ enc.Writer.data ++ emptySlice) := by
  obtain ⟨⟨d, sc, c⟩, rc⟩ := enc
  simp only at hw
  subst hw
  have e1 : writeSlice ext ⟨⟨d, [], c⟩, rc⟩ (.bytes bs) =
      (⟨⟨d ++ [TagBytes] ++ (if bs = [] then [] else decimal bs.length) ++ [TagQuote]
        ++ bs ++ [TagQuote], [], c + (if bs = [] then 4 else 5)⟩, rc⟩, none) := by
    simp only [writeSlice, Encoder.onWriter, writeBytes_mk d c bs hl]
  have e2 : WriteSlice ext ⟨⟨d, [], c⟩, rc⟩ (.bytes bs) =
      (⟨⟨d ++ [TagBytes] ++ (if bs = [] then [] else decimal bs.length) ++ [TagQuote]
        ++ bs ++ [TagQuote], [], c + (if bs = [] then 4 else 5)⟩, rc + 1⟩, none) := by
    simp only [WriteSlice, writeSlice, Encoder.onWriter, Encoder.AddReferenceCount,
      writeBytes_mk d c bs hl]
  rw [e1, e2]
  refine ⟨rfl, rfl, rfl, rfl, ?_⟩
  intro hb
  subst hb
  refine ⟨by simp; rfl, ?_⟩
  simp only [if_pos, List.append_assoc]
  intro h
  have := List.append_cancel_left h
  revert this
  decide

/-- Witness of C9 at the byte slice `01 02 03` on an empty sink. -/
theorem writeSlice_bytes_witness :
    (Encoder.mk (Writer.reliable []) 0).Writer.script = [] ∧
    ((([1, 2, 3] : List Nat).length : Nat) : Int) ≤ MaxInt64 ∧
    (writeSlice (Externals.mk (fun _ _ => []) (fun e _ => (e, none)) (fun e _ => (e, none))
        (fun (b : Nat) => b)) (Encoder.mk (Writer.reliable []) 0) (.bytes [1, 2, 3])).2
      = none :=
  ⟨rfl, by decide,
    (writeSlice_bytes (Externals.mk (fun _ _ => []) (fun e _ => (e, none))
      (fun e _ => (e, none)) (fun (b : Nat) => b)) (Encoder.mk (Writer.reliable []) 0) rfl
      [1, 2, 3] (by decide)).1⟩

/-- Claim C10: for every non-empty slice `xs` of element type int8, int16, int32, int64,
int, uint16, uint32, uint64, uint or bool, `writeSlice` writes, on a sink that never
fails, exactly `a`, the decimal text of `len(xs)`, the open brace, the bytes the element
writer produces for each `xs[i]`, concatenated in index order, and the close brace, and
it leaves the reference count as it is. -/
theorem writeSlice_fastPath {α : Type} (ext : Externals α) (enc : Encoder)
    (hw : enc.Writer.script = [])
    (xs : List Int) (hx0 : xs ≠ []) (hxl : (xs.length : Int) ≤ MaxInt64)
    (ys : List Nat) (hy0 : ys ≠ []) (hyl : (ys.length : Int) ≤ MaxInt64)
    (zs : List Bool) (hz0 : zs ≠ []) (hzl : (zs.length : Int) ≤ MaxInt64) :
    WritesList ext enc (.int8s xs) WriteInt8 xs ∧
    WritesList ext enc (.int16s xs) WriteInt16 xs ∧
    WritesList ext enc (.int32s xs) WriteInt32 xs ∧
    WritesList ext enc (.int64s xs) WriteInt64 xs ∧
    WritesList ext enc (.ints xs) WriteInt xs ∧
    WritesList ext enc (.uint16s ys) WriteUint16 ys ∧
    WritesList ext enc (.uint32s ys) WriteUint32 ys ∧
    WritesList ext enc (.uint64s ys) WriteUint64 ys ∧
    WritesList ext enc (.uints ys) WriteUint ys ∧
    WritesList ext enc (.bools zs) WriteBool zs := by
  obtain ⟨⟨d, sc, c⟩, rc⟩ := enc
  simp only at hw
  subst hw
  refine ⟨?_, ?_, ?_, ?_, ?_, ?_, ?_, ?_, ?_, ?_⟩
  · exact writesList_of ext d c rc _ _ xs (fun _ h => by cases h) rfl hx0 hxl
      framed_WriteInt32 (fun _ => rfl)
  · exact writesList_of ext d c rc _ _ xs (fun _ h => by cases h) rfl hx0 hxl
      framed_WriteInt32 (fun _ => rfl)
  · exact writesList_of ext d c rc _ _ xs (fun _ h => by cases h) rfl hx0 hxl
      framed_WriteInt32 (fun _ => rfl)
  · exact writesList_of ext d c rc _ _ xs (fun _ h => by cases h) rfl hx0 hxl
      framed_WriteInt64 (fun _ => rfl)
  · exact writesList_of ext d c rc _ _ xs (fun _ h => by cases h) rfl hx0 hxl
      framed_WriteInt64 (fun _ => rfl)
  · exact writesList_of ext d c rc _ _ ys (fun _ h => by cases h) rfl hy0 hyl
      framed_WriteUint16 (fun _ => rfl)
  · exact writesList_of ext d c rc _ _ ys (fun _ h => by cases h) rfl hy0 hyl
      framed_WriteUint64 (fun _ => rfl)
  · exact writesList_of ext d c rc _ _ ys (fun _ h => by cases h) rfl hy0 hyl
      framed_WriteUint64 (fun _ => rfl)
  · exact writesList_of ext d c rc _ _ ys (fun _ h => by cases h) rfl hy0 hyl
      framed_WriteUint64 (fun _ => rfl)
  · exact writesList_of ext d c rc _ _ zs (fun _ h => by cases h) rfl hz0 hzl
      framed_WriteBool (fun _ => rfl)

/-- Witness of C10 at the slices `[-1, 10]`, `[7, 300]` and `[true, false]`. -/
theorem writeSlice_fastPath_witness :
    (Encoder.mk (Writer.reliable []) 0).Writer.script = [] ∧
    ([-1, 10] : List Int) ≠ [] ∧ ((([-1, 10] : List Int).length : Nat) : Int) ≤ MaxInt64 ∧
    ([7, 300] : List Nat) ≠ [] ∧ ((([7, 300] : List Nat).length : Nat) : Int) ≤ MaxInt64 ∧
    ([true, false] : List Bool) ≠ [] ∧
    ((([true, false] : List Bool).length : Nat) : Int) ≤ MaxInt64 ∧
    WritesList (Externals.mk (fun _ _ => []) (fun e _ => (e, none)) (fun e _ => (e, none))
        (fun (b : Nat) => b)) (Encoder.mk (Writer.reliable []) 0) (.int64s [-1, 10])
      WriteInt64 [-1, 10] :=
  ⟨rfl, by decide, by decide, by decide, by decide, by decide, by decide,
    (writeSlice_fastPath (Externals.mk (fun _ _ => []) (fun e _ => (e, none))
      (fun e _ => (e, none)) (fun (b : Nat) => b)) (Encoder.mk (Writer.reliable []) 0) rfl
      [-1, 10] (by decide) (by decide) [7, 300] (by decide) (by decide) [true, false]
      (by decide) (by decide)).2.2.2.1⟩

/-! ## Heads, floats and big numbers on a sink that never fails -/

theorem WriteHead_nonpos (d : List Nat) (c : Nat) (n : Int) (tag : Nat) (h0 : ¬ 0 < n) :
    WriteHead ⟨d, [], c⟩ n tag = (⟨d ++ [tag] ++ [TagOpenbrace], [], c + 2⟩, none) := by
  unfold WriteHead
  simp only [WriteByte_mk, if_neg h0]

theorem float64_classes (f : Float64) :
    (f.isNaN = true ∨ f.gtMaxFloat64 = true ∨ f.ltNegMaxFloat64 = true ∨ f.isFinite = true) ∧
    (f.isFinite = true → f.isNaN = false ∧ f.gtMaxFloat64 = false ∧ f.ltNegMaxFloat64 = false) ∧
    (f.gtMaxFloat64 = true → f.isNaN = false) ∧
    (f.ltNegMaxFloat64 = true → f.isNaN = false ∧ f.gtMaxFloat64 = false) := by
  unfold Float64.isNaN Float64.gtMaxFloat64 Float64.ltNegMaxFloat64 Float64.isFinite Float64.sign
  simp only [decide_eq_true_eq, decide_eq_false_iff_not]
  have hs : f.bits / 9223372036854775808 % 2 = 0 ∨ f.bits / 9223372036854775808 % 2 = 1 := by
    omega
  refine ⟨?_, ?_, ?_, ?_⟩
  · by_cases h1 : f.exponent = 2047
    · by_cases h2 : f.fraction = 0
      · rcases hs with h | h
        · exact Or.inr (Or.inl ⟨h, h1, h2⟩)
        · exact Or.inr (Or.inr (Or.inl ⟨h, h1, h2⟩))
      · exact Or.inl ⟨h1, h2⟩
    · exact Or.inr (Or.inr (Or.inr h1))
  · intro h
    exact ⟨fun h2 => h h2.1, fun h2 => h h2.2.1, fun h2 => h h2.2.1⟩
  · intro h h2
    exact h2.2 h.2.2
  · intro h
    exact ⟨fun h2 => h2.2 h.2.2, fun h2 => by omega⟩

theorem writeFloat_nan {α : Type} (ext : Externals α) (d : List Nat) (c : Nat) (f : Float64)
    (b : Nat) (h : f.isNaN = true) :
    writeFloat ext ⟨d, [], c⟩ f b = (⟨d ++ [TagNaN], [], c + 1⟩, none) := by
  unfold writeFloat
  rw [if_pos h, WriteByte_mk]

theorem writeFloat_posInf {α : Type} (ext : Externals α) (d : List Nat) (c : Nat) (f : Float64)
    (b : Nat) (h : f.gtMaxFloat64 = true) :
    writeFloat ext ⟨d, [], c⟩ f b = (⟨d ++ [TagInfinity] ++ [TagPos], [], c + 2⟩, none) := by
  have h1 := (float64_classes f).2.2.1 h
  unfold writeFloat
  rw [if_neg (by rw [h1]; decide), if_pos h]
  simp only [WriteByte_mk]

theorem writeFloat_negInf {α : Type} (ext : Externals α) (d : List Nat) (c : Nat) (f : Float64)
    (b : Nat) (h : f.ltNegMaxFloat64 = true) :
    writeFloat ext ⟨d, [], c⟩ f b = (⟨d ++ [TagInfinity] ++ [TagNeg], [], c + 2⟩, none) := by
  have h1 := (float64_classes f).2.2.2 h
  unfold writeFloat
  rw [if_neg (by rw [h1.1]; decide), if_neg (by rw [h1.2]; decide), if_pos h]
  simp only [WriteByte_mk]

theorem writeFloat_finite {α : Type} (ext : Externals α) (d : List Nat) (c : Nat) (f : Float64)
    (b : Nat) (h : f.isFinite = true) :
    writeFloat ext ⟨d, [], c⟩ f b =
      (⟨d ++ [TagDouble] ++ ext.AppendFloat f b ++ [TagSemicolon], [], c + 3⟩, none) := by
  have h1 := (float64_classes f).2.1 h
  unfold writeFloat
  rw [if_neg (by rw [h1.1]; decide), if_neg (by rw [h1.2.1]; decide),
    if_neg (by rw [h1.2.2]; decide)]
  simp only [WriteByte_mk, Write_mk]

theorem framed_writeFloat {α : Type} (ext : Externals α) (f : Float64) (b : Nat) :
    Framed (fun w => writeFloat ext w f b) := by
  rcases (float64_classes f).1 with h | h | h | h
  · exact framed_of _ _ _ (fun d c => writeFloat_nan ext d c f b h)
  · exact framed_of _ _ _ (fun d c => by rw [writeFloat_posInf ext d c f b h, List.append_assoc])
  · exact framed_of _ _ _ (fun d c => by rw [writeFloat_negInf ext d c f b h, List.append_assoc])
  · exact framed_of _ _ _ (fun d c => by
      rw [writeFloat_finite ext d c f b h, List.append_assoc, List.append_assoc])

theorem WriteBigInt_mk (d : List Nat) (c : Nat) (i : Option Int) :
    WriteBigInt ⟨d, [], c⟩ i =
      (⟨d ++ [TagLong] ++ BigIntString i ++ [TagSemicolon], [], c + 3⟩, none) := by
  unfold WriteBigInt
  simp only [WriteByte_mk, Write_mk]

theorem signedDecimal_ofNat (n : Nat) : signedDecimal (n : Int) = decimal n := by
  rw [signedDecimal, if_neg (by omega), Int.toNat_ofNat]

theorem BigRatString_eq (r : Rat) :
    BigRatString r = signedDecimal r.num ++ ['/'.toNat] ++ decimal r.den := by
  unfold BigRatString BigIntString
  simp only [signedDecimal_ofNat]
  rfl

/-! ## The decoder of big numbers -/

theorem takeWhile_until (text rest : List Nat) (tag : Nat) (h : ∀ b ∈ text, b ≠ tag) :
    (text ++ tag :: rest).takeWhile (fun b => b ≠ tag) = text ∧
    ((text ++ tag :: rest).dropWhile (fun b => b ≠ tag)).drop 1 = rest := by
  induction text with
  | nil => simp [List.takeWhile, List.dropWhile]
  | cons a t ih =>
    have ha : a ≠ tag := h a (by simp)
    obtain ⟨h1, h2⟩ := ih (fun b hb => h b (by simp [hb]))
    rw [List.cons_append, List.takeWhile_cons, List.dropWhile_cons]
    simp only [ha, ne_eq, not_false_eq_true, decide_True, if_true]
    exact ⟨by rw [h1], h2⟩

theorem UnsafeUntil_text (text rest : List Nat) (e : Option DecodeError) (s : Bool) (tag : Nat)
    (h : ∀ b ∈ text, b ≠ tag) :
    (Decoder.mk (text ++ tag :: rest) e s).UnsafeUntil tag = (text, ⟨rest, e, s⟩) := by
  obtain ⟨h1, h2⟩ := takeWhile_until text rest tag h
  unfold Decoder.UnsafeUntil
  simp only [h1, h2]

theorem parseDecimal_decimal (n : Nat) : parseDecimal (decimal n) = some n := by
  obtain ⟨p1, _, _, p4, p5⟩ := decimal_props n
  unfold parseDecimal
  rw [if_pos ⟨p4, p1⟩, p5]

theorem decimal_head (n : Nat) : (decimal n).head? ≠ some 45 ∧ (decimal n).head? ≠ some 43 := by
  obtain ⟨p1, _, _, p4, _⟩ := decimal_props n
  cases hd : decimal n with
  | nil => exact absurd hd p4
  | cons a t =>
    have := p1 a (by rw [hd]; simp)
    simp only [List.head?_cons, ne_eq, Option.some.injEq]
    have e0 : '0'.toNat = 48 := rfl
    have e9 : '9'.toNat = 57 := rfl
    omega

theorem BigIntSetString_signedDecimal (n : Int) : BigIntSetString (signedDecimal n) = some n := by
  unfold signedDecimal BigIntSetString
  by_cases h : n < 0
  · rw [if_pos h, List.head?_cons, if_pos rfl, List.tail_cons, parseDecimal_decimal]
    show some (-((n.natAbs : Nat) : Int)) = some n
    congr 1
    omega
  · simp only [if_neg h]
    obtain ⟨h1, h2⟩ := decimal_head n.toNat
    rw [if_neg h1, if_neg h2, parseDecimal_decimal]
    show some ((n.toNat : Nat) : Int) = some n
    congr 1
    omega

theorem signedDecimal_bytes (n : Int) : ∀ b ∈ signedDecimal n, b = 45 ∨ (48 ≤ b ∧ b ≤ 57) := by
  intro b hb
  unfold signedDecimal at hb
  have e0 : '0'.toNat = 48 := rfl
  have e9 : '9'.toNat = 57 := rfl
  split at hb
  · rcases List.mem_cons.mp hb with h | h
    · exact Or.inl h
    · have := (decimal_props n.natAbs).1 b h
      right; omega
  · have := (decimal_props n.toNat).1 b hb
    right; omega

theorem readBigInt_text (n : Int) (rest : List Nat) (e : Option DecodeError) (s : Bool)
    (t : ReflectType) :
    readBigInt ⟨signedDecimal n ++ TagSemicolon :: rest, e, s⟩ t = (some n, ⟨rest, e, s⟩) := by
  unfold readBigInt
  rw [UnsafeUntil_text _ _ _ _ _ (fun b hb => by
    rcases signedDecimal_bytes n b hb with h | h
    · rw [h]; decide
    · unfold TagSemicolon; omega)]
  simp only [strToBigInt, BigIntSetString_signedDecimal]

theorem intDigits_none (tag : Nat) (h : ¬ (48 ≤ tag ∧ tag ≤ 57)) : intDigits tag = none := by
  unfold intDigits
  rw [if_neg h]

theorem intDigits_digit (d : Nat) (h : d ≤ 9) : intDigits ('0'.toNat + d) = some d := by
  have e0 : '0'.toNat = 48 := rfl
  unfold intDigits
  rw [e0, if_pos (by omega)]
  congr 1
  omega

theorem NewFloat_digit : ∀ d < 10, NewFloat (float64OfInt ((d : Nat) : Int)) = BigFloat.finite ((d : Nat) : Rat) := by
  decide!

theorem decodeBigRat_long (ext : DecoderExternals) (dec : Decoder) (t : ReflectType) :
    decodeBigRat ext dec t TagLong = BigRatSetInt (readBigInt dec t).1 (readBigInt dec t).2 := by
  rw [decodeBigRat, intDigits_none _ (by decide)]
  simp only [show ¬ TagLong = TagNull by decide,
    show ¬ (TagLong = TagEmpty ∨ TagLong = TagFalse) by decide,
    show ¬ TagLong = TagTrue by decide, show ¬ TagLong = TagInteger by decide, if_false, if_true]

theorem decodeBigInt_long (ext : DecoderExternals) (dec : Decoder) (t : ReflectType) :
    decodeBigInt ext dec t TagLong = readBigInt dec t := by
  rw [decodeBigInt, intDigits_none _ (by decide)]
  simp only [show ¬ TagLong = TagNull by decide,
    show ¬ (TagLong = TagEmpty ∨ TagLong = TagFalse) by decide,
    show ¬ TagLong = TagTrue by decide, show ¬ TagLong = TagInteger by decide, if_false, if_true]

/-- What `decodeBigRat` does after the tag `l` with a text that has no `;` in it. -/
theorem decodeBigRat_long_text (ext : DecoderExternals) (text rest : List Nat)
    (e : Option DecodeError) (s : Bool) (t : ReflectType) (h : ∀ b ∈ text, b ≠ TagSemicolon) :
    (∀ n : Int, BigIntSetString text = some n →
      decodeBigRat ext ⟨text ++ TagSemicolon :: rest, e, s⟩ t TagLong =
        Outcome.returns (some (n : Rat)) ⟨rest, e, s⟩) ∧
    (BigIntSetString text = none →
      ∃ dec : Decoder, decodeBigRat ext ⟨text ++ TagSemicolon :: rest, e, s⟩ t TagLong =
        Outcome.panics dec) := by
  have hr : readBigInt ⟨text ++ TagSemicolon :: rest, e, s⟩ t
      = strToBigInt ⟨rest, e, s⟩ text t := by
    unfold readBigInt
    rw [UnsafeUntil_text _ _ _ _ _ h]
  refine ⟨?_, ?_⟩
  · intro n hn
    rw [decodeBigRat_long, hr]
    simp only [strToBigInt, hn, BigRatSetInt]
  · intro hn
    rw [decodeBigRat_long, hr]
    simp only [strToBigInt, hn, BigRatSetInt]
    exact ⟨_, rfl⟩

/-- For a tag that none of the cases of `decodeBigInt` takes, the method makes the call
`dec.decodeError(t, tag)`, makes no call to a reader, and returns nil. -/
theorem decodeBigInt_default (ext : DecoderExternals) (dec : Decoder) (t : ReflectType)
    (tag : Nat) (hd : ¬ ('0'.toNat ≤ tag ∧ tag ≤ '9'.toNat))
    (ht : tag ≠ 'n'.toNat ∧ tag ≠ 'e'.toNat ∧ tag ≠ 'f'.toNat ∧ tag ≠ 't'.toNat ∧
      tag ≠ 'i'.toNat ∧ tag ≠ 'l'.toNat ∧ tag ≠ 'd'.toNat ∧ tag ≠ 'u'.toNat ∧ tag ≠ 's'.toNat) :
    decodeBigInt ext dec t tag = (none, ext.decodeError dec t tag) := by
  obtain ⟨h1, h2, h3, h4, h5, h6, h7, h8, h9⟩ := ht
  rw [decodeBigInt, intDigits_none tag hd]
  simp only [TagNull, TagEmpty, TagFalse, TagTrue, TagInteger, TagLong, TagDouble, TagUTF8Char,
    TagString]
  rw [if_neg (show ¬ tag = 110 from h1),
    if_neg (show ¬ (tag = 101 ∨ tag = 102) by rintro (h | h); exact h2 h; exact h3 h),
    if_neg (show ¬ tag = 116 from h4), if_neg (show ¬ tag = 105 from h5),
    if_neg (show ¬ tag = 108 from h6), if_neg (show ¬ tag = 100 from h7),
    if_neg (show ¬ tag = 117 from h8), if_neg (show ¬ tag = 115 from h9)]
/-- Claim C11: for every empty slice whose element type is not byte, `WriteSlice` writes,
on a sink that never fails, exactly the three bytes `a`, open brace, close brace, with
no count, in one call to the sink, and it increases the reference count of the encoder
by exactly 1. -/
theorem WriteSlice_empty {α : Type} (ext : Externals α) (enc : Encoder)
    (hw : enc.Writer.script = []) (v : SliceValue α) (hv : ∀ bs, v ≠ SliceValue.bytes bs)
    (h0 : v.len = 0) :
    WriteSlice ext enc v =
      (⟨⟨enc.Writer.data ++ ['a'.toNat, TagOpenbrace, TagClosebrace], [],
          enc.Writer.calls + 1⟩, enc.refCount + 1⟩, none) := by
  obtain ⟨⟨d, sc, c⟩, rc⟩ := enc
  simp only at hw
  subst hw
  unfold WriteSlice
  simp only [Encoder.AddReferenceCount]
  rw [writeSlice_nonbytes ext _ v hv, if_pos h0]
  rfl

/-- Witness of C11 at the empty `[]int64` on an empty sink. -/
theorem WriteSlice_empty_witness :
    (Encoder.mk (Writer.reliable []) 0).Writer.script = [] ∧
    (∀ bs, (SliceValue.int64s [] : SliceValue Nat) ≠ SliceValue.bytes bs) ∧
    (SliceValue.int64s [] : SliceValue Nat).len = 0 ∧
    WriteSlice idleEncoders (Encoder.mk (Writer.reliable []) 0) (SliceValue.int64s []) =
      (⟨⟨(Encoder.mk (Writer.reliable []) 0).Writer.data
          ++ ['a'.toNat, TagOpenbrace, TagClosebrace], [],
          (Encoder.mk (Writer.reliable []) 0).Writer.calls + 1⟩,
        (Encoder.mk (Writer.reliable []) 0).refCount + 1⟩, none) :=
  ⟨rfl, (fun _ h => by cases h), rfl,
    WriteSlice_empty idleEncoders (Encoder.mk (Writer.reliable []) 0) rfl
      (SliceValue.int64s []) (fun _ h => by cases h) rfl⟩

/-- Claim C12: for every tag byte `t` and count `n`, `WriteHead(w, n, t)` writes, on a
sink that never fails, exactly `t`, the decimal text of `n` and the open brace when
`n > 0`, and exactly `t` and the open brace, the count left out, when `n = 0`;
`WriteFoot` writes exactly the close brace. -/
theorem WriteHead_framing (w : Writer) (hw : w.script = []) (t : Nat) (n : Int)
    (hn : n ≤ MaxInt64) :
    (n > 0 → WriteHead w n t =
      (⟨w.data ++ [t] ++ decimal n.toNat ++ [TagOpenbrace], [], w.calls + 3⟩, none)) ∧
    (n = 0 → WriteHead w n t = (⟨w.data ++ [t] ++ [TagOpenbrace], [], w.calls + 2⟩, none)) ∧
    WriteFoot w = (⟨w.data ++ [TagClosebrace], [], w.calls + 1⟩, none) := by
  obtain ⟨d, sc, c⟩ := w
  simp only at hw
  subst hw
  exact ⟨fun h => WriteHead_pos d c n t h hn, fun h => WriteHead_nonpos d c n t (by omega), rfl⟩

/-- Witness of C12 at the tag `m` and the count 12 on an empty sink. -/
theorem WriteHead_framing_witness :
    (Writer.reliable []).script = [] ∧ (12 : Int) ≤ MaxInt64 ∧ (12 : Int) > 0 ∧
    WriteHead (Writer.reliable []) 12 'm'.toNat =
      (⟨(Writer.reliable []).data ++ ['m'.toNat] ++ decimal (12 : Int).toNat
          ++ [TagOpenbrace], [], (Writer.reliable []).calls + 3⟩, none) ∧
    WriteFoot (Writer.reliable []) =
      (⟨(Writer.reliable []).data ++ [TagClosebrace], [], (Writer.reliable []).calls + 1⟩,
        none) :=
  ⟨rfl, by decide, by decide,
    (WriteHead_framing (Writer.reliable []) rfl 'm'.toNat 12 (by decide)).1 (by decide),
    (WriteHead_framing (Writer.reliable []) rfl 'm'.toNat 12 (by decide)).2.2⟩

/-- Claim C13: for every class index `r >= 0`, `WriteObjectHead(w, r)` writes, on a sink
that never fails, exactly `o`, the canonical decimal text of `r` and the open brace; the
index is never left out, so `r = 0` gives `o0` and the open brace. -/
theorem WriteObjectHead_framing (w : Writer) (hw : w.script = []) (r : Int) (h0 : 0 ≤ r)
    (hr : r ≤ MaxInt64) :
    WriteObjectHead w r =
      (⟨w.data ++ ['o'.toNat] ++ decimal r.toNat ++ [TagOpenbrace], [], w.calls + 3⟩, none) ∧
    decimal r.toNat ≠ [] ∧
    (WriteObjectHead w 0).1.data = w.data ++ ['o'.toNat, '0'.toNat, TagOpenbrace] := by
  obtain ⟨d, sc, c⟩ := w
  simp only at hw
  subst hw
  have key : ∀ x : Int, 0 ≤ x → x ≤ MaxInt64 → WriteObjectHead ⟨d, [], c⟩ x =
      (⟨d ++ [TagObject] ++ decimal x.toNat ++ [TagOpenbrace], [], c + 3⟩, none) := by
    intro x hx0 hx
    unfold WriteObjectHead
    simp only [WriteByte_mk, uint64_of_len x hx0 hx]
    rw [writeUint64_mk _ _ _ (by unfold MaxUint64; unfold MaxInt64 at hx; omega)]
    simp only [WriteByte_mk]
  refine ⟨key r h0 hr, (decimal_props r.toNat).2.2.2.1, ?_⟩
  rw [key 0 (by decide) (by decide)]
  simp [decimal, TagObject]

/-- Witness of C13 at the class index 0 on an empty sink. -/
theorem WriteObjectHead_framing_witness :
    (Writer.reliable []).script = [] ∧ (0 : Int) ≤ 0 ∧ (0 : Int) ≤ MaxInt64 ∧
    (WriteObjectHead (Writer.reliable []) 0).1.data
      = (Writer.reliable []).data ++ ['o'.toNat, '0'.toNat, TagOpenbrace] :=
  ⟨rfl, by decide, by decide,
    (WriteObjectHead_framing (Writer.reliable []) rfl 0 (by decide) (by decide)).2.2⟩

/-- Claim C14: on a sink that never fails `writeFloat`, and so `WriteFloat32` and
`WriteFloat64`, writes exactly the single byte `N` for every NaN, exactly `I+` for
positive infinity, exactly `I-` for negative infinity, and for every finite value exactly
`d`, the text of the formatter and `;`; every value is of one of these four kinds, so no
value, 0.0 to 9.0 included, is written in the single-digit form. The formatter
`strconv.AppendFloat` is Go library code: that its text is non-empty ASCII without `;`
is the hypothesis `hfmt`, and that it formats 3.14 as `3.14` is the premise of the
example `d3.14;`. -/
theorem writeFloat_forms {α : Type} (ext : Externals α) (w : Writer) (hw : w.script = [])
    (f : Float64) (bitSize : Nat)
    (hfmt : ext.AppendFloat f bitSize ≠ [] ∧
      ∀ c ∈ ext.AppendFloat f bitSize, c < 128 ∧ c ≠ ';'.toNat) :
    (f.isNaN = true → writeFloat ext w f bitSize =
      (⟨w.data ++ ['N'.toNat], [], w.calls + 1⟩, none)) ∧
    (f.gtMaxFloat64 = true → writeFloat ext w f bitSize =
      (⟨w.data ++ ['I'.toNat, '+'.toNat], [], w.calls + 2⟩, none)) ∧
    (f.ltNegMaxFloat64 = true → writeFloat ext w f bitSize =
      (⟨w.data ++ ['I'.toNat, '-'.toNat], [], w.calls + 2⟩, none)) ∧
    (f.isFinite = true → ∃ text : List Nat, text ≠ [] ∧
      (∀ c ∈ text, c < 128 ∧ c ≠ ';'.toNat) ∧ text = ext.AppendFloat f bitSize ∧
      writeFloat ext w f bitSize =
        (⟨w.data ++ ['d'.toNat] ++ text ++ [';'.toNat], [], w.calls + 3⟩, none)) ∧
    (f.isNaN = true ∨ f.gtMaxFloat64 = true ∨ f.ltNegMaxFloat64 = true ∨ f.isFinite = true) ∧
    (∀ v : Nat, v ≤ 9 → (writeFloat ext w f bitSize).1.data ≠ w.data ++ ['0'.toNat + v]) ∧
    WriteFloat32 ext w f = writeFloat ext w f 32 ∧
    WriteFloat64 ext w f = writeFloat ext w f 64 ∧
    (ext.AppendFloat ⟨0x40091EB851EB851F⟩ 64 = stringBytes "3.14" →
      (WriteFloat64 ext w ⟨0x40091EB851EB851F⟩).1.data = w.data ++ stringBytes "d3.14;") := by
  obtain ⟨d, sc, c⟩ := w
  simp only at hw
  subst hw
  refine ⟨fun h => writeFloat_nan ext d c f bitSize h, ?_, ?_, ?_, (float64_classes f).1, ?_,
    rfl, rfl, ?_⟩
  · intro h
    rw [writeFloat_posInf ext d c f bitSize h, List.append_assoc]
    rfl
  · intro h
    rw [writeFloat_negInf ext d c f bitSize h, List.append_assoc]
    rfl
  · intro h
    exact ⟨ext.AppendFloat f bitSize, hfmt.1, hfmt.2, rfl, writeFloat_finite ext d c f bitSize h⟩
  · intro v hv
    have e : ∀ (x y : Nat) (t : List Nat), x ≠ y → d ++ x :: t ≠ d ++ [y] := by
      intro x y t hxy h
      have := List.append_cancel_left h
      simp only [List.cons.injEq] at this
      exact hxy this.1
    rcases (float64_classes f).1 with h | h | h | h
    · rw [writeFloat_nan ext d c f bitSize h]
      exact e _ _ [] (by simp [TagNaN]; omega)
    · rw [writeFloat_posInf ext d c f bitSize h, List.append_assoc]
      exact e _ _ _ (by simp [TagInfinity]; omega)
    · rw [writeFloat_negInf ext d c f bitSize h, List.append_assoc]
      exact e _ _ _ (by simp [TagInfinity]; omega)
    · rw [writeFloat_finite ext d c f bitSize h, List.append_assoc, List.append_assoc]
      exact e _ _ _ (by simp [TagDouble]; omega)
  · intro h
    unfold WriteFloat64
    rw [writeFloat_finite ext d c _ 64 (by decide), h]
    simp only [List.append_assoc]
    exact congrArg (fun l => d ++ l) (by decide)

/-- Witness of C14 at the `float64` 3.14 with a formatter that yields `3.14`. -/
theorem writeFloat_forms_witness :
    (Writer.reliable []).script = [] ∧
    (idleEncoders.AppendFloat ⟨0x40091EB851EB851F⟩ 64 ≠ [] ∧
      ∀ c ∈ idleEncoders.AppendFloat ⟨0x40091EB851EB851F⟩ 64, c < 128 ∧ c ≠ ';'.toNat) ∧
    idleEncoders.AppendFloat ⟨0x40091EB851EB851F⟩ 64 = stringBytes "3.14" ∧
    (WriteFloat64 idleEncoders (Writer.reliable []) ⟨0x40091EB851EB851F⟩).1.data
      = (Writer.reliable []).data ++ stringBytes "d3.14;" :=
  ⟨rfl, by decide, rfl,
    (writeFloat_forms idleEncoders (Writer.reliable []) rfl ⟨0x40091EB851EB851F⟩ 64
      (by decide)).2.2.2.2.2.2.2.2 rfl⟩

/-- Claim C15: on a sink that never fails, for a complex value with real part `r` and
imaginary part `i`: if `i` equals zero, `writeComplex` writes exactly the bytes that
`writeFloat` writes for `r` and leaves the reference count as it is; otherwise it writes
exactly `a2`, the open brace, the bytes of `writeFloat` for `r`, those for `i`, and the
close brace, and increases the reference count by exactly 1. -/
theorem writeComplex_forms {α : Type} (ext : Externals α) (enc : Encoder)
    (hw : enc.Writer.script = []) (r i : Float64) (bitSize : Nat) :
    (i.isZero = true →
      (writeComplex ext enc r i bitSize).2 = none ∧
      (writeComplex ext enc r i bitSize).1.Writer.data
        = enc.Writer.data ++ emitted (fun w => writeFloat ext w r bitSize) ∧
      (writeComplex ext enc r i bitSize).1.refCount = enc.refCount) ∧
    (i.isZero = false →
      (writeComplex ext enc r i bitSize).2 = none ∧
      (writeComplex ext enc r i bitSize).1.Writer.data
        = enc.Writer.data ++ ['a'.toNat, '2'.toNat, TagOpenbrace]
          ++ emitted (fun w => writeFloat ext w r bitSize)
          ++ emitted (fun w => writeFloat ext w i bitSize) ++ [TagClosebrace] ∧
      (writeComplex ext enc r i bitSize).1.refCount = enc.refCount + 1) := by
  obtain ⟨⟨d, sc, c⟩, rc⟩ := enc
  simp only at hw
  subst hw
  obtain ⟨k1, h1⟩ := framed_writeFloat ext r bitSize
  obtain ⟨k2, h2⟩ := framed_writeFloat ext i bitSize
  have g1 : ∀ (d : List Nat) (c : Nat), writeFloat ext ⟨d, [], c⟩ r bitSize =
      (⟨d ++ emitted (fun w => writeFloat ext w r bitSize), [], c + k1⟩, none) := h1
  have g2 : ∀ (d : List Nat) (c : Nat), writeFloat ext ⟨d, [], c⟩ i bitSize =
      (⟨d ++ emitted (fun w => writeFloat ext w i bitSize), [], c + k2⟩, none) := h2
  have two : decimal 2 = [50] := by norm_num [decimal, digitBytes]
  refine ⟨?_, ?_⟩
  · intro hz
    unfold writeComplex
    simp only [hz, if_true, Encoder.onWriter, g1]
    exact ⟨trivial, trivial, trivial⟩
  · intro hz
    unfold writeComplex
    simp only [hz, Encoder.onWriter, Encoder.AddReferenceCount]
    rw [if_neg (by decide), WriteHead_pos d c 2 TagList (by decide) (by decide)]
    simp only [g1, g2, WriteFoot, WriteByte_mk, show (2 : Int).toNat = 2 from rfl, two]
    refine ⟨trivial, ?_, trivial⟩
    simp only [List.append_assoc]
    rfl

/-- Witness of C15 at the complex value `1 + 1i` on an empty sink. -/
theorem writeComplex_forms_witness :
    (Encoder.mk (Writer.reliable []) 0).Writer.script = [] ∧
    (⟨0x3FF0000000000000⟩ : Float64).isZero = false ∧
    (writeComplex idleEncoders (Encoder.mk (Writer.reliable []) 0) ⟨0x3FF0000000000000⟩
      ⟨0x3FF0000000000000⟩ 64).1.refCount = (Encoder.mk (Writer.reliable []) 0).refCount + 1 :=
  ⟨rfl, by decide,
    ((writeComplex_forms idleEncoders (Encoder.mk (Writer.reliable []) 0) rfl
      ⟨0x3FF0000000000000⟩ ⟨0x3FF0000000000000⟩ 64).2 (by decide)).2.2⟩

/-- Claim C16: on a sink that never fails, for every big rational `r` in lowest terms:
if its denominator is 1, `WriteBigRat` writes exactly what `WriteBigInt` writes for its
numerator, which is `l`, the decimal text and `;`, and takes no reference slot; otherwise
it writes exactly `s`, the decimal number `L`, quote, the text `numerator/denominator`
and quote, where `L` is the number of characters of that text, and increases the
reference count by exactly 1. So 3/2 gives `s3"3/2"`, and 6/3, which is 2, gives `l2;`. -/
theorem WriteBigRat_forms (enc : Encoder) (hw : enc.Writer.script = []) (r : Rat)
    (hl : ((BigRatString r).length : Int) ≤ MaxInt64) :
    (r.den = 1 →
      WriteBigRat enc r = enc.onWriter (WriteBigInt enc.Writer (some r.num)) ∧
      (WriteBigRat enc r).2 = none ∧
      (WriteBigRat enc r).1.Writer.data
        = enc.Writer.data ++ ['l'.toNat] ++ signedDecimal r.num ++ [';'.toNat] ∧
      (WriteBigRat enc r).1.refCount = enc.refCount) ∧
    (r.den ≠ 1 →
      (WriteBigRat enc r).2 = none ∧
      (WriteBigRat enc r).1.Writer.data
        = enc.Writer.data ++ ['s'.toNat]
          ++ decimal (signedDecimal r.num ++ ['/'.toNat] ++ decimal r.den).length
          ++ [TagQuote] ++ (signedDecimal r.num ++ ['/'.toNat] ++ decimal r.den)
          ++ [TagQuote] ∧
      (WriteBigRat enc r).1.refCount = enc.refCount + 1) ∧
    (r = 3 / 2 → (WriteBigRat enc r).1.Writer.data
        = enc.Writer.data
          ++ (stringBytes "s3" ++ [TagQuote] ++ stringBytes "3/2" ++ [TagQuote])) ∧
    (r = 6 / 3 → (WriteBigRat enc r).1.Writer.data = enc.Writer.data ++ stringBytes "l2;") := by
  obtain ⟨⟨d, sc, c⟩, rc⟩ := enc
  simp only at hw
  subst hw
  have hint : r.den = 1 → WriteBigRat ⟨⟨d, [], c⟩, rc⟩ r =
      (⟨⟨d ++ [TagLong] ++ signedDecimal r.num ++ [TagSemicolon], [], c + 3⟩, rc⟩, none) := by
    intro h
    unfold WriteBigRat BigRatIsInt
    simp only [h, decide_True, if_true, Encoder.onWriter, WriteBigInt_mk, BigIntString]
  have hfrac : r.den ≠ 1 → WriteBigRat ⟨⟨d, [], c⟩, rc⟩ r =
      (⟨⟨d ++ [TagString]
          ++ decimal (signedDecimal r.num ++ ['/'.toNat] ++ decimal r.den).length
          ++ [TagQuote] ++ (signedDecimal r.num ++ ['/'.toNat] ++ decimal r.den)
          ++ [TagQuote], [], c + 5⟩, rc + 1⟩, none) := by
    intro h
    have hpos : (0 : Int) < ((BigRatString r).length : Int) := by
      rw [BigRatString_eq]
      simp only [List.length_append, List.length_singleton]
      omega
    unfold WriteBigRat BigRatIsInt
    simp only [h, decide_False, Encoder.onWriter, Encoder.AddReferenceCount]
    rw [if_neg (by decide)]
    unfold writeString
    rw [if_neg (by omega)]
    simp only [WriteByte_mk]
    rw [writeBinary_pos _ _ _ _ hpos hl]
    simp only [Int.toNat_ofNat, BigRatString_eq]
  refine ⟨?_, ?_, ?_, ?_⟩
  · intro h
    refine ⟨?_, ?_⟩
    · unfold WriteBigRat BigRatIsInt
      simp only [h, decide_True, if_true]
    · rw [hint h]
      exact ⟨rfl, rfl, rfl⟩
  · intro h
    rw [hfrac h]
    exact ⟨rfl, rfl, rfl⟩
  · intro h
    have hd : r.den = 2 := by rw [h]; norm_num
    have hn : r.num = 3 := by rw [h]; norm_num
    rw [hfrac (by omega), hd, hn]
    simp [signedDecimal, decimal, digitBytes, stringBytes, TagString]
  · intro h
    have hd : r.den = 1 := by rw [h]; norm_num
    have hn : r.num = 2 := by rw [h]; norm_num
    rw [hint hd, hn]
    simp [signedDecimal, decimal, digitBytes, stringBytes, TagLong, TagSemicolon]

/-- Witness of C16 at the rational 3/2 on an empty sink. -/
theorem WriteBigRat_forms_witness :
    (Encoder.mk (Writer.reliable []) 0).Writer.script = [] ∧
    ((BigRatString (3 / 2)).length : Int) ≤ MaxInt64 ∧
    (WriteBigRat (Encoder.mk (Writer.reliable []) 0) (3 / 2)).1.Writer.data
      = (Encoder.mk (Writer.reliable []) 0).Writer.data
        ++ (stringBytes "s3" ++ [TagQuote] ++ stringBytes "3/2" ++ [TagQuote]) :=
  have hl : ((BigRatString (3 / 2)).length : Int) ≤ MaxInt64 := by
    have hd : ((3 : Rat) / 2).den = 2 := by norm_num
    have hn : ((3 : Rat) / 2).num = 3 := by norm_num
    rw [BigRatString_eq, hd, hn]
    simp [signedDecimal, decimal, digitBytes, MaxInt64]
  ⟨rfl, hl, (WriteBigRat_forms (Encoder.mk (Writer.reliable []) 0) rfl (3 / 2) hl).2.2.1 rfl⟩

/-- Claim C17: for every arbitrary-precision integer `n`, of any sign and size, 0..9
included, `WriteBigInt` writes on a sink that never fails the tag `l`, the decimal text
of `n` and `;`, and `decodeBigInt`, handed the tag `l` and the rest of these bytes,
returns exactly `n`, raises no decode error, and leaves the input just after the `;`. -/
theorem bigInt_roundtrip (ext : DecoderExternals) (w : Writer) (hw : w.script = []) (n : Int)
    (t : ReflectType) (rest : List Nat) (e : Option DecodeError) (s : Bool) :
    WriteBigInt w (some n) =
      (⟨w.data ++ 'l'.toNat :: (signedDecimal n ++ [';'.toNat]), [], w.calls + 3⟩, none) ∧
    decodeBigInt ext ⟨(signedDecimal n ++ [';'.toNat]) ++ rest, e, s⟩ t 'l'.toNat
      = (some n, ⟨rest, e, s⟩) := by
  obtain ⟨d, sc, c⟩ := w
  simp only at hw
  subst hw
  refine ⟨?_, ?_⟩
  · rw [WriteBigInt_mk]
    simp only [BigIntString, List.append_assoc]
    rfl
  · have hl : 'l'.toNat = TagLong := rfl
    have hs : ';'.toNat = TagSemicolon := rfl
    rw [hl, hs, decodeBigInt_long, List.append_assoc]
    exact readBigInt_text n rest e s t

/-- Witness of C17 at `n = -12345678901234567890` on an empty sink. -/
theorem bigInt_roundtrip_witness :
    (Writer.reliable []).script = [] ∧
    decodeBigInt idleReaders
        ⟨(signedDecimal (-12345678901234567890) ++ [';'.toNat]) ++ [], none, false⟩ none
        'l'.toNat
      = (some (-12345678901234567890), ⟨[], none, false⟩) :=
  ⟨rfl, (bigInt_roundtrip idleReaders (Writer.reliable []) rfl (-12345678901234567890) none []
    none false).2⟩

/-- Claim C18: for the tags without a body, `decodeBigInt`, `decodeBigFloat` and
`decodeBigRat` each return, leaving the decoder as it is (no input read, no decode error
raised): the value `d` for a digit tag `'0' + d`, nil for the null tag `n`, 0 for the
empty tag `e` and the false tag `f`, and 1 for the true tag `t`. -/
theorem bodyless_tags (ext : DecoderExternals) (dec : Decoder) (t : ReflectType) (d : Nat)
    (hd : d ≤ 9) :
    (decodeBigInt ext dec t ('0'.toNat + d) = (some (d : Int), dec) ∧
      decodeBigFloat ext dec t ('0'.toNat + d) = (some (BigFloat.finite (d : Rat)), dec) ∧
      decodeBigRat ext dec t ('0'.toNat + d) = Outcome.returns (some (d : Rat)) dec) ∧
    (decodeBigInt ext dec t 'n'.toNat = (none, dec) ∧
      decodeBigFloat ext dec t 'n'.toNat = (none, dec) ∧
      decodeBigRat ext dec t 'n'.toNat = Outcome.returns none dec) ∧
    (decodeBigInt ext dec t 'e'.toNat = (some 0, dec) ∧
      decodeBigFloat ext dec t 'e'.toNat = (some (BigFloat.finite 0), dec) ∧
      decodeBigRat ext dec t 'e'.toNat = Outcome.returns (some 0) dec) ∧
    (decodeBigInt ext dec t 'f'.toNat = (some 0, dec) ∧
      decodeBigFloat ext dec t 'f'.toNat = (some (BigFloat.finite 0), dec) ∧
      decodeBigRat ext dec t 'f'.toNat = Outcome.returns (some 0) dec) ∧
    (decodeBigInt ext dec t 't'.toNat = (some 1, dec) ∧
      decodeBigFloat ext dec t 't'.toNat = (some (BigFloat.finite 1), dec) ∧
      decodeBigRat ext dec t 't'.toNat = Outcome.returns (some 1) dec) := by
  have z : NewFloat (float64OfInt 0) = BigFloat.finite 0 := by decide!
  have o : NewFloat (float64OfInt 1) = BigFloat.finite 1 := by decide!
  refine ⟨⟨?_, ?_, ?_⟩, ⟨?_, ?_, ?_⟩, ⟨?_, ?_, ?_⟩, ⟨?_, ?_, ?_⟩, ⟨?_, ?_, ?_⟩⟩
  · rw [decodeBigInt, intDigits_digit d hd]
  · rw [decodeBigFloat, intDigits_digit d hd]
    simp only [NewFloat_digit d (by omega)]
  · rw [decodeBigRat, intDigits_digit d hd]
    rfl
  · rw [decodeBigInt, intDigits_none _ (by decide)]; rfl
  · rw [decodeBigFloat, intDigits_none _ (by decide)]; rfl
  · rw [decodeBigRat, intDigits_none _ (by decide)]; rfl
  · rw [decodeBigInt, intDigits_none _ (by decide)]; rfl
  · rw [decodeBigFloat, intDigits_none _ (by decide)]
    simp only [bigFloatZero, z]; rfl
  · rw [decodeBigRat, intDigits_none _ (by decide)]; rfl
  · rw [decodeBigInt, intDigits_none _ (by decide)]; rfl
  · rw [decodeBigFloat, intDigits_none _ (by decide)]
    simp only [bigFloatZero, z]; rfl
  · rw [decodeBigRat, intDigits_none _ (by decide)]; rfl
  · rw [decodeBigInt, intDigits_none _ (by decide)]; rfl
  · rw [decodeBigFloat, intDigits_none _ (by decide)]
    simp only [bigFloatOne, o]; rfl
  · rw [decodeBigRat, intDigits_none _ (by decide)]; rfl

/-- Witness of C18 at the digit 7 with unread input `xyz`. -/
theorem bodyless_tags_witness :
    (7 : Nat) ≤ 9 ∧
    decodeBigInt idleReaders ⟨stringBytes "xyz", none, false⟩ (some "*big.Int")
        ('0'.toNat + 7)
      = (some ((7 : Nat) : Int), ⟨stringBytes "xyz", none, false⟩) ∧
    decodeBigFloat idleReaders ⟨stringBytes "xyz", none, false⟩ (some "*big.Int")
        ('0'.toNat + 7)
      = (some (BigFloat.finite ((7 : Nat) : Rat)), ⟨stringBytes "xyz", none, false⟩) ∧
    decodeBigRat idleReaders ⟨stringBytes "xyz", none, false⟩ (some "*big.Int")
        ('0'.toNat + 7)
      = Outcome.returns (some ((7 : Nat) : Rat)) ⟨stringBytes "xyz", none, false⟩ :=
  ⟨by decide,
    (bodyless_tags idleReaders ⟨stringBytes "xyz", none, false⟩ (some "*big.Int") 7
      (by decide)).1⟩

/-- Claim C20, the code at a failing input: after the tag `l`, on the input `12x;`,
`decodeBigRat` reads the text `12x`, raises the decode error of a bad numeric literal
and then faults, since `readBigInt` returns nil and `SetInt` reads through it; on the
input `12;` it returns 12/1, and `decodeBigInt` on `12x;` returns nil with the same
error and no fault. -/
theorem decodeBigRat_bad_long (ext : DecoderExternals) :
    decodeBigRat ext ⟨stringBytes "12x;", none, false⟩ (some "*big.Rat") 'l'.toNat =
      Outcome.panics ⟨[], some (DecodeError.string (stringBytes "12x") "*big.Rat"), false⟩ ∧
    decodeBigRat ext ⟨stringBytes "12;", none, false⟩ (some "*big.Rat") 'l'.toNat =
      Outcome.returns (some 12) ⟨[], none, false⟩ ∧
    decodeBigInt ext ⟨stringBytes "12x;", none, false⟩ (some "*big.Int") 'l'.toNat =
      (none, ⟨[], some (DecodeError.string (stringBytes "12x") "*big.Int"), false⟩) := by
  have hl : 'l'.toNat = TagLong := rfl
  rw [hl, decodeBigRat_long, decodeBigRat_long, decodeBigInt_long]
  exact ⟨by decide!, by decide!, by decide!⟩

/-! ## Writers on a sink that fails -/

theorem writeChunks_append (cs ds : List (List Nat)) : ∀ w : Writer,
    writeChunks w (cs ++ ds) = match writeChunks w cs with
      | (w, none) => writeChunks w ds
      | r => r := by
  induction cs with
  | nil => intro w; rfl
  | cons p ps ih =>
    intro w
    rw [List.cons_append, writeChunks, writeChunks]
    rcases h : w.Write p with ⟨w2, _ | e⟩
    · exact ih w2
    · rfl

theorem chunked_Write (p : List Nat) : Chunked (fun w => w.Write p) [p] := by
  intro w
  show w.Write p = writeChunks w [p]
  rw [writeChunks]
  rcases h : w.Write p with ⟨w2, _ | e⟩
  · rfl
  · rfl

theorem chunked_WriteByte (b : Nat) : Chunked (fun w => w.WriteByte b) [[b]] :=
  chunked_Write [b]

theorem chunked_seq (f g : Writer → Result) (cs ds : List (List Nat)) (hf : Chunked f cs)
    (hg : Chunked g ds) :
    Chunked (fun w => match f w with
      | (w, none) => g w
      | r => r) (cs ++ ds) := by
  intro w
  show (match f w with
    | (w, none) => g w
    | r => r) = writeChunks w (cs ++ ds)
  rw [writeChunks_append, hf w]
  rcases h : writeChunks w cs with ⟨w2, _ | e⟩
  · exact hg w2
  · rfl

theorem chunked_writeUint64 (i : Nat) : ∃ p, Chunked (fun w => writeUint64 w i) [p] := by
  by_cases h : i ≥ 0 ∧ i ≤ 9
  · exact ⟨[byteAt digits i], fun w => by
      show writeUint64 w i = _
      rw [writeUint64, if_pos h]
      exact chunked_WriteByte _ w⟩
  · exact ⟨(toBytes i (List.replicate 20 0)).2.drop (toBytes i (List.replicate 20 0)).1.toNat,
      fun w => by
        show writeUint64 w i = _
        rw [writeUint64, if_neg h]
        exact chunked_Write _ w⟩

theorem chunked_writeInt64 (i : Int) : ∃ p, Chunked (fun w => writeInt64 w i) [p] := by
  by_cases h : i ≥ 0
  · obtain ⟨p, hp⟩ := chunked_writeUint64 (uint64 i)
    exact ⟨p, fun w => by
      show writeInt64 w i = _
      rw [writeInt64, if_pos h]
      exact hp w⟩
  · by_cases h2 : i = MinInt64
    · exact ⟨minInt64Buf, fun w => by
        show writeInt64 w i = _
        rw [writeInt64, if_neg h, if_pos h2]
        exact chunked_Write _ w⟩
    · exact ⟨_, fun w => by
        show writeInt64 w i = _
        rw [writeInt64, if_neg h, if_neg h2]
        exact chunked_Write _ w⟩

theorem chunked_WriteInt64 (i : Int) : ∃ cs, Chunked (fun w => WriteInt64 w i) cs := by
  by_cases h : i ≥ 0 ∧ i ≤ 9
  · exact ⟨[[byteAt digits i.toNat]], fun w => by
      show WriteInt64 w i = _
      rw [WriteInt64, if_pos h]
      exact chunked_WriteByte _ w⟩
  · obtain ⟨p, hp⟩ := chunked_writeInt64 i
    refine ⟨[[if i < MinInt32 ∨ i > MaxInt32 then TagLong else TagInteger]]
      ++ ([p] ++ [[TagSemicolon]]), fun w => ?_⟩
    show WriteInt64 w i = _
    rw [WriteInt64, if_neg h]
    exact chunked_seq _ _ _ _ (chunked_WriteByte _)
      (chunked_seq _ _ _ _ hp (chunked_WriteByte TagSemicolon)) w

theorem forRange_cons {σ β : Type} (f : σ → β → σ × Option GoError) (w : σ) (x : β)
    (xs : List β) :
    forRange f w (x :: xs) = match f w x with
      | (w, none) => forRange f w xs
      | r => r := by
  have stuck : ∀ (l : List β) (s : σ) (e : GoError),
      l.foldl (fun st x => match st with
        | (w, none) => f w x
        | r => r) (s, some e) = (s, some e) := by
    intro l
    induction l with
    | nil => intro s e; rfl
    | cons y t ih => intro s e; rw [List.foldl_cons]; exact ih s e
  unfold forRange
  rw [List.foldl_cons]
  show List.foldl _ (f w x) xs = _
  rcases h : f w x with ⟨w2, _ | e⟩
  · rfl
  · exact stuck xs w2 e

theorem chunked_forRange {β : Type} (f : Writer → β → Result) (g : β → List (List Nat))
    (hf : ∀ x, Chunked (fun w => f w x) (g x)) (xs : List β) :
    Chunked (fun w => forRange f w xs) (xs.flatMap g) := by
  induction xs with
  | nil => intro w; rfl
  | cons x t ih =>
    intro w
    show forRange f w (x :: t) = _
    have e : f w x = writeChunks w (g x) := hf x w
    rw [forRange_cons, List.flatMap_cons, writeChunks_append, ← e]
    rcases h : f w x with ⟨w2, _ | e⟩
    · exact ih w2
    · rfl

theorem chunked_WriteHead (n : Int) (tag : Nat) : ∃ cs, Chunked (fun w => WriteHead w n tag) cs := by
  by_cases h : n > 0
  · obtain ⟨p, hp⟩ := chunked_writeUint64 (uint64 n)
    refine ⟨[[tag]] ++ ([p] ++ [[TagOpenbrace]]), fun w => ?_⟩
    show WriteHead w n tag = _
    unfold WriteHead
    simp only [if_pos h]
    exact chunked_seq _ _ _ _ (chunked_WriteByte tag)
      (chunked_seq _ _ _ _ hp (chunked_WriteByte TagOpenbrace)) w
  · refine ⟨[[tag], [TagOpenbrace]], fun w => ?_⟩
    show WriteHead w n tag = _
    unfold WriteHead
    simp only [if_neg h]
    exact chunked_seq _ _ _ _ (chunked_WriteByte tag) (chunked_WriteByte TagOpenbrace) w

theorem chunked_WriteSlice_int64 {α : Type} (ext : Externals α) (xs : List Int) :
    ∃ cs, ∀ enc : Encoder, WriteSlice ext enc (SliceValue.int64s xs) =
      (⟨(writeChunks enc.Writer cs).1, enc.refCount + 1⟩, (writeChunks enc.Writer cs).2) := by
  by_cases h0 : xs.length = 0
  · refine ⟨[emptySlice], fun enc => ?_⟩
    unfold WriteSlice
    rw [writeSlice_nonbytes ext _ _ (fun _ h => by cases h)]
    rw [if_pos (show (SliceValue.int64s xs : SliceValue α).len = 0 from h0)]
    show (_, _) = _
    rw [← chunked_Write emptySlice enc.Writer]
    rfl
  · obtain ⟨hd, hhd⟩ := chunked_WriteHead (xs.length : Int) TagList
    have hg : ∀ x : Int, ∃ cs, Chunked (fun w => WriteInt64 w x) cs := chunked_WriteInt64
    choose g hg using hg
    have hbody := chunked_forRange WriteInt64 g hg xs
    have hall := chunked_seq _ _ _ _ hhd (chunked_seq _ _ _ _ hbody (chunked_WriteByte TagClosebrace))
    refine ⟨hd ++ (xs.flatMap g ++ [[TagClosebrace]]), fun enc => ?_⟩
    rw [← hall enc.Writer]
    unfold WriteSlice
    rw [writeSlice_nonbytes ext _ _ (fun _ h => by cases h)]
    rw [if_neg (show ¬ (SliceValue.int64s xs : SliceValue α).len = 0 from h0)]
    simp only [Encoder.AddReferenceCount, SliceValue.len, writeSliceBody, writeInt64SliceBody,
      Encoder.onWriter, WriteFoot]
    rcases h1 : WriteHead enc.Writer (xs.length : Int) TagList with ⟨w1, _ | e⟩
    · simp only []
      rcases h2 : forRange WriteInt64 w1 xs with ⟨w2, _ | e⟩
      · simp only []
      · simp only []
    · simp only []

theorem writeChunks_ok (cs : List (List Nat)) : ∀ w : Writer,
    (∀ i < cs.length, ∀ (k : Nat) (e : GoError), w.script.get? i ≠ some (some (k, e))) →
    writeChunks w cs = (⟨w.data ++ cs.flatten, w.script.drop cs.length, w.calls + cs.length⟩, none) := by
  induction cs with
  | nil => intro w _; simp [writeChunks]
  | cons p ps ih =>
    intro w h
    obtain ⟨d, sc, c⟩ := w
    cases sc with
    | nil =>
      rw [writeChunks]
      show writeChunks ⟨d ++ p, [], c + 1⟩ ps = _
      rw [ih _ (fun i _ k e => by simp)]
      simp [Nat.add_assoc, Nat.add_comm 1]
    | cons s rest =>
      cases s with
      | none =>
        rw [writeChunks]
        show writeChunks ⟨d ++ p, rest, c + 1⟩ ps = _
        rw [ih _ (fun i hi k e => by
          have := h (i + 1) (by simp; omega) k e
          simpa using this)]
        simp [Nat.add_assoc, Nat.add_comm 1]
      | some ke =>
        exfalso
        exact h 0 (by simp) ke.1 ke.2 (by simp)

theorem writeChunks_fail (cs : List (List Nat)) : ∀ (w : Writer) (j k : Nat) (e : GoError),
    j < cs.length → w.script.get? j = some (some (k, e)) →
    (∀ i < j, w.script.get? i = some none) →
    writeChunks w cs = (⟨w.data ++ (cs.take j).flatten ++ (cs.getD j []).take k,
      w.script.drop (j + 1), w.calls + (j + 1)⟩, some e) := by
  induction cs with
  | nil => intro w j k e hj; simp at hj
  | cons p ps ih =>
    intro w j k e hj hs hfirst
    obtain ⟨d, sc, c⟩ := w
    cases j with
    | zero =>
      cases sc with
      | nil => simp at hs
      | cons s rest =>
        simp only [List.get?_cons_zero, Option.some.injEq] at hs
        subst hs
        rw [writeChunks]
        show (_, _) = _
        simp
    | succ j =>
      have h0 := hfirst 0 (by omega)
      cases sc with
      | nil => simp at h0
      | cons s rest =>
        simp only [List.get?_cons_zero, Option.some.injEq] at h0
        subst h0
        rw [writeChunks]
        show writeChunks ⟨d ++ p, rest, c + 1⟩ ps = _
        rw [ih ⟨d ++ p, rest, c + 1⟩ j k e (by simpa using hj) (by simpa using hs)
          (fun i hi => by
            have := hfirst (i + 1) (by omega)
            simpa using this)]
        simp [Nat.add_assoc, Nat.add_comm 1]

theorem chunk_initial (cs : List (List Nat)) (j k : Nat) (hj : j < cs.length) :
    (cs.take j).flatten ++ (cs.getD j []).take k <+: cs.flatten := by
  have h1 : cs = cs.take j ++ (cs.getD j [] :: cs.drop (j + 1)) := by
    rw [List.getD_eq_getElem cs [] hj]
    simp
  refine ⟨(cs.getD j []).drop k ++ (cs.drop (j + 1)).flatten, ?_⟩
  conv_rhs => rw [h1]
  rw [List.flatten_append, List.flatten_cons, List.append_assoc, ← List.append_assoc
    ((cs.getD j []).take k), List.take_append_drop]

/-! ## UUIDs -/

theorem hextable_high : ∀ v < 256, byteAt hextable (v >>> 4) = hexDigit (v / 16) := by decide!

theorem hextable_low : ∀ v < 256, byteAt hextable (v &&& 15) = hexDigit (v % 16) := by decide!

theorem hexDigit_lower : ∀ n < 16, isLowerHex (hexDigit n) ∧ hexDigit n ≠ 45
    ∧ hexValue (hexDigit n) = n := by decide

theorem hexPair_read (b : Nat) (hb : b < 256) :
    hexValue (hexDigit (b / 16)) * 16 + hexValue (hexDigit (b % 16)) = b := by
  rw [(hexDigit_lower (b / 16) (by omega)).2.2, (hexDigit_lower (b % 16) (by omega)).2.2]
  omega

theorem length_sixteen (id : List Nat) (h : id.length = 16) :
    ∃ b0 b1 b2 b3 b4 b5 b6 b7 b8 b9 b10 b11 b12 b13 b14 b15 : Nat,
      id = [b0, b1, b2, b3, b4, b5, b6, b7, b8, b9, b10, b11, b12, b13, b14, b15] := by
  match id, h with
  | [b0, b1, b2, b3, b4, b5, b6, b7, b8, b9, b10, b11, b12, b13, b14, b15], _ =>
    exact ⟨b0, b1, b2, b3, b4, b5, b6, b7, b8, b9, b10, b11, b12, b13, b14, b15, rfl⟩

theorem uuid_slices (b0 b1 b2 b3 b4 b5 b6 b7 b8 b9 b10 b11 b12 b13 b14 b15 : Nat) :
    slice [b0, b1, b2, b3, b4, b5, b6, b7, b8, b9, b10, b11, b12, b13, b14, b15] 0 4
      = [b0, b1, b2, b3] ∧
    slice [b0, b1, b2, b3, b4, b5, b6, b7, b8, b9, b10, b11, b12, b13, b14, b15] 4 6
      = [b4, b5] ∧
    slice [b0, b1, b2, b3, b4, b5, b6, b7, b8, b9, b10, b11, b12, b13, b14, b15] 6 8
      = [b6, b7] ∧
    slice [b0, b1, b2, b3, b4, b5, b6, b7, b8, b9, b10, b11, b12, b13, b14, b15] 8 10
      = [b8, b9] ∧
    slice [b0, b1, b2, b3, b4, b5, b6, b7, b8, b9, b10, b11, b12, b13, b14, b15] 10 16
      = [b10, b11, b12, b13, b14, b15] :=
  ⟨rfl, rfl, rfl, rfl, rfl⟩

theorem uuidText_eq (b0 b1 b2 b3 b4 b5 b6 b7 b8 b9 b10 b11 b12 b13 b14 b15 : Nat) :
    uuidText [b0, b1, b2, b3, b4, b5, b6, b7, b8, b9, b10, b11, b12, b13, b14, b15] =
      [hexDigit (b0 / 16), hexDigit (b0 % 16), hexDigit (b1 / 16), hexDigit (b1 % 16),
        hexDigit (b2 / 16), hexDigit (b2 % 16), hexDigit (b3 / 16), hexDigit (b3 % 16), 45,
        hexDigit (b4 / 16), hexDigit (b4 % 16), hexDigit (b5 / 16), hexDigit (b5 % 16), 45,
        hexDigit (b6 / 16), hexDigit (b6 % 16), hexDigit (b7 / 16), hexDigit (b7 % 16), 45,
        hexDigit (b8 / 16), hexDigit (b8 % 16), hexDigit (b9 / 16), hexDigit (b9 % 16), 45,
        hexDigit (b10 / 16), hexDigit (b10 % 16), hexDigit (b11 / 16), hexDigit (b11 % 16),
        hexDigit (b12 / 16), hexDigit (b12 % 16), hexDigit (b13 / 16), hexDigit (b13 % 16),
        hexDigit (b14 / 16), hexDigit (b14 % 16), hexDigit (b15 / 16), hexDigit (b15 % 16)] := by
  obtain ⟨s1, s2, s3, s4, s5⟩ := uuid_slices b0 b1 b2 b3 b4 b5 b6 b7 b8 b9 b10 b11 b12 b13 b14 b15
  unfold uuidText
  simp only [s1, s2, s3, s4, s5, hexText, hexPair, List.flatMap_cons, List.flatMap_nil,
    List.cons_append, List.nil_append, List.append_nil]

theorem encodeHex_eq (id : List Nat) (hl : id.length = 16) (hb : ∀ b ∈ id, b < 256) :
    encodeHex (List.replicate 36 0) id = uuidText id := by
  obtain ⟨b0, b1, b2, b3, b4, b5, b6, b7, b8, b9, b10, b11, b12, b13, b14, b15, rfl⟩ :=
    length_sixteen id hl
  obtain ⟨s1, s2, s3, s4, s5⟩ := uuid_slices b0 b1 b2 b3 b4 b5 b6 b7 b8 b9 b10 b11 b12 b13 b14 b15
  rw [uuidText_eq]
  unfold encodeHex
  simp only [s1, s2, s3, s4, s5]
  simp only [hexEncode, hexEncodeLoop, Nat.reduceAdd, Nat.zero_add]
  simp only [List.replicate, List.set_cons_zero, List.set_cons_succ, Nat.reduceAdd,
    Nat.reduceSub, Nat.reduceEqDiff]
  rw [hextable_high b0 (hb b0 (by simp)), hextable_low b0 (hb b0 (by simp)),
    hextable_high b1 (hb b1 (by simp)), hextable_low b1 (hb b1 (by simp)),
    hextable_high b2 (hb b2 (by simp)), hextable_low b2 (hb b2 (by simp)),
    hextable_high b3 (hb b3 (by simp)), hextable_low b3 (hb b3 (by simp)),
    hextable_high b4 (hb b4 (by simp)), hextable_low b4 (hb b4 (by simp)),
    hextable_high b5 (hb b5 (by simp)), hextable_low b5 (hb b5 (by simp)),
    hextable_high b6 (hb b6 (by simp)), hextable_low b6 (hb b6 (by simp)),
    hextable_high b7 (hb b7 (by simp)), hextable_low b7 (hb b7 (by simp)),
    hextable_high b8 (hb b8 (by simp)), hextable_low b8 (hb b8 (by simp)),
    hextable_high b9 (hb b9 (by simp)), hextable_low b9 (hb b9 (by simp)),
    hextable_high b10 (hb b10 (by simp)), hextable_low b10 (hb b10 (by simp)),
    hextable_high b11 (hb b11 (by simp)), hextable_low b11 (hb b11 (by simp)),
    hextable_high b12 (hb b12 (by simp)), hextable_low b12 (hb b12 (by simp)),
    hextable_high b13 (hb b13 (by simp)), hextable_low b13 (hb b13 (by simp)),
    hextable_high b14 (hb b14 (by simp)), hextable_low b14 (hb b14 (by simp)),
    hextable_high b15 (hb b15 (by simp)), hextable_low b15 (hb b15 (by simp))]

theorem readUUID_uuidText (id : List Nat) (hl : id.length = 16) (hb : ∀ b ∈ id, b < 256) :
    readUUID (uuidText id) = id := by
  obtain ⟨b0, b1, b2, b3, b4, b5, b6, b7, b8, b9, b10, b11, b12, b13, b14, b15, rfl⟩ :=
    length_sixteen id hl
  have hd : ∀ n, n < 16 → (decide (hexDigit n ≠ 45)) = true := fun n hn => by
    simpa using (hexDigit_lower n hn).2.1
  have hq : ∀ b, b < 256 → b / 16 < 16 ∧ b % 16 < 16 := fun b h => by omega
  rw [uuidText_eq]
  unfold readUUID
  have e45 : (decide ((45 : Nat) ≠ 45)) = false := by decide
  simp only [List.filter_cons, e45,
    hd _ (hq b0 (hb b0 (by simp))).1, hd _ (hq b0 (hb b0 (by simp))).2,
    hd _ (hq b1 (hb b1 (by simp))).1, hd _ (hq b1 (hb b1 (by simp))).2,
    hd _ (hq b2 (hb b2 (by simp))).1, hd _ (hq b2 (hb b2 (by simp))).2,
    hd _ (hq b3 (hb b3 (by simp))).1, hd _ (hq b3 (hb b3 (by simp))).2,
    hd _ (hq b4 (hb b4 (by simp))).1, hd _ (hq b4 (hb b4 (by simp))).2,
    hd _ (hq b5 (hb b5 (by simp))).1, hd _ (hq b5 (hb b5 (by simp))).2,
    hd _ (hq b6 (hb b6 (by simp))).1, hd _ (hq b6 (hb b6 (by simp))).2,
    hd _ (hq b7 (hb b7 (by simp))).1, hd _ (hq b7 (hb b7 (by simp))).2,
    hd _ (hq b8 (hb b8 (by simp))).1, hd _ (hq b8 (hb b8 (by simp))).2,
    hd _ (hq b9 (hb b9 (by simp))).1, hd _ (hq b9 (hb b9 (by simp))).2,
    hd _ (hq b10 (hb b10 (by simp))).1, hd _ (hq b10 (hb b10 (by simp))).2,
    hd _ (hq b11 (hb b11 (by simp))).1, hd _ (hq b11 (hb b11 (by simp))).2,
    hd _ (hq b12 (hb b12 (by simp))).1, hd _ (hq b12 (hb b12 (by simp))).2,
    hd _ (hq b13 (hb b13 (by simp))).1, hd _ (hq b13 (hb b13 (by simp))).2,
    hd _ (hq b14 (hb b14 (by simp))).1, hd _ (hq b14 (hb b14 (by simp))).2,
    hd _ (hq b15 (hb b15 (by simp))).1, hd _ (hq b15 (hb b15 (by simp))).2,
    if_true, List.filter_nil, readHex, Bool.false_eq_true, if_false,
    hexPair_read _ (hb b0 (by simp)), hexPair_read _ (hb b1 (by simp)),
    hexPair_read _ (hb b2 (by simp)), hexPair_read _ (hb b3 (by simp)),
    hexPair_read _ (hb b4 (by simp)), hexPair_read _ (hb b5 (by simp)),
    hexPair_read _ (hb b6 (by simp)), hexPair_read _ (hb b7 (by simp)),
    hexPair_read _ (hb b8 (by simp)), hexPair_read _ (hb b9 (by simp)),
    hexPair_read _ (hb b10 (by simp)), hexPair_read _ (hb b11 (by simp)),
    hexPair_read _ (hb b12 (by simp)), hexPair_read _ (hb b13 (by simp)),
    hexPair_read _ (hb b14 (by simp)), hexPair_read _ (hb b15 (by simp))]


theorem writeUUID_mk (d : List Nat) (c : Nat) (id : List Nat) (hl : id.length = 16)
    (hb : ∀ b ∈ id, b < 256) :
    writeUUID ⟨d, [], c⟩ id =
      (⟨d ++ [TagGUID, TagOpenbrace] ++ uuidText id ++ [TagClosebrace], [], c + 4⟩, none) := by
  unfold writeUUID
  simp only [WriteByte_mk, Write_mk, encodeHex_eq id hl hb, List.append_assoc, List.cons_append,
    List.nil_append]

theorem uuidText_layout (id : List Nat) (hl : id.length = 16) (hb : ∀ b ∈ id, b < 256) :
    (uuidText id).length = 36 ∧
    ∀ n < 36, (n = 8 ∨ n = 13 ∨ n = 18 ∨ n = 23 → (uuidText id).getD n 0 = 45) ∧
      (¬ (n = 8 ∨ n = 13 ∨ n = 18 ∨ n = 23) → isLowerHex ((uuidText id).getD n 0)) := by
  obtain ⟨b0, b1, b2, b3, b4, b5, b6, b7, b8, b9, b10, b11, b12, b13, b14, b15, rfl⟩ :=
    length_sixteen id hl
  have hh : ∀ b, b < 256 → isLowerHex (hexDigit (b / 16)) := fun b h =>
    (hexDigit_lower (b / 16) (by omega)).1
  have hm : ∀ b, b < 256 → isLowerHex (hexDigit (b % 16)) := fun b h =>
    (hexDigit_lower (b % 16) (by omega)).1
  rw [uuidText_eq]
  refine ⟨rfl, fun n hn => ?_⟩
  interval_cases n <;> refine ⟨fun h => ?_, fun h => ?_⟩ <;>
    first
      | (exfalso; omega)
      | rfl
      | exact hh _ (hb _ (by simp))
      | exact hm _ (hb _ (by simp))

/-! ## Reference slots of complex slices -/

theorem forRange_nil {σ β : Type} (f : σ → β → σ × Option GoError) (w : σ) :
    forRange f w [] = (w, none) := rfl

theorem forRange_append {σ β : Type} (f : σ → β → σ × Option GoError) (xs ys : List β) :
    ∀ w : σ, forRange f w (xs ++ ys) = match forRange f w xs with
      | (w, none) => forRange f w ys
      | r => r := by
  induction xs with
  | nil => intro w; rfl
  | cons x t ih =>
    intro w
    rw [List.cons_append, forRange_cons, forRange_cons]
    rcases h : f w x with ⟨w2, _ | e⟩
    · exact ih w2
    · rfl

theorem writeComplex_mk {α : Type} (ext : Externals α) (r i : Float64) (b : Nat) :
    ∃ (X : List Nat) (k : Nat), ∀ (d : List Nat) (c rc : Nat),
      writeComplex ext ⟨⟨d, [], c⟩, rc⟩ r i b =
        (⟨⟨d ++ X, [], c + k⟩, rc + (if i.isZero then 0 else 1)⟩, none) := by
  obtain ⟨k1, h1⟩ := framed_writeFloat ext r b
  obtain ⟨k2, h2⟩ := framed_writeFloat ext i b
  have g1 : ∀ (d : List Nat) (c : Nat), writeFloat ext ⟨d, [], c⟩ r b =
      (⟨d ++ emitted (fun w => writeFloat ext w r b), [], c + k1⟩, none) := h1
  have g2 : ∀ (d : List Nat) (c : Nat), writeFloat ext ⟨d, [], c⟩ i b =
      (⟨d ++ emitted (fun w => writeFloat ext w i b), [], c + k2⟩, none) := h2
  by_cases hz : i.isZero = true
  · refine ⟨emitted (fun w => writeFloat ext w r b), k1, fun d c rc => ?_⟩
    unfold writeComplex
    simp only [hz, if_true, Encoder.onWriter, g1, Nat.add_zero]
  · refine ⟨[TagList] ++ decimal 2 ++ [TagOpenbrace] ++ emitted (fun w => writeFloat ext w r b)
      ++ emitted (fun w => writeFloat ext w i b) ++ [TagClosebrace], 3 + k1 + k2 + 1,
      fun d c rc => ?_⟩
    unfold writeComplex
    simp only [Encoder.onWriter, Encoder.AddReferenceCount]
    rw [if_neg hz, if_neg hz, WriteHead_pos d c 2 TagList (by decide) (by decide)]
    simp only [g1, g2, WriteFoot, WriteByte_mk, show (2 : Int).toNat = 2 from rfl]
    simp only [List.append_assoc, Nat.add_assoc]

theorem complexBody_mk {α : Type} (ext : Externals α) (xs : List (Float64 × Float64)) :
    ∃ (X : List Nat) (k : Nat), ∀ (d : List Nat) (c rc : Nat),
      forRange (WriteComplex128 ext) ⟨⟨d, [], c⟩, rc⟩ xs =
        (⟨⟨d ++ X, [], c + k⟩, rc + nonRealCount xs⟩, none) := by
  induction xs with
  | nil => exact ⟨[], 0, fun d c rc => by simp [forRange_nil, nonRealCount]⟩
  | cons x t ih =>
    obtain ⟨X1, k1, h1⟩ := writeComplex_mk ext x.1 x.2 64
    obtain ⟨X2, k2, h2⟩ := ih
    refine ⟨X1 ++ X2, k1 + k2, fun d c rc => ?_⟩
    have e : WriteComplex128 ext ⟨⟨d, [], c⟩, rc⟩ x
        = (⟨⟨d ++ X1, [], c + k1⟩, rc + (if x.2.isZero then 0 else 1)⟩, none) := h1 d c rc
    rw [forRange_cons, e]
    simp only [h2]
    by_cases hz : x.2.isZero = true
    · simp [nonRealCount, List.filter_cons, hz, Nat.add_assoc]
    · simp [nonRealCount, List.filter_cons, hz, Nat.add_assoc, Nat.add_comm 1]

/-! ## Width and signedness of the integer writers -/

theorem WriteInt32_eq (w : Writer) (v : Int) (h1 : MinInt32 ≤ v) (h2 : v ≤ MaxInt32) :
    WriteInt32 w v = WriteInt64 w v := by
  unfold WriteInt32 WriteInt64
  by_cases h : v ≥ 0 ∧ v ≤ 9
  · rw [if_pos h, if_pos h]
  · rw [if_neg h, if_neg h]
    simp only [if_neg (show ¬ (v < MinInt32 ∨ v > MaxInt32) by omega)]

theorem WriteUint16_eq (w : Writer) (u : Nat) (h : (u : Int) ≤ MaxInt32) :
    WriteUint16 w u = WriteUint64 w u := by
  unfold WriteUint16 WriteUint64
  by_cases h9 : u ≥ 0 ∧ u ≤ 9
  · rw [if_pos h9, if_pos h9]
  · rw [if_neg h9, if_neg h9]
    simp only [if_neg (show ¬ ((u : Int) > MaxInt32) by omega)]

theorem WriteUint64_eq (w : Writer) (u : Nat) (h : (u : Int) ≤ MaxInt64) :
    WriteUint64 w u = WriteInt64 w (u : Int) := by
  have hu : uint64 (u : Int) = u := by
    unfold uint64
    unfold MaxInt64 at h
    omega
  unfold WriteUint64 WriteInt64
  by_cases h9 : u ≥ 0 ∧ u ≤ 9
  · rw [if_pos h9, if_pos (show (u : Int) ≥ 0 ∧ (u : Int) ≤ 9 by omega), Int.toNat_ofNat]
  · rw [if_neg h9, if_neg (show ¬ ((u : Int) ≥ 0 ∧ (u : Int) ≤ 9) by omega)]
    have ht : (if (u : Int) < MinInt32 ∨ (u : Int) > MaxInt32 then TagLong else TagInteger)
        = (if (u : Int) > MaxInt32 then TagLong else TagInteger) := by
      by_cases hm : (u : Int) > MaxInt32
      · rw [if_pos (Or.inr hm), if_pos hm]
      · rw [if_neg hm, if_neg (by unfold MinInt32; omega)]
    have hw : ∀ w2 : Writer, writeInt64 w2 (u : Int) = writeUint64 w2 u := by
      intro w2
      rw [writeInt64, if_pos (by omega), hu]
    simp only [ht, hw]

/-! ## The integer encoding is a prefix code -/

theorem int64Wire_eq (v : Int) (h1 : MinInt64 ≤ v) (h2 : v ≤ MaxInt64) :
    int64Wire v = if 0 ≤ v ∧ v ≤ 9 then [48 + v.toNat]
      else (if MinInt32 ≤ v ∧ v ≤ MaxInt32 then TagInteger else TagLong)
        :: (signedDecimal v ++ [TagSemicolon]) := by
  show (WriteInt64 ⟨[], [], 0⟩ v).1.data = _
  by_cases h : 0 ≤ v ∧ v ≤ 9
  · have e : WriteInt64 ⟨[], [], 0⟩ v = (Writer.mk [] [] 0).WriteByte (byteAt digits v.toNat) := by
      unfold WriteInt64
      rw [if_pos (show v ≥ 0 ∧ v ≤ 9 from h)]
    rw [if_pos h, e, digit_mk [] 0 v.toNat (by omega)]
    rfl
  · rw [if_neg h, WriteInt64_mk [] 0 v h1 h2 h]
    simp only [List.nil_append, List.cons_append, List.append_assoc]

theorem signedDecimal_inj (a b : Int) (h : signedDecimal a = signedDecimal b) : a = b := by
  have ha := BigIntSetString_signedDecimal a
  rw [h, BigIntSetString_signedDecimal b] at ha
  exact (Option.some.inj ha).symm

theorem text_until (x y t : List Nat) (hx : ∀ b ∈ x, b ≠ TagSemicolon)
    (hy : ∀ b ∈ y, b ≠ TagSemicolon)
    (h : (x ++ [TagSemicolon]) ++ t = y ++ [TagSemicolon]) : x = y := by
  have e1 := (takeWhile_until x t TagSemicolon hx).1
  have e2 := (takeWhile_until y [] TagSemicolon hy).1
  have h2 : x ++ TagSemicolon :: t = y ++ [TagSemicolon] := by
    rw [← h]
    simp
  rw [h2, e2] at e1
  exact e1.symm

theorem signedDecimal_noSemicolon (v : Int) : ∀ b ∈ signedDecimal v, b ≠ TagSemicolon := by
  intro b hb
  have := signedDecimal_bytes v b hb
  unfold TagSemicolon
  omega

theorem int64Wire_initial (a b : Int) (ha1 : MinInt64 ≤ a) (ha2 : a ≤ MaxInt64)
    (hb1 : MinInt64 ≤ b) (hb2 : b ≤ MaxInt64) (h : int64Wire a <+: int64Wire b) : a = b := by
  obtain ⟨t, ht⟩ := h
  rw [int64Wire_eq a ha1 ha2, int64Wire_eq b hb1 hb2] at ht
  have tagA : (if MinInt32 ≤ a ∧ a ≤ MaxInt32 then TagInteger else TagLong) = 105 ∨
      (if MinInt32 ≤ a ∧ a ≤ MaxInt32 then TagInteger else TagLong) = 108 := by
    split
    · exact Or.inl rfl
    · exact Or.inr rfl
  have tagB : (if MinInt32 ≤ b ∧ b ≤ MaxInt32 then TagInteger else TagLong) = 105 ∨
      (if MinInt32 ≤ b ∧ b ≤ MaxInt32 then TagInteger else TagLong) = 108 := by
    split
    · exact Or.inl rfl
    · exact Or.inr rfl
  by_cases hda : 0 ≤ a ∧ a ≤ 9
  · by_cases hdb : 0 ≤ b ∧ b ≤ 9
    · rw [if_pos hda, if_pos hdb] at ht
      have := (List.cons.inj ht).1
      omega
    · rw [if_pos hda, if_neg hdb] at ht
      have := (List.cons.inj ht).1
      omega
  · by_cases hdb : 0 ≤ b ∧ b ≤ 9
    · rw [if_neg hda, if_pos hdb] at ht
      have := (List.cons.inj ht).1
      omega
    · rw [if_neg hda, if_neg hdb] at ht
      have h2 := (List.cons.inj ht).2
      exact signedDecimal_inj a b (text_until _ _ t (signedDecimal_noSemicolon a)
        (signedDecimal_noSemicolon b) h2)

theorem int64Wire_ne_nil (a : Int) (ha1 : MinInt64 ≤ a) (ha2 : a ≤ MaxInt64) :
    int64Wire a ≠ [] := by
  rw [int64Wire_eq a ha1 ha2]
  split <;> simp

theorem int64Wire_unique (xs : List Int) : ∀ ys : List Int,
    (∀ x ∈ xs, MinInt64 ≤ x ∧ x ≤ MaxInt64) → (∀ y ∈ ys, MinInt64 ≤ y ∧ y ≤ MaxInt64) →
    xs.flatMap int64Wire = ys.flatMap int64Wire → xs = ys := by
  induction xs with
  | nil =>
    intro ys _ hy h
    cases ys with
    | nil => rfl
    | cons y t =>
      exfalso
      rw [List.flatMap_nil, List.flatMap_cons] at h
      have := List.append_eq_nil.mp h.symm
      exact int64Wire_ne_nil y (hy y (by simp)).1 (hy y (by simp)).2 this.1
  | cons x s ih =>
    intro ys hx hy h
    cases ys with
    | nil =>
      exfalso
      rw [List.flatMap_nil, List.flatMap_cons] at h
      have := List.append_eq_nil.mp h
      exact int64Wire_ne_nil x (hx x (by simp)).1 (hx x (by simp)).2 this.1
    | cons y t =>
      rw [List.flatMap_cons, List.flatMap_cons] at h
      have hxr := hx x (by simp)
      have hyr := hy y (by simp)
      have e : x = y := by
        rcases List.append_eq_append_iff.mp h with ⟨m, h1, _⟩ | ⟨m, h1, _⟩
        · exact int64Wire_initial x y hxr.1 hxr.2 hyr.1 hyr.2 ⟨m, h1.symm⟩
        · exact (int64Wire_initial y x hyr.1 hyr.2 hxr.1 hxr.2 ⟨m, h1.symm⟩).symm
      subst e
      rw [ih t (fun a ha => hx a (by simp [ha])) (fun a ha => hy a (by simp [ha]))
        (List.append_cancel_left h)]

theorem int64Body_wire (xs : List Int) :
    (writeInt64SliceBody (Writer.reliable []) xs).1.data = xs.flatMap int64Wire := by
  obtain ⟨k, hk⟩ := forRange_framed WriteInt64 framed_WriteInt64 xs
  unfold writeInt64SliceBody Writer.reliable
  rw [hk]
  rfl

/-! ## The value of `utf16Length` -/

theorem unitScan_append_value (u rest : List Nat) (hu : isUnit u) :
    unitScan (u ++ rest) = (unitScan rest).map (fun k => k + (if u.length = 4 then 2 else 1)) := by
  match u, hu with
  | [a], hu =>
    simp only [isUnit] at hu
    rw [List.singleton_append, unitScan_cons, if_pos hu]
    rfl
  | [a, b], hu =>
    simp only [isUnit] at hu
    show unitScan (a :: b :: rest) = _
    rw [unitScan_cons, if_neg (by omega), if_pos ⟨hu.1, hu.2.1⟩]
    simp only [if_pos hu.2.2]
    rfl
  | [a, b, c], hu =>
    simp only [isUnit] at hu
    show unitScan (a :: b :: c :: rest) = _
    rw [unitScan_cons, if_neg (by omega), if_neg (by omega), if_pos ⟨hu.1, hu.2.1⟩]
    simp only [if_pos hu.2.2]
    rfl
  | [a, b, c, d], hu =>
    simp only [isUnit] at hu
    show unitScan (a :: b :: c :: d :: rest) = _
    rw [unitScan_cons, if_neg (by omega), if_neg (by omega), if_neg (by omega),
      if_pos ⟨hu.1, hu.2.1⟩]
    simp only [if_pos hu.2.2]
    rfl

theorem isUnit_length (u : List Nat) (hu : isUnit u) : 1 ≤ u.length ∧ u.length ≤ 4 := by
  match u, hu with
  | [_], _ => exact ⟨by simp, by simp⟩
  | [_, _], _ => exact ⟨by simp, by simp⟩
  | [_, _, _], _ => exact ⟨by simp, by simp⟩
  | [_, _, _, _], _ => exact ⟨by simp, by simp⟩

theorem units_scan_value (us : List (List Nat)) (h : ∀ u ∈ us, isUnit u) :
    unitScan us.flatten = some (us.length + (us.filter (fun u => u.length = 4)).length) ∧
    us.length + (us.filter (fun u => u.length = 4)).length ≤ us.flatten.length := by
  induction us with
  | nil => exact ⟨rfl, by simp⟩
  | cons u t ih =>
    obtain ⟨ih1, ih2⟩ := ih (fun v hv => h v (by simp [hv]))
    have hu := h u (by simp)
    have hlen := isUnit_length u hu
    rw [List.flatten_cons, unitScan_append_value u _ hu, ih1]
    by_cases h4 : u.length = 4
    · simp only [h4, if_true, Option.map_some', List.length_cons, List.filter_cons,
        decide_True, List.length_append]
      exact ⟨by congr 1; omega, by omega⟩
    · simp only [h4, if_false, Option.map_some', List.length_cons, List.filter_cons,
        decide_False, List.length_append, Bool.false_eq_true]
      exact ⟨by congr 1; omega, by omega⟩

theorem unitScan_ascii (s : List Nat) (h : ∀ b ∈ s, b ≤ 0x7F) : unitScan s = some s.length := by
  induction s with
  | nil => rfl
  | cons a t ih =>
    rw [unitScan_cons, if_pos (h a (by simp)), ih (fun b hb => h b (by simp [hb]))]
    rfl

/-- Claim C21: for every sink, whatever calls it lets fail, and every `[]int64` slice
`xs`: if the call number `j` that `WriteSlice` makes to the sink is the first one to
fail, with the error `e` and `k` bytes accepted, then `WriteSlice` returns `e`, makes no
call to the sink after that one (`j + 1` calls in all), and the bytes the sink holds are
what it held before followed by a prefix of what the same call writes on a sink that
never fails; if no call fails, it returns no error and writes all of it. -/
theorem WriteSlice_first_error {α : Type} (ext : Externals α) (enc : Encoder) (xs : List Int) :
    (∀ (j k : Nat) (e : GoError),
      j < (WriteSlice ext ⟨Writer.reliable [], enc.refCount⟩
        (SliceValue.int64s xs)).1.Writer.calls →
      enc.Writer.script.get? j = some (some (k, e)) →
      (∀ i < j, enc.Writer.script.get? i = some none) →
      (WriteSlice ext enc (SliceValue.int64s xs)).2 = some e ∧
      (WriteSlice ext enc (SliceValue.int64s xs)).1.Writer.calls = enc.Writer.calls + (j + 1) ∧
      (WriteSlice ext enc (SliceValue.int64s xs)).1.Writer.script
        = enc.Writer.script.drop (j + 1) ∧
      ∃ out : List Nat,
        (WriteSlice ext enc (SliceValue.int64s xs)).1.Writer.data = enc.Writer.data ++ out ∧
        out <+: (WriteSlice ext ⟨Writer.reliable [], enc.refCount⟩
          (SliceValue.int64s xs)).1.Writer.data) ∧
    ((∀ i < (WriteSlice ext ⟨Writer.reliable [], enc.refCount⟩
        (SliceValue.int64s xs)).1.Writer.calls,
        ∀ (k : Nat) (e : GoError), enc.Writer.script.get? i ≠ some (some (k, e))) →
      (WriteSlice ext enc (SliceValue.int64s xs)).2 = none ∧
      (WriteSlice ext enc (SliceValue.int64s xs)).1.Writer.data
        = enc.Writer.data ++ (WriteSlice ext ⟨Writer.reliable [], enc.refCount⟩
          (SliceValue.int64s xs)).1.Writer.data) ∧
    (WriteSlice ext ⟨Writer.reliable [], enc.refCount⟩ (SliceValue.int64s xs)).2 = none := by
  obtain ⟨cs, hcs⟩ := chunked_WriteSlice_int64 ext xs
  have hrel : writeChunks (Writer.reliable []) cs = (⟨cs.flatten, [], cs.length⟩, none) := by
    rw [writeChunks_ok cs _ (fun i _ k e => by simp [Writer.reliable])]
    simp [Writer.reliable]
  have hr : WriteSlice ext ⟨Writer.reliable [], enc.refCount⟩ (SliceValue.int64s xs)
      = (⟨⟨cs.flatten, [], cs.length⟩, enc.refCount + 1⟩, none) := by
    rw [hcs]
    simp only [hrel]
  rw [hr]
  refine ⟨?_, ?_, rfl⟩
  · intro j k e hj hs hfirst
    rw [hcs enc, writeChunks_fail cs enc.Writer j k e hj hs hfirst]
    refine ⟨rfl, rfl, rfl, (cs.take j).flatten ++ (cs.getD j []).take k, ?_, chunk_initial cs j k hj⟩
    simp only [List.append_assoc]
  · intro h
    rw [hcs enc, writeChunks_ok cs enc.Writer h]
    exact ⟨rfl, rfl⟩

/-- Witness of C21 at the slice `[1, 23]` on a sink whose sixth call, the one with the
text `23`, fails after one byte. -/
theorem WriteSlice_first_error_witness :
    (5 < (WriteSlice idleEncoders ⟨Writer.reliable [],
        (Encoder.mk ⟨[], [none, none, none, none, none, some (1, ⟨7⟩)], 0⟩ 0).refCount⟩
        (SliceValue.int64s [1, 23])).1.Writer.calls) ∧
    (Encoder.mk ⟨[], [none, none, none, none, none, some (1, ⟨7⟩)], 0⟩ 0).Writer.script.get? 5
      = some (some (1, ⟨7⟩)) ∧
    (∀ i < 5, (Encoder.mk ⟨[], [none, none, none, none, none, some (1, ⟨7⟩)], 0⟩
      0).Writer.script.get? i = some none) ∧
    (WriteSlice idleEncoders (Encoder.mk ⟨[], [none, none, none, none, none, some (1, ⟨7⟩)], 0⟩ 0)
      (SliceValue.int64s [1, 23])).2 = some ⟨7⟩ :=
  ⟨by decide, by decide, by decide,
    ((WriteSlice_first_error idleEncoders
      (Encoder.mk ⟨[], [none, none, none, none, none, some (1, ⟨7⟩)], 0⟩ 0) [1, 23]).1 5 1 ⟨7⟩
      (by decide) (by decide) (by decide)).1⟩

/-- Counterexample to C22: for the id of sixteen zero bytes `writeUUID` writes `g`, the
open brace, the 36 characters `00000000-0000-0000-0000-000000000000` and the close brace,
which are 39 bytes and not 38. -/
theorem writeUUID_not_38 :
    (writeUUID (Writer.reliable []) (List.replicate 16 0)).1.data
      = stringBytes "g" ++ [TagOpenbrace] ++ stringBytes "00000000-0000-0000-0000-000000000000"
        ++ [TagClosebrace] ∧
    (writeUUID (Writer.reliable []) (List.replicate 16 0)).1.data.length = 39 ∧
    (writeUUID (Writer.reliable []) (List.replicate 16 0)).1.data.length ≠ 38 ∧
    (writeUUID (Writer.reliable []) (List.replicate 16 0)).2 = none := by
  decide

/-- Claim C22, amended: for every 16-byte id, `writeUUID` writes on a sink that never
fails exactly 39 bytes: `g`, open brace, 36 characters and close brace. The 36 characters
are the lowercase two-digit hexadecimal text of `id[0..4]`, `id[4..6]`, `id[6..8]`,
`id[8..10]` and `id[10..16]` in this order, joined by `-`, which stands at the positions
8, 13, 18 and 23, every other position holding a digit `0..9` or `a..f`. The id can be
read back from the text, so that two ids with the same output are equal. -/
theorem writeUUID_text (w : Writer) (hw : w.script = []) (id : List Nat) (hl : id.length = 16)
    (hb : ∀ b ∈ id, b < 256) :
    writeUUID w id =
      (⟨w.data ++ ['g'.toNat, TagOpenbrace] ++ uuidText id ++ [TagClosebrace], [],
        w.calls + 4⟩, none) ∧
    (writeUUID w id).1.data.length = w.data.length + 39 ∧
    (uuidText id).length = 36 ∧
    (∀ n < 36, (n = 8 ∨ n = 13 ∨ n = 18 ∨ n = 23 → (uuidText id).getD n 0 = '-'.toNat) ∧
      (¬ (n = 8 ∨ n = 13 ∨ n = 18 ∨ n = 23) → isLowerHex ((uuidText id).getD n 0))) ∧
    readUUID (uuidText id) = id ∧
    ∀ id2 : List Nat, id2.length = 16 → (∀ b ∈ id2, b < 256) →
      (writeUUID w id2).1.data = (writeUUID w id).1.data → id2 = id := by
  obtain ⟨d, sc, c⟩ := w
  simp only at hw
  subst hw
  obtain ⟨h36, hpos⟩ := uuidText_layout id hl hb
  refine ⟨writeUUID_mk d c id hl hb, ?_, h36, hpos, readUUID_uuidText id hl hb, ?_⟩
  · rw [writeUUID_mk d c id hl hb]
    simp [h36]
  · intro id2 hl2 hb2 h
    rw [writeUUID_mk d c id hl hb, writeUUID_mk d c id2 hl2 hb2] at h
    have h1 : d ++ [TagGUID, TagOpenbrace] ++ uuidText id2 ++ [TagClosebrace]
        = d ++ [TagGUID, TagOpenbrace] ++ uuidText id ++ [TagClosebrace] := h
    have h2 := List.append_cancel_left (List.append_cancel_right h1)
    rw [← readUUID_uuidText id hl hb, ← readUUID_uuidText id2 hl2 hb2, h2]

/-- Witness of the amended C22 at the id `123e4567-e89b-12d3-a456-426614174000`. -/
theorem writeUUID_text_witness :
    (Writer.reliable []).script = [] ∧
    [0x12, 0x3e, 0x45, 0x67, 0xe8, 0x9b, 0x12, 0xd3, 0xa4, 0x56, 0x42, 0x66, 0x14, 0x17, 0x40,
      0x00].length = 16 ∧
    (∀ b ∈ [0x12, 0x3e, 0x45, 0x67, 0xe8, 0x9b, 0x12, 0xd3, 0xa4, 0x56, 0x42, 0x66, 0x14, 0x17,
      0x40, 0x00], b < 256) ∧
    uuidText [0x12, 0x3e, 0x45, 0x67, 0xe8, 0x9b, 0x12, 0xd3, 0xa4, 0x56, 0x42, 0x66, 0x14, 0x17,
      0x40, 0x00] = stringBytes "123e4567-e89b-12d3-a456-426614174000" ∧
    writeUUID (Writer.reliable []) [0x12, 0x3e, 0x45, 0x67, 0xe8, 0x9b, 0x12, 0xd3, 0xa4, 0x56,
        0x42, 0x66, 0x14, 0x17, 0x40, 0x00] =
      (⟨(Writer.reliable []).data ++ ['g'.toNat, TagOpenbrace]
        ++ uuidText [0x12, 0x3e, 0x45, 0x67, 0xe8, 0x9b, 0x12, 0xd3, 0xa4, 0x56, 0x42, 0x66,
          0x14, 0x17, 0x40, 0x00] ++ [TagClosebrace], [], (Writer.reliable []).calls + 4⟩,
        none) :=
  ⟨rfl, rfl, by decide, by decide,
    (writeUUID_text (Writer.reliable []) rfl [0x12, 0x3e, 0x45, 0x67, 0xe8, 0x9b, 0x12, 0xd3,
      0xa4, 0x56, 0x42, 0x66, 0x14, 0x17, 0x40, 0x00] rfl (by decide)).1⟩

/-- Claim C23: for every `[]complex128` slice `xs` written by `WriteSlice` on a sink that
never fails, the reference count of the encoder increases by exactly `1 + k`, where `k`
is the number of elements with a non-zero imaginary part. The slot of the slice is taken
by `AddReferenceCount(1)` before `writeSlice` writes anything; the body then takes the
slots in index order: after the first `n` elements the count has grown by the number of
such elements among them, each element adding exactly 1 when its imaginary part is not
zero and nothing when it is zero. -/
theorem complexSlice_refCount {α : Type} (ext : Externals α) (enc : Encoder)
    (hw : enc.Writer.script = []) (xs : List (Float64 × Float64))
    (hl : (xs.length : Int) ≤ MaxInt64) :
    (WriteSlice ext enc (SliceValue.complex128s xs)).2 = none ∧
    (WriteSlice ext enc (SliceValue.complex128s xs)).1.refCount
      = enc.refCount + 1 + nonRealCount xs ∧
    (WriteSlice ext enc (SliceValue.complex128s xs)
        = writeSlice ext (enc.AddReferenceCount 1) (SliceValue.complex128s xs) ∧
      (enc.AddReferenceCount 1).refCount = enc.refCount + 1 ∧
      (enc.AddReferenceCount 1).Writer = enc.Writer) ∧
    (writeSlice ext enc (SliceValue.complex128s xs)).1.refCount
      = enc.refCount + nonRealCount xs ∧
    (∀ n : Nat,
      (writeComplex128SliceBody ext enc (xs.take n)).2 = none ∧
      (writeComplex128SliceBody ext enc (xs.take n)).1.refCount
        = enc.refCount + nonRealCount (xs.take n) ∧
      writeComplex128SliceBody ext enc xs
        = writeComplex128SliceBody ext (writeComplex128SliceBody ext enc (xs.take n)).1
            (xs.drop n)) ∧
    (∀ c : Float64 × Float64,
      (WriteComplex128 ext enc c).1.refCount
        = enc.refCount + (if c.2.isZero then 0 else 1)) := by
  obtain ⟨⟨d, sc, c⟩, rc⟩ := enc
  simp only at hw
  subst hw
  have hs : ∀ rc2 : Nat, (writeSlice ext ⟨⟨d, [], c⟩, rc2⟩ (SliceValue.complex128s xs)).2 = none ∧
      (writeSlice ext ⟨⟨d, [], c⟩, rc2⟩ (SliceValue.complex128s xs)).1.refCount
        = rc2 + nonRealCount xs := by
    intro rc2
    rw [writeSlice_nonbytes ext _ _ (fun _ h => by cases h)]
    by_cases h0 : xs.length = 0
    · rw [if_pos (show (SliceValue.complex128s xs : SliceValue α).len = 0 from h0)]
      have : xs = [] := List.length_eq_zero.mp h0
      subst this
      exact ⟨rfl, rfl⟩
    · rw [if_neg (show ¬ (SliceValue.complex128s xs : SliceValue α).len = 0 from h0)]
      obtain ⟨X, k, hX⟩ := complexBody_mk ext xs
      simp only [SliceValue.len]
      rw [WriteHead_pos d c _ TagList (by omega) hl]
      simp only [writeSliceBody, writeComplex128SliceBody, hX, Encoder.onWriter, WriteFoot,
        WriteByte_mk]
      exact ⟨trivial, trivial⟩
  refine ⟨(hs (rc + 1)).1, ?_, ⟨rfl, rfl, rfl⟩, (hs rc).2, ?_, ?_⟩
  · exact (hs (rc + 1)).2
  · intro n
    obtain ⟨X, k, hX⟩ := complexBody_mk ext (xs.take n)
    refine ⟨?_, ?_, ?_⟩
    · unfold writeComplex128SliceBody
      rw [hX]
    · unfold writeComplex128SliceBody
      rw [hX]
    · unfold writeComplex128SliceBody
      conv_lhs => rw [← List.take_append_drop n xs]
      rw [forRange_append, hX]
  · intro x
    obtain ⟨X, k, hX⟩ := writeComplex_mk ext x.1 x.2 64
    unfold WriteComplex128
    rw [hX]

/-- Witness of C23 at the slice `[1 + 0i, 1 + 1i, 0 + 1i]` on an empty sink. -/
theorem complexSlice_refCount_witness :
    (Encoder.mk (Writer.reliable []) 5).Writer.script = [] ∧
    ((([(⟨0x3FF0000000000000⟩, ⟨0⟩), (⟨0x3FF0000000000000⟩, ⟨0x3FF0000000000000⟩),
      (⟨0⟩, ⟨0x3FF0000000000000⟩)] : List (Float64 × Float64)).length : Nat) : Int) ≤ MaxInt64 ∧
    nonRealCount [(⟨0x3FF0000000000000⟩, ⟨0⟩), (⟨0x3FF0000000000000⟩, ⟨0x3FF0000000000000⟩),
      (⟨0⟩, ⟨0x3FF0000000000000⟩)] = 2 ∧
    (WriteSlice idleEncoders (Encoder.mk (Writer.reliable []) 5)
      (SliceValue.complex128s [(⟨0x3FF0000000000000⟩, ⟨0⟩),
        (⟨0x3FF0000000000000⟩, ⟨0x3FF0000000000000⟩), (⟨0⟩, ⟨0x3FF0000000000000⟩)])).1.refCount
      = (Encoder.mk (Writer.reliable []) 5).refCount + 1
        + nonRealCount [(⟨0x3FF0000000000000⟩, ⟨0⟩),
          (⟨0x3FF0000000000000⟩, ⟨0x3FF0000000000000⟩), (⟨0⟩, ⟨0x3FF0000000000000⟩)] :=
  ⟨rfl, by decide, by decide,
    (complexSlice_refCount idleEncoders (Encoder.mk (Writer.reliable []) 5) rfl
      [(⟨0x3FF0000000000000⟩, ⟨0⟩), (⟨0x3FF0000000000000⟩, ⟨0x3FF0000000000000⟩),
        (⟨0⟩, ⟨0x3FF0000000000000⟩)] (by decide)).2.1⟩

/-- Claim C24: the encoding of an integer depends on its value only, not on the width or
the signedness of the writer: on every sink, for every `int8`, `int16`, `int32` or `int`
value `v` the writer of that type does exactly what `WriteInt64` does for `v`; for every
`uint8`, `uint16`, `uint32` or `uint` value `u` the writer of that type does exactly what
`WriteUint64` does for `u`; and for every `uint64` value `u <= 9223372036854775807`,
`WriteUint64` does exactly what `WriteInt64` does for `u`; so the bytes written are the
same. -/
theorem width_independent (w : Writer) (v : Int) (u : Nat) :
    (-128 ≤ v ∧ v ≤ 127 → WriteInt8 w v = WriteInt64 w v) ∧
    (-32768 ≤ v ∧ v ≤ 32767 → WriteInt16 w v = WriteInt64 w v) ∧
    (MinInt32 ≤ v ∧ v ≤ MaxInt32 → WriteInt32 w v = WriteInt64 w v) ∧
    (MinInt64 ≤ v ∧ v ≤ MaxInt64 → WriteInt w v = WriteInt64 w v) ∧
    (u ≤ 255 → WriteUint8 w u = WriteUint64 w u) ∧
    (u ≤ 65535 → WriteUint16 w u = WriteUint64 w u) ∧
    (u ≤ 4294967295 → WriteUint32 w u = WriteUint64 w u) ∧
    (u ≤ MaxUint64 → WriteUint w u = WriteUint64 w u) ∧
    (u ≤ 9223372036854775807 → WriteUint64 w u = WriteInt64 w (u : Int) ∧
      (WriteUint64 w u).1.data = (WriteInt64 w (u : Int)).1.data) := by
  have m0 : MinInt32 = -2147483648 := rfl
  have m1 : MaxInt32 = 2147483647 := rfl
  have m2 : MaxInt64 = 9223372036854775807 := rfl
  refine ⟨fun h => ?_, fun h => ?_, fun h => ?_, fun _ => rfl, fun h => ?_, fun h => ?_,
    fun _ => rfl, fun _ => rfl, fun h => ?_⟩
  · exact WriteInt32_eq w v (by omega) (by omega)
  · exact WriteInt32_eq w v (by omega) (by omega)
  · exact WriteInt32_eq w v h.1 h.2
  · exact WriteUint16_eq w u (by omega)
  · exact WriteUint16_eq w u (by omega)
  · have e := WriteUint64_eq w u (by omega)
    exact ⟨e, by rw [e]⟩

/-- Witness of C24 at the `int8` value -128 on a sink whose third call fails. -/
theorem width_independent_witness :
    ((-128 : Int) ≤ -128 ∧ (-128 : Int) ≤ 127) ∧
    WriteInt8 ⟨[], [none, none, some (0, ⟨1⟩)], 0⟩ (-128)
      = WriteInt64 ⟨[], [none, none, some (0, ⟨1⟩)], 0⟩ (-128) :=
  ⟨by decide, (width_independent ⟨[], [none, none, some (0, ⟨1⟩)], 0⟩ (-128) 65535).1
    (by decide)⟩

/-- Claim C25: the integer encoding is prefix-free: for all `int64` values `a` and `b`
with `a != b`, the bytes `WriteInt64` writes for `a` are not a prefix of the bytes it
writes for `b`. So `WriteInt64` is injective, and the body of an integer slice, the
encodings of the elements one after the other with nothing in between, determines the
sequence of the elements. -/
theorem WriteInt64_uniquelyDecodable (a b : Int) (ha : MinInt64 ≤ a ∧ a ≤ MaxInt64)
    (hb : MinInt64 ≤ b ∧ b ≤ MaxInt64) (xs ys : List Int)
    (hx : ∀ x ∈ xs, MinInt64 ≤ x ∧ x ≤ MaxInt64) (hy : ∀ y ∈ ys, MinInt64 ≤ y ∧ y ≤ MaxInt64) :
    (a ≠ b → ¬ (WriteInt64 (Writer.reliable []) a).1.data
      <+: (WriteInt64 (Writer.reliable []) b).1.data) ∧
    ((WriteInt64 (Writer.reliable []) a).1.data = (WriteInt64 (Writer.reliable []) b).1.data
      → a = b) ∧
    (writeInt64SliceBody (Writer.reliable []) xs).1.data
      = xs.flatMap (fun x => (WriteInt64 (Writer.reliable []) x).1.data) ∧
    ((writeInt64SliceBody (Writer.reliable []) xs).1.data
      = (writeInt64SliceBody (Writer.reliable []) ys).1.data → xs = ys) := by
  refine ⟨fun hne hp => hne (int64Wire_initial a b ha.1 ha.2 hb.1 hb.2 hp), fun h => ?_,
    int64Body_wire xs, fun h => ?_⟩
  · exact int64Wire_initial a b ha.1 ha.2 hb.1 hb.2
      (show int64Wire a <+: int64Wire b from ⟨[], by rw [List.append_nil]; exact h⟩)
  · rw [int64Body_wire, int64Body_wire] at h
    exact int64Wire_unique xs ys hx hy h

/-- Witness of C25 at the values 1 and 12 and the slices `[1, 12]` and `[11, 2]`. -/
theorem WriteInt64_uniquelyDecodable_witness :
    (MinInt64 ≤ 1 ∧ (1 : Int) ≤ MaxInt64) ∧ (MinInt64 ≤ 12 ∧ (12 : Int) ≤ MaxInt64) ∧
    (∀ x ∈ ([1, 12] : List Int), MinInt64 ≤ x ∧ x ≤ MaxInt64) ∧
    (∀ y ∈ ([11, 2] : List Int), MinInt64 ≤ y ∧ y ≤ MaxInt64) ∧
    (1 : Int) ≠ 12 ∧
    ¬ (WriteInt64 (Writer.reliable []) 1).1.data <+: (WriteInt64 (Writer.reliable []) 12).1.data :=
  ⟨by decide, by decide, by decide, by decide, by decide,
    (WriteInt64_uniquelyDecodable 1 12 (by decide) (by decide) [1, 12] [11, 2] (by decide)
      (by decide)).1 (by decide)⟩

/-- Claim C26: for every byte string `s`, `utf16Length(s)` is non-negative if and only if
`s` is a concatenation of units of the shapes `[00..7F]`, `[C0..DF, cont]`,
`[E0..EF, cont, cont]`, `[F0..F7, cont, cont, cont]` with `cont` in `80..BF`; the result
is then the number of units plus the number of 4-byte units, which lies between 0 and
`len(s)` and is `len(s)` for pure ASCII; in every other case the result is exactly -1. -/
theorem utf16Length_units (s : List Nat) (hb : ∀ b ∈ s, b < 256) :
    (0 ≤ utf16Length s ↔ ∃ us : List (List Nat), (∀ u ∈ us, isUnit u) ∧ us.flatten = s) ∧
    (∀ us : List (List Nat), (∀ u ∈ us, isUnit u) → us.flatten = s →
      utf16Length s = ((us.length + (us.filter (fun u => u.length = 4)).length : Nat) : Int) ∧
      0 ≤ utf16Length s ∧ utf16Length s ≤ (s.length : Int)) ∧
    ((∀ b ∈ s, b ≤ 0x7F) → utf16Length s = (s.length : Int)) ∧
    ((¬ ∃ us : List (List Nat), (∀ u ∈ us, isUnit u) ∧ us.flatten = s) →
      utf16Length s = -1) := by
  have hscan := utf16Length_scan s hb
  have value : ∀ us : List (List Nat), (∀ u ∈ us, isUnit u) → us.flatten = s →
      utf16Length s = ((us.length + (us.filter (fun u => u.length = 4)).length : Nat) : Int) ∧
      0 ≤ utf16Length s ∧ utf16Length s ≤ (s.length : Int) := by
    intro us hu hs
    obtain ⟨h1, h2⟩ := units_scan_value us hu
    rw [hs] at h1 h2
    rw [h1] at hscan
    have e : utf16Length s
        = ((us.length + (us.filter (fun u => u.length = 4)).length : Nat) : Int) := hscan
    rw [e]
    exact ⟨rfl, Int.ofNat_nonneg _, by exact_mod_cast h2⟩
  have other : (¬ ∃ us : List (List Nat), (∀ u ∈ us, isUnit u) ∧ us.flatten = s) →
      utf16Length s = -1 := by
    intro hn
    cases hu : unitScan s with
    | none => rw [hu] at hscan; exact hscan
    | some u =>
      exfalso
      exact hn (unitScan_units s.length s (le_refl _) (by rw [hu]; simp))
  refine ⟨⟨fun h => ?_, fun ⟨us, hu, hs⟩ => (value us hu hs).2.1⟩, value, fun h => ?_, other⟩
  · by_contra hn
    rw [other hn] at h
    exact absurd h (by decide)
  · rw [unitScan_ascii s h] at hscan
    exact hscan

/-- Witness of C26 at `a`, U+00E9, U+20AC, U+1F600 and the ill-formed `F5 80 80 80`:
five units, two of them of 4 bytes. -/
theorem utf16Length_units_witness :
    (∀ b ∈ [0x61, 0xC3, 0xA9, 0xE2, 0x82, 0xAC, 0xF0, 0x9F, 0x98, 0x80, 0xF5, 0x80, 0x80, 0x80],
      b < 256) ∧
    (∀ u ∈ [[0x61], [0xC3, 0xA9], [0xE2, 0x82, 0xAC], [0xF0, 0x9F, 0x98, 0x80],
      [0xF5, 0x80, 0x80, 0x80]], isUnit u) ∧
    [[0x61], [0xC3, 0xA9], [0xE2, 0x82, 0xAC], [0xF0, 0x9F, 0x98, 0x80],
      [0xF5, 0x80, 0x80, 0x80]].flatten
      = [0x61, 0xC3, 0xA9, 0xE2, 0x82, 0xAC, 0xF0, 0x9F, 0x98, 0x80, 0xF5, 0x80, 0x80, 0x80] ∧
    utf16Length [0x61, 0xC3, 0xA9, 0xE2, 0x82, 0xAC, 0xF0, 0x9F, 0x98, 0x80, 0xF5, 0x80, 0x80, 0x80]
      = (([[0x61], [0xC3, 0xA9], [0xE2, 0x82, 0xAC], [0xF0, 0x9F, 0x98, 0x80],
          [0xF5, 0x80, 0x80, 0x80]].length
        + ([[0x61], [0xC3, 0xA9], [0xE2, 0x82, 0xAC], [0xF0, 0x9F, 0x98, 0x80],
          [0xF5, 0x80, 0x80, 0x80]].filter (fun u => u.length = 4)).length : Nat) : Int) :=
  ⟨by decide, by decide, by decide,
    ((utf16Length_units
      [0x61, 0xC3, 0xA9, 0xE2, 0x82, 0xAC, 0xF0, 0x9F, 0x98, 0x80, 0xF5, 0x80, 0x80, 0x80]
      (by decide)).2.1
      [[0x61], [0xC3, 0xA9], [0xE2, 0x82, 0xAC], [0xF0, 0x9F, 0x98, 0x80],
        [0xF5, 0x80, 0x80, 0x80]] (by decide) (by decide)).1⟩

end Hprose
